import Mathlib

/-!
Shallow embedding of the `tickets` repository's validation and repair engine.

The repository contains two parallel implementations of the same rule set:
`src/tickets/` (util.py, validation.py, repair.py) and `src/ticketslib/`
(utils.py, ticketing.py).  Both are embedded here.  Text is modelled as
`List Char`; Python `dict`s as ordered association lists; Python exceptions
as `Except`/`Option`.  External library behaviour (PyYAML scalar resolution,
`json.loads`, `uuid.UUID`, `datetime.fromisoformat`) is modelled on the
subset of inputs the engine feeds them, as documented at each definition.
-/

namespace TicketsProof

/-- Text is a list of characters. -/
abbrev Str := List Char

/-- Convert a Lean string literal to the `Str` representation. -/
def cs (s : String) : Str := s.data

/-- The newline character. -/
def nl : Char := '\n'

/-- Python `str` whitespace for `strip()`: space, tab, newline, carriage
return, vertical tab, form feed. -/
def isPyWs (c : Char) : Bool :=
  c == ' ' || c == '\t' || c == '\n' || c == '\r' || c == '\x0b' || c == '\x0c'

/-- Python `s.lstrip()`. -/
def pyLstrip (s : Str) : Str := s.dropWhile isPyWs

/-- Python `s.rstrip()`. -/
def pyRstrip (s : Str) : Str := (s.reverse.dropWhile isPyWs).reverse

/-- Python `s.strip()`. -/
def pyStrip (s : Str) : Str := pyRstrip (pyLstrip s)

/-- Python `s.lstrip("\n")`. -/
def lstripNl (s : Str) : Str := s.dropWhile (· == nl)

/-- Python `s.lower()` (ASCII as in all inputs of this code base). -/
def pyLower (s : Str) : Str := s.map Char.toLower

/-- Python `s.splitlines()` for texts whose only line break is `"\n"`
(the code base never writes `"\r"`). -/
def pySplitlines (s : Str) : List Str :=
  if s = [] then []
  else if s.getLast? = some nl then (s.splitOn nl).dropLast else s.splitOn nl

/-- Python `"\n".join(lines)`. -/
def joinNl (lines : List Str) : Str := (List.intercalate [nl] lines)

/-- If `pat` is a prefix of `s`, return the remainder of `s`. -/
def stripPre : Str → Str → Option Str
  | [], s => some s
  | p :: ps, s =>
    match s with
    | [] => none
    | c :: rest => if p == c then stripPre ps rest else none

/-- Split `s` at the first occurrence of the (nonempty) substring `pat`,
returning the parts before and after it. -/
def splitOnceSub (pat : Str) : Str → Option (Str × Str)
  | [] => none
  | c :: rest =>
    match stripPre pat (c :: rest) with
    | some r => some ([], r)
    | none =>
      match splitOnceSub pat rest with
      | some (l, r) => some (c :: l, r)
      | none => none

/-- Python `pat in s` (substring containment), for nonempty `pat`. -/
def hasSubstr (pat s : Str) : Bool := (splitOnceSub pat s).isSome

/-- Python `s.split(pat, 2)`: at most two splits, so one to three parts. -/
def pySplit2 (pat s : Str) : List Str :=
  match splitOnceSub pat s with
  | none => [s]
  | some (l1, r1) =>
    match splitOnceSub pat r1 with
    | none => [l1, r1]
    | some (l2, r2) => [l1, l2, r2]

/-- Python `s.replace(old, new)` for a single-character `old` replaced by
the empty string, i.e. `s.replace(":", "")`. -/
def removeChar (x : Char) (s : Str) : Str := s.filter (· != x)

/-- Python `s.rsplit(".", 1)[0]`: drop the shortest suffix starting at the
last `"."`; the whole string when there is no `"."`. -/
def rsplitDot (s : Str) : Str :=
  if '.' ∈ s then (s.reverse.dropWhile (· != '.')).reverse.dropLast else s

/-- Python `s.split("-", 1)[0]`: the part before the first `"-"`. -/
def beforeDash (s : Str) : Str := s.takeWhile (· != '-')

/-! ## YAML values

Header values are YAML-like dynamic values (`dict[str, Any]` in the source).
`timestamp` marks a value that PyYAML's implicit `tag:yaml.org,2002:timestamp`
resolver turned into a native `datetime` object; it records the source text.
`float` likewise records the source text of a float scalar. -/

inductive Yaml where
  | null : Yaml
  | bool (b : Bool) : Yaml
  | int (n : Int) : Yaml
  | float (src : Str) : Yaml
  | str (s : Str) : Yaml
  | timestamp (src : Str) : Yaml
  | list (xs : List Yaml) : Yaml
  | map (kvs : List (Str × Yaml)) : Yaml

mutual

/-- Structural equality test for `Yaml`, spelled out mutually with list
walkers so that it is structurally recursive and reduces in the kernel
(deriving does not support the nested occurrences). -/
def Yaml.beq : Yaml → Yaml → Bool
  | .null, .null => true
  | .bool a, .bool b => a == b
  | .int a, .int b => a == b
  | .float a, .float b => a == b
  | .str a, .str b => a == b
  | .timestamp a, .timestamp b => a == b
  | .list xs, .list ys => Yaml.beqL xs ys
  | .map xs, .map ys => Yaml.beqM xs ys
  | _, _ => false

def Yaml.beqL : List Yaml → List Yaml → Bool
  | [], [] => true
  | x :: xs, y :: ys => Yaml.beq x y && Yaml.beqL xs ys
  | _, _ => false

def Yaml.beqM : List (Str × Yaml) → List (Str × Yaml) → Bool
  | [], [] => true
  | (k1, v1) :: xs, (k2, v2) :: ys => k1 == k2 && Yaml.beq v1 v2 && Yaml.beqM xs ys
  | _, _ => false

end

theorem Yaml.beqL_refl_of (xs : List Yaml) (h : ∀ x ∈ xs, Yaml.beq x x = true) :
    Yaml.beqL xs xs = true := by
  induction xs with
  | nil => rfl
  | cons x t ih =>
    simp only [Yaml.beqL, Bool.and_eq_true]
    exact ⟨h x (List.mem_cons_self x t), ih (fun y hy => h y (List.mem_cons_of_mem x hy))⟩

theorem Yaml.beqM_refl_of (xs : List (Str × Yaml))
    (h : ∀ p ∈ xs, Yaml.beq p.2 p.2 = true) : Yaml.beqM xs xs = true := by
  induction xs with
  | nil => rfl
  | cons p t ih =>
    obtain ⟨k, v⟩ := p
    simp only [Yaml.beqM, Bool.and_eq_true]
    exact ⟨⟨by simp, h (k, v) (List.mem_cons_self _ t)⟩,
      ih (fun q hq => h q (List.mem_cons_of_mem _ hq))⟩

theorem Yaml.beq_refl : ∀ (a : Yaml), Yaml.beq a a = true := by
  have key : ∀ (n : Nat) (a : Yaml), sizeOf a ≤ n → Yaml.beq a a = true := by
    intro n
    induction n with
    | zero => intro a h; exact absurd h (by cases a <;> simp)
    | succ n ih =>
      intro a h
      match a with
      | .null | .bool _ | .int _ | .float _ | .str _ | .timestamp _ => simp [Yaml.beq]
      | .list xs =>
        show Yaml.beqL xs xs = true
        apply Yaml.beqL_refl_of
        intro x hx
        apply ih
        have hlt := List.sizeOf_lt_of_mem hx
        simp at h
        omega
      | .map kvs =>
        show Yaml.beqM kvs kvs = true
        apply Yaml.beqM_refl_of
        intro p hp
        apply ih
        have hlt := List.sizeOf_lt_of_mem hp
        obtain ⟨k, v⟩ := p
        simp at h hlt ⊢
        omega
  exact fun a => key (sizeOf a) a (Nat.le_refl _)

theorem Yaml.beqL_eq_of (xs ys : List Yaml)
    (h : ∀ x ∈ xs, ∀ y, Yaml.beq x y = true → x = y)
    (hbeq : Yaml.beqL xs ys = true) : xs = ys := by
  induction xs generalizing ys with
  | nil => cases ys with
    | nil => rfl
    | cons y t => cases hbeq
  | cons x t ih =>
    cases ys with
    | nil => cases hbeq
    | cons y ty =>
      simp only [Yaml.beqL, Bool.and_eq_true] at hbeq
      rw [h x (List.mem_cons_self x t) y hbeq.1,
        ih ty (fun z hz => h z (List.mem_cons_of_mem x hz)) hbeq.2]

theorem Yaml.beqM_eq_of (xs ys : List (Str × Yaml))
    (h : ∀ p ∈ xs, ∀ w, Yaml.beq p.2 w = true → p.2 = w)
    (hbeq : Yaml.beqM xs ys = true) : xs = ys := by
  induction xs generalizing ys with
  | nil => cases ys with
    | nil => rfl
    | cons y t => cases hbeq
  | cons p t ih =>
    obtain ⟨k, v⟩ := p
    cases ys with
    | nil => cases hbeq
    | cons q ty =>
      obtain ⟨k2, v2⟩ := q
      simp only [Yaml.beqM, Bool.and_eq_true] at hbeq
      have hk : k = k2 := by
        have h12 := hbeq.1.1; simp at h12; exact h12
      have hv : v = v2 := h (k, v) (List.mem_cons_self _ t) v2 hbeq.1.2
      rw [hk, hv, ih ty (fun z hz => h z (List.mem_cons_of_mem _ hz)) hbeq.2]

theorem Yaml.eq_of_beq : ∀ (a b : Yaml), Yaml.beq a b = true → a = b := by
  have key : ∀ (n : Nat) (a b : Yaml), sizeOf a ≤ n → Yaml.beq a b = true → a = b := by
    intro n
    induction n with
    | zero => intro a b h hbeq; exact absurd h (by cases a <;> simp)
    | succ n ih =>
      intro a b h hbeq
      match a, b with
      | .null, .null => rfl
      | .bool _, .bool _ => simp [Yaml.beq] at hbeq; simp [hbeq]
      | .int _, .int _ => simp [Yaml.beq] at hbeq; simp [hbeq]
      | .float _, .float _ => simp [Yaml.beq] at hbeq; simp [hbeq]
      | .str _, .str _ => simp [Yaml.beq] at hbeq; simp [hbeq]
      | .timestamp _, .timestamp _ => simp [Yaml.beq] at hbeq; simp [hbeq]
      | .list xs, .list ys =>
        have hb : Yaml.beqL xs ys = true := hbeq
        have hxs : xs = ys := by
          apply Yaml.beqL_eq_of xs ys ?_ hb
          intro x hx y hxy
          apply ih x y ?_ hxy
          have hlt := List.sizeOf_lt_of_mem hx
          simp at h
          omega
        rw [hxs]
      | .map xs, .map ys =>
        have hb : Yaml.beqM xs ys = true := hbeq
        have hxs : xs = ys := by
          apply Yaml.beqM_eq_of xs ys ?_ hb
          intro p hp w hpw
          apply ih p.2 w ?_ hpw
          have hlt := List.sizeOf_lt_of_mem hp
          obtain ⟨k, v⟩ := p
          simp at h hlt ⊢
          omega
        rw [hxs]
      | .null, .bool _ | .null, .int _ | .null, .float _ | .null, .str _
      | .null, .timestamp _ | .null, .list _ | .null, .map _
      | .bool _, .null | .bool _, .int _ | .bool _, .float _ | .bool _, .str _
      | .bool _, .timestamp _ | .bool _, .list _ | .bool _, .map _
      | .int _, .null | .int _, .bool _ | .int _, .float _ | .int _, .str _
      | .int _, .timestamp _ | .int _, .list _ | .int _, .map _
      | .float _, .null | .float _, .bool _ | .float _, .int _ | .float _, .str _
      | .float _, .timestamp _ | .float _, .list _ | .float _, .map _
      | .str _, .null | .str _, .bool _ | .str _, .int _ | .str _, .float _
      | .str _, .timestamp _ | .str _, .list _ | .str _, .map _
      | .timestamp _, .null | .timestamp _, .bool _ | .timestamp _, .int _
      | .timestamp _, .float _ | .timestamp _, .str _ | .timestamp _, .list _
      | .timestamp _, .map _
      | .list _, .null | .list _, .bool _ | .list _, .int _ | .list _, .float _
      | .list _, .str _ | .list _, .timestamp _ | .list _, .map _
      | .map _, .null | .map _, .bool _ | .map _, .int _ | .map _, .float _
      | .map _, .str _ | .map _, .timestamp _ | .map _, .list _ =>
        simp [Yaml.beq] at hbeq
  exact fun a b => key (sizeOf a) a b (Nat.le_refl _)

instance : DecidableEq Yaml := fun a b =>
  decidable_of_iff (Yaml.beq a b = true)
    ⟨Yaml.eq_of_beq a b, fun h => h ▸ Yaml.beq_refl a⟩

/-- A parsed front matter: an insertion-ordered `dict[str, Any]`. -/
abbrev FM := List (Str × Yaml)

/-- `k in fm` on a Python dict. -/
def fmHas (fm : FM) (k : Str) : Bool := fm.any (fun p => p.1 == k)

/-- `fm[k]` lookup; `none` when absent. -/
def fmFind (fm : FM) (k : Str) : Option Yaml := (fm.find? (fun p => p.1 == k)).map (·.2)

/-- Python `fm.get(k)`: `None` when the key is absent.  A stored `None`
value and an absent key are both Python `None`, so both map to `.null`. -/
def pyGet (fm : FM) (k : Str) : Yaml := (fmFind fm k).getD .null

/-- Python `d.get(k)` on a nested mapping value. -/
def mapGet (kvs : List (Str × Yaml)) (k : Str) : Yaml :=
  ((kvs.find? (fun p => p.1 == k)).map (·.2)).getD .null

/-- `fm[k] = v` on a Python dict: overwrite in place, else append. -/
def fmSet (fm : FM) (k : Str) (v : Yaml) : FM :=
  if fmHas fm k then fm.map (fun p => if p.1 == k then (k, v) else p)
  else fm ++ [(k, v)]

/-! ## PyYAML scalar resolution

Models the implicit resolvers applied to plain scalars, on the subset of
tags this code base can meet: null, bool, int, float, timestamp, str.
`useTs` is true for `yaml.safe_load` (used by `tickets/util.load_ticket`)
and false for the `NoTimestampLoader` of `ticketslib.ticketing`, which
strips the `tag:yaml.org,2002:timestamp` implicit resolver. -/

def isDigitCh (c : Char) : Bool := '0' ≤ c && c ≤ '9'

/-- Chomp between `lo` and `hi` leading digits (the digit runs in the YAML
timestamp regex are always followed by a non-digit, so greedy is exact). -/
def chompDigits (lo hi : Nat) (s : Str) : Option Str :=
  let n := (s.takeWhile isDigitCh).length
  if lo ≤ n && n ≤ hi then some (s.dropWhile isDigitCh) else none

def chompChar (c : Char) : Str → Option Str
  | [] => none
  | x :: rest => if x == c then some rest else none

/-- `(?:[Tt]|[ \t]+)` between date and time. -/
def chompTsSep : Str → Option Str
  | [] => none
  | x :: rest =>
    if x == 'T' || x == 't' then some rest
    else if x == ' ' || x == '\t' then some (rest.dropWhile (fun c => c == ' ' || c == '\t'))
    else none

/-- `(?:\.[0-9]*)?`. -/
def chompFrac (s : Str) : Str :=
  match s with
  | '.' :: rest => rest.dropWhile isDigitCh
  | _ => s

/-- `(?:[ \t]*(?:Z|[-+][0-9][0-9]?(?::[0-9][0-9])?))?` then end of input. -/
def chompTzEnd (s : Str) : Bool :=
  if s = [] then true
  else
    let s := s.dropWhile (fun c => c == ' ' || c == '\t')
    match s with
    | ['Z'] => true
    | c :: rest =>
      if c == '+' || c == '-' then
        match chompDigits 1 2 rest with
        | none => false
        | some r =>
          match r with
          | [] => true
          | ':' :: r2 => (chompDigits 2 2 r2) = some []
          | _ => false
      else false
    | [] => false

/-- PyYAML's `tag:yaml.org,2002:timestamp` implicit-resolver regex. -/
def isYamlTs (s : Str) : Bool :=
  -- first alternative: `[0-9]{4}-[0-9]{2}-[0-9]{2}$`
  (match chompDigits 4 4 s with
   | none => false
   | some r =>
     match chompChar '-' r >>= chompDigits 2 2 >>= chompChar '-' >>= chompDigits 2 2 with
     | some [] => true
     | _ => false)
  ||
  -- second alternative: date, separator, `H?H:MM:SS`, fraction, timezone
  (match chompDigits 4 4 s >>= chompChar '-' >>= chompDigits 1 2 >>=
         chompChar '-' >>= chompDigits 1 2 >>= chompTsSep >>=
         chompDigits 1 2 >>= chompChar ':' >>= chompDigits 2 2 >>=
         chompChar ':' >>= chompDigits 2 2 with
   | none => false
   | some r => chompTzEnd (chompFrac r))

/-- PyYAML null scalars (subset; plus the empty scalar). -/
def isYamlNull (s : Str) : Bool :=
  s == cs "null" || s == cs "Null" || s == cs "NULL" || s == cs "~" || s == []

def isYamlTrue (s : Str) : Bool := s == cs "true" || s == cs "True" || s == cs "TRUE"

def isYamlFalse (s : Str) : Bool := s == cs "false" || s == cs "False" || s == cs "FALSE"

/-- Decimal integer scalar: optional sign, then digits. -/
def isIntLit (s : Str) : Bool :=
  match s with
  | '-' :: rest => rest ≠ [] && rest.all isDigitCh
  | '+' :: rest => rest ≠ [] && rest.all isDigitCh
  | _ => s ≠ [] && s.all isDigitCh

def digitVal (c : Char) : Nat := c.toNat - '0'.toNat

def natOfDigits (s : Str) : Nat := s.foldl (fun acc c => 10 * acc + digitVal c) 0

def intOfLit (s : Str) : Int :=
  match s with
  | '-' :: rest => -(natOfDigits rest : Int)
  | '+' :: rest => (natOfDigits rest : Int)
  | _ => (natOfDigits s : Int)

/-- Strip one leading sign. -/
def floatBody (s : Str) : Str :=
  match s with
  | '-' :: rest => rest
  | '+' :: rest => rest
  | _ => s

/-- Float scalar (subset): optional sign, digits with one `.`. -/
def isFloatLit (s : Str) : Bool :=
  match splitOnceSub (cs ".") (floatBody s) with
  | none => false
  | some (a, b) => (a ++ b) ≠ [] && (a ++ b).all isDigitCh && !(hasSubstr (cs ".") b)

/-- Resolve a plain scalar, as PyYAML's implicit resolvers do.  With
`useTs` false the timestamp resolver is absent and such scalars stay
strings (`NoTimestampLoader`). -/
def resolvePlain (useTs : Bool) (v : Str) : Yaml :=
  if isYamlNull v then .null
  else if isYamlTrue v then .bool true
  else if isYamlFalse v then .bool false
  else if isIntLit v then .int (intOfLit v)
  else if isFloatLit v then .float v
  else if useTs && isYamlTs v then .timestamp v
  else .str v

/-- Parse one scalar token: single-quoted string or plain scalar
(the dumper below only produces these two forms). -/
def parseScalar (useTs : Bool) (raw : Str) : Option Yaml :=
  let v := pyStrip raw
  if v.head? = some '\'' then
    match v.tail.getLast? with
    | some q =>
      if q == '\'' && !(v.tail.dropLast.any (· == '\'')) then some (.str v.tail.dropLast)
      else none
    | none => none
  else if v.any (· == '\'') || v.any (· == '"') then none
  else some (resolvePlain useTs v)

/-- Parse one `key: value` line of a flat block mapping. -/
def parseFMLine (useTs : Bool) (line : Str) : Option (Str × Yaml) :=
  match splitOnceSub (cs ": ") line with
  | some (k, raw) =>
    let key := pyStrip k
    if key = [] || key.any (· == ':') then none
    else (parseScalar useTs raw).map (fun v => (key, v))
  | none =>
    let t := pyStrip line
    match t.getLast? with
    | some c =>
      if c == ':' && !(t.dropLast.any (· == ':')) && pyStrip t.dropLast ≠ [] then
        some (pyStrip t.dropLast, .null)
      else none
    | none => none

/-- Parse the lines of a flat block mapping, building the dict in order
(later duplicate keys overwrite in place, as in a Python dict). -/
def parseFMLinesAcc (useTs : Bool) : List Str → FM → Option FM
  | [], acc => some acc
  | line :: rest, acc =>
    if pyStrip line = [] then parseFMLinesAcc useTs rest acc
    else
      match parseFMLine useTs line with
      | none => none
      | some (k, v) => parseFMLinesAcc useTs rest (fmSet acc k v)

/-- `yaml.load(text, Loader)` restricted to flat block mappings (the shape
this code base reads and writes); blank input yields the empty mapping,
matching the sources' `yaml.safe_load(t) or {}`. -/
def parseYamlMapping (useTs : Bool) (text : Str) : Option FM :=
  parseFMLinesAcc useTs (pySplitlines text) []

/-! ## PyYAML dumper (`yaml.safe_dump(fm, sort_keys=False)`)

Modelled for flat mappings of scalar values.  A string scalar is emitted
plain unless the implicit resolvers would read it back as a non-string
(then PyYAML single-quotes it), which is exactly the case for
timestamp-shaped values such as `created_at`. -/

def dumpScalar : Yaml → Option Str
  | .str v =>
    if v = [] then some (cs "''")
    else if (match resolvePlain true v with | .str _ => false | _ => true) then
      some ('\'' :: v ++ ['\''])
    else some v
  | .int n => some (cs (toString n))
  | .bool b => some (cs (if b then "true" else "false"))
  | .null => some (cs "null")
  | _ => none

/-- `yaml.safe_dump(fm, sort_keys=False)`: one `key: value` line per entry,
insertion order preserved, trailing newline per line.  Only the flat-scalar
subset is modelled; other shapes are out of the model (`none`). -/
def dumpFM : FM → Option Str
  | [] => some []
  | (k, v) :: rest =>
    match dumpScalar v with
    | none => none
    | some sv =>
      match dumpFM rest with
      | none => none
      | some srest => some (k ++ cs ": " ++ sv ++ nl :: srest)

/-! ## Record codecs -/

/-- `tickets/util.load_ticket` (minus the file read): split on the first two
occurrences of `"---"` anywhere in the text, YAML-parse the middle with
`yaml.safe_load` (timestamp inference ON), body is the rest with leading
newlines stripped.  Any failure raises, modelled as `.error`. -/
def load_ticket (text : Str) : Except Str (FM × Str) :=
  if !((cs "---").isPrefixOf text) then .error (cs "Missing front matter start '---'")
  else
    match pySplit2 (cs "---") text with
    | [_, fmText, rest] =>
      match parseYamlMapping true fmText with
      | none => .error (cs "yaml error")
      | some fm => .ok (fm, lstripNl rest)
    | _ => .error (cs "Malformed front matter")

/-- `tickets/util.write_ticket` (minus the file write):
`"\n".join(["---", dump(fm).rstrip(), "---", body.strip() + "\n"])`. -/
def write_ticket (fm : FM) (body : Str) : Option Str :=
  (dumpFM fm).map (fun fmText =>
    joinNl [cs "---", pyRstrip fmText, cs "---", pyStrip body ++ [nl]])

/-- `ticketslib.ticketing.split_front_matter`: line-based split; the first
line must strip to `"---"`, the header ends at the first subsequent line
equal to `"---"`; the header block is parsed with `NoTimestampLoader`
(timestamp inference OFF) and must be a mapping. -/
def split_front_matter (content : Str) : Except Str (FM × Str) :=
  let lines := pySplitlines content
  match lines.head? with
  | none => .error (cs "Missing YAML front matter")
  | some l0 =>
    if pyStrip l0 ≠ cs "---" then .error (cs "Missing YAML front matter")
    else
      match (lines.drop 1).findIdx? (· == cs "---") with
      | none => .error (cs "Unterminated YAML front matter")
      | some i =>
        let endIndex := i + 1
        let fmText := joinNl ((lines.drop 1).take i)
        let body := joinNl (lines.drop (endIndex + 1))
        match parseYamlMapping false fmText with
        | none => .error (cs "Invalid YAML front matter")
        | some fm => .ok (fm, body)

/-- The serialization used by `ticketslib.ticketing.repair_ticket`:
`"---\n" + yaml.safe_dump(front, sort_keys=False).strip() + "\n---\n" + body.lstrip()`. -/
def lib_serialize (fm : FM) (body : Str) : Option Str :=
  (dumpFM fm).map (fun fmText =>
    cs "---" ++ nl :: pyStrip fmText ++ nl :: cs "---" ++ nl :: pyLstrip body)

/-! ## Identifier module

`ticketslib/utils.py` generates UUIDv7 values by bit-packing
`(ts_ms << 80) | (0x7 << 76) | (rand_a << 64) | (0x2 << 62) | rand_b` and
rendering through `uuid.UUID(int=...)`; both repositories recognize them
with a regex plus `uuid.UUID(value).version == 7` (the `version` property
reads bits 76..79 and is only defined when the variant bits 62..63 are
`10`, i.e. RFC 4122). -/

def isLowerHexDigit (c : Char) : Bool := isDigitCh c || ('a' ≤ c && c ≤ 'f')

def hexVal (c : Char) : Nat := if isDigitCh c then digitVal c else c.toNat - 'a'.toNat + 10

def natOfHex (s : Str) : Nat := s.foldl (fun acc c => 16 * acc + hexVal c) 0

def hexDigitChar (n : Nat) : Char :=
  if n < 10 then Char.ofNat ('0'.toNat + n) else Char.ofNat ('a'.toNat + (n - 10))

/-- Exactly `k` lowercase hex digits of `n % 16 ^ k`, most significant first. -/
def toHexBE : Nat → Nat → Str
  | 0, _ => []
  | k + 1, n => toHexBE k (n / 16) ++ [hexDigitChar (n % 16)]

/-- `str(uuid.UUID(int=n))`: 32 lowercase hex digits in 8-4-4-4-12 groups. -/
def uuidStrOfNat (n : Nat) : Str :=
  let h := toHexBE 32 n
  h.take 8 ++ '-' :: (h.drop 8).take 4 ++ '-' :: (h.drop 12).take 4 ++
    '-' :: (h.drop 16).take 4 ++ '-' :: h.drop 20

/-- `ticketslib.utils.generate_uuidv7`, with the three dynamic inputs
(`int(time.time()*1000)`, `getrandbits(12)`, `getrandbits(62)`) passed in. -/
def generate_uuidv7 (tsMs randA randB : Nat) : Str :=
  uuidStrOfNat ((tsMs <<< 80) ||| (7 <<< 76) ||| (randA <<< 64) ||| (2 <<< 62) ||| randB)

/-- `tickets/util.UUID_RE`:
`^[0-9a-f]{8}-[0-9a-f]{4}-[0-9a-f]{4}-[0-9a-f]{4}-[0-9a-f]{12}$`. -/
def UUID_RE_match (s : Str) : Bool :=
  match s.splitOn '-' with
  | [a, b, c, d, e] =>
    a.length == 8 && b.length == 4 && c.length == 4 && d.length == 4 && e.length == 12 &&
      (a ++ b ++ c ++ d ++ e).all isLowerHexDigit
  | _ => false

/-- `ticketslib.utils.UUID_V7_REGEX`: as above but the third group is
`7[0-9a-f]{3}`. -/
def UUID_V7_RE_match (s : Str) : Bool :=
  match s.splitOn '-' with
  | [a, b, c, d, e] =>
    a.length == 8 && b.length == 4 && c.length == 4 && d.length == 4 && e.length == 12 &&
      c.head? == some '7' && (a ++ b ++ c ++ d ++ e).all isLowerHexDigit
  | _ => false

/-- The 128-bit integer of a dashed uuid string (`uuid.UUID(value).int`). -/
def uuidIntOf (s : Str) : Nat := natOfHex (s.filter (· != '-'))

/-- `uuid.UUID.variant == uuid.RFC_4122`: bits 62..63 are `10`. -/
def uuidVariantRfc (n : Nat) : Bool := n / 2 ^ 62 % 4 == 2

/-- The version bits 76..79 of a uuid integer. -/
def uuidVersionBits (n : Nat) : Nat := n / 2 ^ 76 % 16

/-- `tickets/util.is_uuidv7`: regex match plus `UUID(value).version == 7`
(the `version` property yields `None` unless the variant is RFC 4122). -/
def tickets_is_uuidv7 (s : Str) : Bool :=
  UUID_RE_match s && uuidVariantRfc (uuidIntOf s) && uuidVersionBits (uuidIntOf s) == 7

/-- `ticketslib.utils.is_uuidv7`: regex match plus
`parsed.version == 7 and parsed.variant == uuid.RFC_4122`. -/
def lib_is_uuidv7 (s : Str) : Bool :=
  UUID_V7_RE_match s && uuidVariantRfc (uuidIntOf s) && uuidVersionBits (uuidIntOf s) == 7

/-- `is_uuidv7` applied to a dynamic header value: `isinstance(value, str)`
guards the string check in both implementations. -/
def yamlIsUuidStr (f : Str → Bool) : Yaml → Bool
  | .str s => f s
  | _ => false

/-! ## ISO-8601 UTC timestamps -/

structure PyDateTime where
  year : Nat
  month : Nat
  day : Nat
  hour : Nat
  minute : Nat
  second : Nat
  micro : Nat
deriving DecidableEq

def isLeapYear (y : Nat) : Bool := (y % 4 == 0 && y % 100 != 0) || y % 400 == 0

def daysInMonth (y m : Nat) : Nat :=
  if m == 2 then (if isLeapYear y then 29 else 28)
  else if m == 4 || m == 6 || m == 9 || m == 11 then 30 else 31

/-- Range checks of `datetime`: what `fromisoformat` accepts after the
shape has matched. -/
def dtValid (d : PyDateTime) : Bool :=
  1 ≤ d.year && d.year ≤ 9999 && 1 ≤ d.month && d.month ≤ 12 &&
  1 ≤ d.day && d.day ≤ daysInMonth d.year d.month &&
  d.hour < 24 && d.minute < 60 && d.second < 60 && d.micro < 1000000

/-- Read exactly `k` digits as a number. -/
def takeNDigits (k : Nat) (s : Str) : Option (Nat × Str) :=
  let ds := s.take k
  if ds.length == k && ds.all isDigitCh then some (natOfDigits ds, s.drop k) else none

/-- `ticketslib.utils.parse_iso_utc`: the string must match
`^\d{4}-\d{2}-\d{2}T\d{2}:\d{2}:\d{2}(?:\.\d{1,6})?Z$` and then pass
`datetime.fromisoformat`'s range checks. -/
def parse_iso_utc (s : Str) : Option PyDateTime :=
  match takeNDigits 4 s with
  | none => none
  | some (y, r) =>
    match chompChar '-' r >>= takeNDigits 2 with
    | none => none
    | some (mo, r) =>
      match chompChar '-' r >>= takeNDigits 2 with
      | none => none
      | some (d, r) =>
        match chompChar 'T' r >>= takeNDigits 2 with
        | none => none
        | some (h, r) =>
          match chompChar ':' r >>= takeNDigits 2 with
          | none => none
          | some (mi, r) =>
            match chompChar ':' r >>= takeNDigits 2 with
            | none => none
            | some (se, r) =>
              let fracEnd : Option Nat :=
                match r with
                | ['Z'] => some 0
                | '.' :: rest =>
                  let ds := rest.takeWhile isDigitCh
                  if 1 ≤ ds.length && ds.length ≤ 6 && rest.dropWhile isDigitCh == ['Z'] then
                    some (natOfDigits ds * 10 ^ (6 - ds.length))
                  else none
                | _ => none
              match fracEnd with
              | none => none
              | some us =>
                let dt : PyDateTime := ⟨y, mo, d, h, mi, se, us⟩
                if dtValid dt then some dt else none

/-- Exactly `k` decimal digits of `n % 10 ^ k`, most significant first. -/
def decBE : Nat → Nat → Str
  | 0, _ => []
  | k + 1, n => decBE k (n / 10) ++ [Char.ofNat ('0'.toNat + n % 10)]

/-- `ticketslib.utils.format_iso_utc` on an aware UTC datetime:
`isoformat()` (microseconds printed as six digits only when nonzero)
with `+00:00` replaced by `Z`. -/
def format_iso_utc (d : PyDateTime) : Str :=
  decBE 4 d.year ++ '-' :: decBE 2 d.month ++ '-' :: decBE 2 d.day ++
    'T' :: decBE 2 d.hour ++ ':' :: decBE 2 d.minute ++ ':' :: decBE 2 d.second ++
    (if d.micro == 0 then [] else '.' :: decBE 6 d.micro) ++ [ 'Z' ]

/-- `tickets/util.parse_iso`: `datetime.fromisoformat(s.replace("Z", "+00:00"))`,
`None` on failure.  Modelled on the subset
`YYYY-MM-DD[(T| )HH:MM[:SS[.frac]]][±HH:MM]` of the Python 3.11 grammar,
which covers every timestamp shape this code base produces. -/
def parse_iso (s : Str) : Option PyDateTime :=
  let s := if s.getLast? == some 'Z' then s.dropLast ++ cs "+00:00" else s
  if s.any (· == 'Z') then none
  else
    match takeNDigits 4 s with
    | none => none
    | some (y, r) =>
      match chompChar '-' r >>= takeNDigits 2 with
      | none => none
      | some (mo, r) =>
        match chompChar '-' r >>= takeNDigits 2 with
        | none => none
        | some (d, r) =>
          let hmPart : Option (Nat × Nat × Nat × Nat × Str) :=
            match r with
            | [] => some (0, 0, 0, 0, [])
            | c :: rest =>
              if c == 'T' || c == ' ' then
                match takeNDigits 2 rest with
                | none => none
                | some (h, r2) =>
                  match chompChar ':' r2 >>= takeNDigits 2 with
                  | none => none
                  | some (mi, r3) =>
                    match r3 with
                    | ':' :: r4 =>
                      match takeNDigits 2 r4 with
                      | none => none
                      | some (se, r5) =>
                        match r5 with
                        | '.' :: r6 =>
                          let ds := r6.takeWhile isDigitCh
                          if 1 ≤ ds.length && ds.length ≤ 6 then
                            some (h, mi, se, natOfDigits ds * 10 ^ (6 - ds.length),
                                  r6.dropWhile isDigitCh)
                          else none
                        | _ => some (h, mi, se, 0, r5)
                    | _ => some (h, mi, 0, 0, r3)
              else none
          match hmPart with
          | none => none
          | some (h, mi, se, us, r) =>
            let offOk : Bool :=
              match r with
              | [] => true
              | c :: rest =>
                (c == '+' || c == '-') &&
                  (match takeNDigits 2 rest with
                   | some (oh, ':' :: r2) =>
                     (match takeNDigits 2 r2 with
                      | some (om, []) => oh < 24 && om < 60
                      | _ => false)
                   | _ => false)
            let dt : PyDateTime := ⟨y, mo, d, h, mi, se, us⟩
            if offOk && dtValid dt then some dt else none

/-! ## Python truthiness for dynamic values -/

def floatSrcIsZero (s : Str) : Bool := s.all (fun c => c == '0' || c == '.' || c == '+' || c == '-')

def pyTruthy : Yaml → Bool
  | .null => false
  | .bool b => b
  | .int n => n != 0
  | .float s => !(floatSrcIsZero s)
  | .str s => s != []
  | .timestamp _ => true
  | .list xs => !xs.isEmpty
  | .map kvs => !kvs.isEmpty

/-- Python `isinstance(v, int)` (bools are ints in Python). -/
def yamlIsInt : Yaml → Bool
  | .int _ => true
  | .bool _ => true
  | _ => false

/-- The integer value behind `yamlIsInt`. -/
def yamlIntVal : Yaml → Int
  | .int n => n
  | .bool b => if b then 1 else 0
  | _ => 0

def yamlIsStr : Yaml → Bool
  | .str _ => true
  | _ => false

/-! ## Ticket validator of `tickets/validation.py` (`validate_ticket`)

Issues are plain dicts there; `TIssue` carries their fields
(`severity`, `code`, `message`, `ticket_path`/`log` target, the optional
line of a log location, and the `optional: True` marker). -/

structure TIssue where
  severity : String
  code : String
  message : Str
  path : Str
  line : Option Nat := none
  optionalFlag : Bool := false
deriving DecidableEq

def mkTI (sev code : String) (msg : String) (path : Str) : TIssue :=
  ⟨sev, code, cs msg, path, none, false⟩

def mkTIOpt (sev code : String) (msg : String) (path : Str) : TIssue :=
  ⟨sev, code, cs msg, path, none, true⟩

def STATUS_LIST : List Yaml :=
  [.str (cs "todo"), .str (cs "doing"), .str (cs "blocked"), .str (cs "done"),
   .str (cs "canceled")]

def PRIORITY_LIST : List Yaml :=
  [.str (cs "low"), .str (cs "medium"), .str (cs "high"), .str (cs "critical")]

def ASSIGNMENT_MODE_LIST : List Yaml :=
  [.str (cs "human_only"), .str (cs "agent_only"), .str (cs "mixed")]

def REQUIRED_SECTIONS : List Str :=
  [cs "# Ticket", cs "## Description", cs "## Acceptance Criteria", cs "## Verification"]

def AGENT_LIMIT_KEYS : List Str :=
  [cs "iteration_timebox_minutes", cs "max_iterations", cs "max_tool_calls",
   cs "checkpoint_every_minutes"]

/-- The id rule of `tickets/validation.py validate_ticket` (line 31):
present ids must be strings accepted by `util.is_uuidv7`. -/
def tickets_id_issues (path : Str) (fm : FM) : List TIssue :=
  if fmHas fm (cs "id") && !(yamlIsUuidStr tickets_is_uuidv7 (pyGet fm (cs "id"))) then
    [mkTI "error" "ID_NOT_UUIDV7" "id must be UUIDv7" path]
  else []

/-- The status rule of `tickets/validation.py validate_ticket` (line 39):
exact, case-sensitive membership in the five lowercase enum values. -/
def tickets_status_issues (path : Str) (fm : FM) : List TIssue :=
  if fmHas fm (cs "status") && !(STATUS_LIST.contains (pyGet fm (cs "status"))) then
    [mkTI "error" "STATUS_INVALID" "status invalid" path]
  else []

/-- The body of `tickets/validation.py validate_ticket` after a successful
load: the rule checks in source order, appending issue dicts. -/
def tickets_validate_fm (path : Str) (fm : FM) (body : Str) (allFields : Bool) :
    List TIssue :=
  let is0 : List TIssue := []
  -- required fields
  let is1 := is0 ++
    ((([(cs "id", "MISSING_ID", "Missing id"), (cs "title", "MISSING_TITLE", "Missing title"),
        (cs "status", "MISSING_STATUS", "Missing status"),
        (cs "created_at", "MISSING_CREATED_AT", "Missing created_at")] :
          List (Str × String × String)).filter (fun p => !(fmHas fm p.1))).map
      (fun p => mkTI "error" p.2.1 p.2.2 path))
  -- id
  let is2 := is1 ++ tickets_id_issues path fm
  -- created_at
  let is3 := if fmHas fm (cs "created_at") &&
      !(match pyGet fm (cs "created_at") with
        | .str s => (parse_iso s).isSome
        | _ => false) then
    is2 ++ [mkTI "error" "CREATED_AT_INVALID" "created_at must be ISO8601 UTC" path] else is2
  -- status
  let is4 := is3 ++ tickets_status_issues path fm
  -- assignment
  let is5 :=
    if fmHas fm (cs "assignment") then
      match pyGet fm (cs "assignment") with
      | .map kvs =>
        let mode := mapGet kvs (cs "mode")
        if pyTruthy mode && !(ASSIGNMENT_MODE_LIST.contains mode) then
          is4 ++ [mkTI "error" "ASSIGNMENT_MODE_INVALID" "assignment.mode invalid" path]
        else is4
      | _ => is4 ++ [mkTI "error" "ASSIGNMENT_INVALID" "assignment must be mapping" path]
    else is4
  -- relationship lists
  let relCheck : Str → List TIssue := fun key =>
    if fmHas fm key then
      match pyGet fm key with
      | .list xs =>
        (xs.filter (fun e => !(yamlIsUuidStr tickets_is_uuidv7 e))).map
          (fun _ => mkTI "error" "RELATIONSHIP_ID_INVALID"
            (String.mk key ++ " entries must be UUIDv7") path)
      | _ => [mkTI "error" "RELATIONSHIP_TYPE_INVALID" (String.mk key ++ " must be list") path]
    else []
  let is6 := is5 ++ relCheck (cs "dependencies") ++ relCheck (cs "blocks") ++
    relCheck (cs "related")
  -- forbidden keys
  let is7 := is6 ++
    (([cs "parent", cs "subtickets", cs "supersedes", cs "duplicate_of"].filter
        (fun k => fmHas fm k)).map
      (fun k => mkTI "error" "RELATIONSHIP_KEY_FORBIDDEN"
        (String.mk k ++ " not allowed in ticket.md") path))
  -- agent limits
  let is8 :=
    if fmHas fm (cs "agent_limits") then
      match pyGet fm (cs "agent_limits") with
      | .map kvs =>
        is7 ++ ((AGENT_LIMIT_KEYS.filter (fun k =>
            kvs.any (fun p => p.1 == k) &&
              (let v := mapGet kvs k
               !(yamlIsInt v) || yamlIntVal v ≤ 0))).map
          (fun k => mkTI "error" "AGENT_LIMIT_VALUE_INVALID"
            (String.mk k ++ " must be positive int") path))
      | _ => is7 ++ [mkTI "error" "AGENT_LIMITS_INVALID" "agent_limits must be mapping" path]
    else is7
  -- optional fields (only with --all-fields)
  let is9 :=
    if allFields then
      let p1 := if fmHas fm (cs "priority") &&
          !(PRIORITY_LIST.contains (pyGet fm (cs "priority"))) then
        [mkTIOpt "error" "PRIORITY_INVALID" "priority must be low|medium|high|critical" path]
        else []
      let p2 :=
        if fmHas fm (cs "labels") then
          match pyGet fm (cs "labels") with
          | .list xs =>
            (xs.filter (fun e => !(yamlIsStr e))).map
              (fun _ => mkTIOpt "error" "LABEL_INVALID_ENTRY" "labels entries must be strings" path)
          | _ => [mkTIOpt "error" "LABELS_NOT_LIST" "labels must be list of strings" path]
        else []
      let p3 :=
        if fmHas fm (cs "assignment") then
          match pyGet fm (cs "assignment") with
          | .map kvs =>
            let owner := mapGet kvs (cs "owner")
            if owner != .null && !(yamlIsStr owner) then
              [mkTIOpt "error" "ASSIGNMENT_OWNER_INVALID" "assignment.owner must be string" path]
            else []
          | _ => []
        else []
      let p4 :=
        if fmHas fm (cs "verification") then
          match pyGet fm (cs "verification") with
          | .map kvs =>
            (match mapGet kvs (cs "commands") with
             | .null => []
             | .list xs =>
               (xs.filter (fun e => !(yamlIsStr e))).map
                 (fun _ => mkTIOpt "error" "VERIFICATION_COMMAND_INVALID"
                   "verification.commands entries must be strings" path)
             | _ => [mkTIOpt "error" "VERIFICATION_COMMANDS_INVALID"
                 "verification.commands must be list of strings" path])
          | _ => [mkTIOpt "error" "VERIFICATION_INVALID" "verification must be mapping" path]
        else []
      is8 ++ p1 ++ p2 ++ p3 ++ p4
    else is8
  -- body sections
  is9 ++ ((REQUIRED_SECTIONS.filter (fun h => !(hasSubstr h body))).map
    (fun h => mkTI "error" "MISSING_SECTION" ("Missing section " ++ String.mk h) path))

/-- `tickets/validation.py validate_ticket`: load, then the rule checks;
a load failure is one `TICKET_FRONT_MATTER_INVALID` error. -/
def tickets_validate_ticket (path text : Str) (allFields : Bool) :
    List TIssue × FM × Str :=
  match load_ticket text with
  | .error msg => ([⟨"error", "TICKET_FRONT_MATTER_INVALID", msg, path, none, false⟩], [], [])
  | .ok (fm, body) => (tickets_validate_fm path fm body allFields, fm, body)

/-! ## Ticket validator of `ticketslib/ticketing.py` (`validate_ticket`)

Issues here are `Issue` dataclasses with sequential ids `I0001, …`;
repairs are dicts with sequential ids `R0001, …` referencing the last
issue appended. -/

structure Ticket where
  path : Str
  front_matter : FM
  body : Str
deriving DecidableEq

structure LIssue where
  issue_id : String
  severity : String
  code : String
  message : Str
  path : Str
  line : Option Nat := none
deriving DecidableEq

structure LRepair where
  rid : String
  enabled : Bool
  safe : Bool
  issue_ids : List String
  action : String
  path : Str
  params : List (String × Yaml)
deriving DecidableEq

def pad4 (n : Nat) : String :=
  (if n < 10 then "000" else if n < 100 then "00" else if n < 1000 then "0" else "") ++
    toString n

def mkIssueId (n : Nat) : String := "I" ++ pad4 n

def mkRepairId (n : Nat) : String := "R" ++ pad4 n

structure VState where
  issues : List LIssue
  repairs : List LRepair
deriving DecidableEq

def VState.empty : VState := ⟨[], []⟩

/-- The `add_issue` closure of `validate_ticket`. -/
def addIssue (st : VState) (sev code : String) (msg : Str) (path : Str) : VState :=
  { st with issues := st.issues ++
      [⟨mkIssueId (st.issues.length + 1), sev, code, msg, path, none⟩] }

/-- `[issues[-1].issue_id] if issues else []` (at the two unconditional
sites `issues` is provably nonempty, where this equals
`[issues[-1].issue_id]`). -/
def lastIssueIds (st : VState) : List String :=
  match st.issues.getLast? with
  | some i => [i.issue_id]
  | none => []

/-- Append a repair dict with the sequential id and the last issue id. -/
def addRepair (st : VState) (safe : Bool) (action : String) (path : Str)
    (params : List (String × Yaml)) : VState :=
  { st with repairs := st.repairs ++
      [⟨mkRepairId (st.repairs.length + 1), false, safe, lastIssueIds st, action, path, params⟩] }

def STATUS_VALUES : List Str := [cs "todo", cs "doing", cs "blocked", cs "done", cs "canceled"]

def PRIORITY_VALUES : List Str := [cs "low", cs "medium", cs "high", cs "critical"]

def ASSIGNMENT_MODES : List Str := [cs "human_only", cs "agent_only", cs "mixed"]

def RELATIONSHIP_FIELDS : List Str := [cs "dependencies", cs "blocks", cs "related"]

def RELATIONSHIP_LIKE_FIELDS : List Str :=
  [cs "blocked_by", cs "depends_on", cs "parent", cs "parents", cs "child", cs "children",
   cs "duplicate", cs "duplicates", cs "duplicate_of", cs "supersedes", cs "superseded_by",
   cs "related_to"]

/-- `ticketslib.ticketing.collect_string_list`. -/
def collect_string_list : Yaml → Option (List Str)
  | .null => some []
  | .list xs =>
    if xs.all yamlIsStr then
      some (xs.filterMap (fun x => match x with | .str s => some s | _ => none))
    else none
  | .str s => some [s]
  | _ => none

/-- `ticketslib.ticketing.has_required_sections`: case-insensitive
substring check, returning the missing headings. -/
def has_required_sections (body : Str) : List Str :=
  REQUIRED_SECTIONS.filter (fun sec => !(hasSubstr (pyLower sec) (pyLower body)))

/-- Python `", ".join`. -/
def joinCommaSp (xs : List Str) : Str := List.intercalate (cs ", ") xs

def stepRequired (t : Ticket) (st : VState) : VState :=
  [cs "id", cs "title", cs "status", cs "created_at"].foldl
    (fun st f =>
      if fmHas t.front_matter f then st
      else addIssue st "error" "TICKET_REQUIRED_FIELD_MISSING"
        (cs "Missing required field: " ++ f) t.path)
    st

def stepId (t : Ticket) (st : VState) : VState :=
  let tid := pyGet t.front_matter (cs "id")
  if tid != .null && !(yamlIsUuidStr lib_is_uuidv7 tid) then
    let st := addIssue st "error" "TICKET_ID_INVALID" (cs "Ticket id must be a UUIDv7 string")
      t.path
    addRepair st false "set_front_matter_field" t.path
      [("field", .str (cs "id")), ("value", .null), ("generate_uuidv7", .bool true),
       ("update_references", .null)]
  else st

def stepStatus (t : Ticket) (st : VState) : VState :=
  let status := pyGet t.front_matter (cs "status")
  if status = .null then st
  else
    match status with
    | .str s =>
      if !(STATUS_VALUES.contains (pyLower s)) then
        addIssue st "error" "TICKET_STATUS_INVALID"
          (cs "Ticket status must be one of todo/doing/blocked/done/canceled") t.path
      else if s ≠ pyLower s then
        let st := addIssue st "warning" "TICKET_STATUS_NORMALIZE"
          (cs "Ticket status should be lowercase") t.path
        addRepair st true "normalize_enum" t.path
          [("field", .str (cs "status")), ("value", .str (pyLower s))]
      else st
    | _ =>
      addIssue st "error" "TICKET_STATUS_INVALID"
        (cs "Ticket status must be one of todo/doing/blocked/done/canceled") t.path

def stepCreatedAt (t : Ticket) (st : VState) : VState :=
  let ca := pyGet t.front_matter (cs "created_at")
  if ca = .null then st
  else
    match ca with
    | .str s =>
      match parse_iso_utc s with
      | none =>
        addIssue st "error" "TICKET_CREATED_AT_INVALID"
          (cs "created_at must be ISO 8601 UTC timestamp") t.path
      | some dt =>
        if s ≠ format_iso_utc dt then
          let st := addIssue st "warning" "TICKET_CREATED_AT_NORMALIZE"
            (cs "created_at should be normalized to UTC Z format") t.path
          addRepair st true "normalize_created_at" t.path
            [("value", .str (format_iso_utc dt))]
        else st
    | _ =>
      addIssue st "error" "TICKET_CREATED_AT_INVALID"
        (cs "created_at must be ISO 8601 UTC timestamp") t.path

def stepPriority (t : Ticket) (st : VState) : VState :=
  let priority := pyGet t.front_matter (cs "priority")
  if priority = .null then st
  else
    match priority with
    | .str s =>
      if !(PRIORITY_VALUES.contains (pyLower s)) then
        addIssue st "error" "TICKET_PRIORITY_INVALID" (cs "priority must be low/medium/high/critical")
          t.path
      else if s ≠ pyLower s then
        let st := addIssue st "warning" "TICKET_PRIORITY_NORMALIZE"
          (cs "priority should be lowercase") t.path
        addRepair st true "normalize_enum" t.path
          [("field", .str (cs "priority")), ("value", .str (pyLower s))]
      else st
    | _ =>
      addIssue st "error" "TICKET_PRIORITY_INVALID" (cs "priority must be low/medium/high/critical")
        t.path

def stepAssignment (t : Ticket) (st : VState) : VState :=
  let a := pyGet t.front_matter (cs "assignment")
  if a = .null then st
  else
    match a with
    | .map kvs =>
      let mode := mapGet kvs (cs "mode")
      if mode != .null &&
          !(match mode with | .str s => ASSIGNMENT_MODES.contains s | _ => false) then
        addIssue st "error" "TICKET_ASSIGNMENT_MODE_INVALID"
          (cs "assignment.mode must be human_only/agent_only/mixed") t.path
      else st
    | _ => addIssue st "error" "TICKET_ASSIGNMENT_INVALID" (cs "assignment must be a mapping") t.path

def stepOneRelationship (t : Ticket) (st : VState) (rel : Str) : VState :=
  if !(fmHas t.front_matter rel) then st
  else
    match collect_string_list (pyGet t.front_matter rel) with
    | none =>
      addIssue st "error" "TICKET_RELATIONSHIP_INVALID"
        (rel ++ cs " must be a list of UUID strings") t.path
    | some values =>
      let st :=
        if !(values.filter (fun v => !(lib_is_uuidv7 v))).isEmpty then
          addIssue st "error" "TICKET_RELATIONSHIP_ID_INVALID"
            (rel ++ cs " contains invalid UUIDv7 values") t.path
        else st
      if yamlIsStr (pyGet t.front_matter rel) || values.contains ([] : Str) then
        addRepair st true "normalize_relationship_list" t.path
          [("field", .str rel), ("value", .list ((values.filter (· ≠ [])).map .str))]
      else st

def stepRelationships (t : Ticket) (st : VState) : VState :=
  RELATIONSHIP_FIELDS.foldl (stepOneRelationship t) st

def stepForbidden (t : Ticket) (st : VState) : VState :=
  (t.front_matter.map Prod.fst).foldl
    (fun st k =>
      if RELATIONSHIP_LIKE_FIELDS.contains k then
        addIssue st "error" "TICKET_RELATIONSHIP_FIELD_INVALID"
          (cs "Relationship-like field '" ++ k ++ cs "' should not be persisted in ticket front matter")
          t.path
      else st)
    st

def stepSections (t : Ticket) (st : VState) : VState :=
  let missing := has_required_sections t.body
  if missing.isEmpty then st
  else
    let st := addIssue st "error" "TICKET_MISSING_SECTIONS"
      (cs "Missing required sections: " ++ joinCommaSp missing) t.path
    addRepair st true "add_required_sections" t.path
      [("missing", .list (missing.map .str))]

/-- `ticketslib.ticketing.validate_ticket`: the rule steps in source
order over an initially empty issue/repair state. -/
def lib_validate_ticket (t : Ticket) : VState :=
  stepSections t (stepForbidden t (stepRelationships t (stepAssignment t (stepPriority t
    (stepCreatedAt t (stepStatus t (stepId t (stepRequired t VState.empty))))))))

/-! ## JSON lines and the two log validators

`json.loads` is modelled on the subset this code base writes and reads:
one flat object per line, string/bool/int/null values, strings without
escape sequences; any other input fails (as invalid JSON).  A valid JSON
line whose top value is not an object is out of the model's subset and
also maps to a parse failure; no theorem below depends on such lines. -/

inductive JVal where
  | null : JVal
  | bool (b : Bool) : JVal
  | num (n : Int) : JVal
  | str (s : Str) : JVal
deriving DecidableEq

abbrev JObj := List (Str × JVal)

def jHas (e : JObj) (k : Str) : Bool := e.any (fun p => p.1 == k)

/-- `entry.get(k)`: `None` when absent. -/
def jGet (e : JObj) (k : Str) : JVal := ((e.find? (fun p => p.1 == k)).map (·.2)).getD .null

/-- Skip JSON whitespace. -/
def jWs (s : Str) : Str := s.dropWhile (fun c => c == ' ' || c == '\t' || c == '\n' || c == '\r')

/-- Parse a JSON string literal without escapes: `"…"`. -/
def jString : Str → Option (Str × Str)
  | '"' :: rest =>
    let content := rest.takeWhile (fun c => c != '"' && c != '\\')
    match rest.drop content.length with
    | '"' :: r => some (content, r)
    | _ => none
  | _ => none

/-- Parse a scalar JSON value (string, integer, true, false, null). -/
def jValue (s : Str) : Option (JVal × Str) :=
  match jString s with
  | some (str, r) => some (.str str, r)
  | none =>
    match stripPre (cs "true") s with
    | some r => some (.bool true, r)
    | none =>
      match stripPre (cs "false") s with
      | some r => some (.bool false, r)
      | none =>
        match stripPre (cs "null") s with
        | some r => some (.null, r)
        | none =>
          match s with
          | '-' :: rest =>
            let ds := rest.takeWhile isDigitCh
            if ds = [] then none
            else some (.num (-(natOfDigits ds : Int)), rest.drop ds.length)
          | _ =>
            let ds := s.takeWhile isDigitCh
            if ds = [] then none else some (.num (natOfDigits ds : Int), s.drop ds.length)

/-- Parse `"key": value` pairs separated by commas, up to `}`. -/
def jMembers : Nat → Str → Option (JObj × Str)
  | 0, _ => none
  | fuel + 1, s =>
    match jString (jWs s) with
    | none => none
    | some (k, r) =>
      match jWs r with
      | ':' :: r2 =>
        match jValue (jWs r2) with
        | none => none
        | some (v, r3) =>
          match jWs r3 with
          | ',' :: r4 =>
            match jMembers fuel r4 with
            | some (kvs, r5) => some ((k, v) :: kvs, r5)
            | none => none
          | '}' :: r4 => some ([(k, v)], r4)
          | _ => none
      | _ => none

/-- Insert into a JSON object dict: overwrite in place, else append. -/
def fmSetJ (e : JObj) (k : Str) (v : JVal) : JObj :=
  if jHas e k then e.map (fun p => if p.1 == k then (k, v) else p) else e ++ [(k, v)]

/-- `json.loads(line)` for one flat object (the only shape this tool
writes); `none` models a raised `JSONDecodeError`.  Duplicate keys keep
the last occurrence, as in Python. -/
def jsonLoads (s : Str) : Option JObj :=
  match jWs s with
  | '{' :: r =>
    match jWs r with
    | '}' :: r2 => if jWs r2 = [] then some [] else none
    | _ =>
      match jMembers (s.length + 1) r with
      | some (kvs, r2) =>
        if jWs r2 = [] then
          some (kvs.foldl (fun acc p => fmSetJ acc p.1 p.2) [])
        else none
      | none => none
  | _ => none

/-- `tickets/util.read_jsonl`: strip each line, skip blanks, `json.loads`
each remaining line; a parse failure raises (`JSONDecodeError`), aborting
the whole read. -/
def read_jsonl : List Str → Except Unit (List JObj)
  | [] => .ok []
  | line :: rest =>
    let line := pyStrip line
    if line = [] then read_jsonl rest
    else
      match jsonLoads line with
      | none => .error ()
      | some e =>
        match read_jsonl rest with
        | .error u => .error u
        | .ok es => .ok (e :: es)

/-- A parsed entry of `ticketslib.ticketing.parse_log_file`: the JSON
object (a parse failure placed `{"_parse_error": "invalid_json"}` here)
and its 1-based file line number. -/
structure LogEntry where
  data : JObj
  line_no : Nat
deriving DecidableEq

/-- The enumeration loop of `parse_log_file`, carrying the 1-based line
number. -/
def parse_log_file_go : Nat → List Str → List LogEntry
  | _, [] => []
  | n, line :: rest =>
    let l := pyStrip line
    if l = [] then parse_log_file_go (n + 1) rest
    else
      match jsonLoads l with
      | none => ⟨[(cs "_parse_error", .str (cs "invalid_json"))], n⟩ :: parse_log_file_go (n + 1) rest
      | some e => ⟨e, n⟩ :: parse_log_file_go (n + 1) rest

/-- `ticketslib.ticketing.parse_log_file` restricted to its entry list:
enumerate file lines from 1, strip, skip blanks, parse each line, and
replace a failed parse by the `_parse_error` marker object instead of
raising. -/
def parse_log_file_entries (lines : List Str) : List LogEntry :=
  parse_log_file_go 1 lines

/-- `ticketslib.utils.parse_run_started_filename`
(`^(\d{8}T\d{6}(?:\.\d{1,6})?Z)-([0-9a-f]{8}-…-[0-9a-f]{12})\.jsonl$`).
The first group never contains `-`, so it is the text before the first
dash. -/
def parse_run_started_filename (fn : Str) : Option (Str × Str) :=
  let g1 := fn.takeWhile (· != '-')
  let g1Ok : Bool :=
    match takeNDigits 8 g1 with
    | none => false
    | some (_, r) =>
      match chompChar 'T' r >>= takeNDigits 6 ∘ id with
      | none => false
      | some (_, r2) =>
        match r2 with
        | ['Z'] => true
        | '.' :: rest =>
          let ds := rest.takeWhile isDigitCh
          1 ≤ ds.length && ds.length ≤ 6 && rest.dropWhile isDigitCh == ['Z']
        | _ => false
  match fn.drop g1.length with
  | '-' :: rest =>
    if g1Ok && (cs ".jsonl").isSuffixOf rest then
      let g2 := rest.take (rest.length - 6)
      match g2.splitOn '-' with
      | [a, b, c, d, e] =>
        if a.length == 8 && b.length == 4 && c.length == 4 && d.length == 4 &&
            e.length == 12 && (a ++ b ++ c ++ d ++ e).all isLowerHexDigit then
          some (g1, g2)
        else none
      | _ => none
    else none
  | _ => none

/-- `ticketslib.utils.ISO_UTC_REGEX`:
`^\d{4}-\d{2}-\d{2}T\d{2}:\d{2}:\d{2}(?:\.\d{1,6})?Z$` (shape only). -/
def ISO_UTC_match (s : Str) : Bool :=
  match takeNDigits 4 s >>= chompChar '-' ∘ Prod.snd with
  | none => false
  | some r =>
    match takeNDigits 2 r >>= chompChar '-' ∘ Prod.snd with
    | none => false
    | some r =>
      match takeNDigits 2 r >>= chompChar 'T' ∘ Prod.snd with
      | none => false
      | some r =>
        match takeNDigits 2 r >>= chompChar ':' ∘ Prod.snd with
        | none => false
        | some r =>
          match takeNDigits 2 r >>= chompChar ':' ∘ Prod.snd with
          | none => false
          | some r =>
            match takeNDigits 2 r with
            | none => false
            | some (_, r) =>
              match r with
              | ['Z'] => true
              | '.' :: rest =>
                let ds := rest.takeWhile isDigitCh
                1 ≤ ds.length && ds.length ≤ 6 && rest.dropWhile isDigitCh == ['Z']
              | _ => false

/-! ## Log validator of `tickets/validation.py` (`validate_run_log`) -/

def LOG_REQUIRED_FIELDS : List Str :=
  [cs "ts", cs "run_started", cs "actor_type", cs "actor_id", cs "summary"]

/-- Machine classification of one entry:
`machine_strict_default or written_by == "tickets" or machine is True`. -/
def entryIsMachine (strict : Bool) (e : JObj) : Bool :=
  strict || jGet e (cs "written_by") == JVal.str (cs "tickets") ||
    jGet e (cs "machine") == JVal.bool true

/-- One iteration of the `validate_run_log` entry loop: the issues this
entry appends and the updated first-seen `run_started` value; `.error`
models the `AttributeError` raised when `parse_iso` meets a non-string. -/
def run_log_entry (path : Str) (strict : Bool) (prefixExpected : Option Str)
    (e : JObj) (lineNo : Nat) (rs : Option Str) :
    Except Unit (List TIssue × Option Str) :=
  let machine := entryIsMachine strict e
  let sev : String := if machine then "error" else "warning"
  let mk : String → String → String → Option TIssue := fun sv code msg =>
    some ⟨sv, code, cs msg, path, some lineNo, false⟩
  let missing := (LOG_REQUIRED_FIELDS.filter (fun f => !(jHas e f))).map
    (fun f => (⟨sev, "LOG_FIELD_MISSING", f ++ cs " missing", path, some lineNo, false⟩ : TIssue))
  -- ts check
  match (if jHas e (cs "ts") then
           match jGet e (cs "ts") with
           | .str s => .ok (if (parse_iso s).isNone then mk sev "TS_INVALID" "ts not ISO8601" else none)
           | _ => .error ()
         else .ok none : Except Unit (Option TIssue)) with
  | .error u => .error u
  | .ok tsIssue =>
    -- run_started block
    match (if jHas e (cs "run_started") then
             match jGet e (cs "run_started") with
             | .str s =>
               if (parse_iso s).isNone then
                 .ok ([⟨sev, "RUN_STARTED_INVALID", cs "run_started not ISO8601", path,
                        some lineNo, false⟩], rs)
               else
                 let (incons, rs') :=
                   match rs with
                   | none => ([], some s)
                   | some v =>
                     if s ≠ v then
                       ([(⟨sev, "RUN_STARTED_INCONSISTENT",
                           cs "run_started differs within file", path, some lineNo, false⟩ :
                            TIssue)], some v)
                     else ([], some v)
                 let pref :=
                   match prefixExpected with
                   | some p =>
                     if p ≠ [] &&
                         !((removeChar ':' p).isPrefixOf (removeChar ':' s)) then
                       [(⟨"warning", "RUN_STARTED_FILENAME_MISMATCH",
                          cs "run_started mismatch filename prefix", path, some lineNo, false⟩ :
                           TIssue)]
                     else []
                   | none => []
                 .ok (incons ++ pref, rs')
             | _ => .error ()
           else .ok ([], rs) : Except Unit (List TIssue × Option Str)) with
    | .error u => .error u
    | .ok (rsIssues, rs') =>
      let atIssue :=
        if jHas e (cs "actor_type") &&
            !([JVal.str (cs "human"), JVal.str (cs "agent")].contains (jGet e (cs "actor_type"))) then
          [(⟨sev, "ACTOR_TYPE_INVALID", cs "actor_type must be human|agent", path, some lineNo,
             false⟩ : TIssue)]
        else []
      let marker :=
        if machine && !(jGet e (cs "written_by") == JVal.str (cs "tickets") ||
            jGet e (cs "machine") == JVal.bool true) then
          [(⟨"error", "MACHINE_MARKER_MISSING", cs "machine marker required", path, some lineNo,
             false⟩ : TIssue)]
        else []
      .ok (missing ++ tsIssue.toList ++ rsIssues ++ atIssue ++ marker, rs')

def run_log_go (path : Str) (strict : Bool) (prefixExpected : Option Str) :
    List (Nat × JObj) → Option Str → Except Unit (List TIssue)
  | [], _ => .ok []
  | (idx, e) :: rest, rs =>
    match run_log_entry path strict prefixExpected e (idx + 1) rs with
    | .error u => .error u
    | .ok (issues, rs') =>
      match run_log_go path strict prefixExpected rest rs' with
      | .error u => .error u
      | .ok more => .ok (issues ++ more)

/-- `tickets/validation.py validate_run_log` over the file's text lines:
the filename prefix is `filename.rsplit(".", 1)[0].split("-", 1)[0]` when
the name contains a dash; entries come from `read_jsonl`, whose parse
failure propagates (`.error`). -/
def validate_run_log (path filename : Str) (lines : List Str) (strict : Bool) :
    Except Unit (List TIssue) :=
  let prefixExpected : Option Str :=
    if filename.any (· == '-') then some (beforeDash (rsplitDot filename)) else none
  match read_jsonl lines with
  | .error u => .error u
  | .ok entries => run_log_go path strict prefixExpected (List.enumFrom 0 entries) none

/-! ## Log validator of `ticketslib/ticketing.py` (`validate_logs`) -/

def basename (p : Str) : Str := (p.reverse.takeWhile (· != '/')).reverse

structure LogFileInput where
  path : Str
  lines : List Str
deriving DecidableEq

def addLogIssue (issues : List LIssue) (sev code : String) (msg : Str) (path : Str)
    (line : Option Nat) : List LIssue :=
  issues ++ [⟨mkIssueId (issues.length + 1), sev, code, msg, path, line⟩]

def insertDedup (xs : List Str) (x : Str) : List Str :=
  if xs.contains x then xs else xs ++ [x]

/-- One iteration of the `validate_logs` entry loop: issue accumulator and
the per-file `run_started_values` set. -/
def lib_log_entry (path : Str) (e : JObj) (lineNo : Nat)
    (acc : List LIssue × List Str) : List LIssue × List Str :=
  if jHas e (cs "_parse_error") then
    (addLogIssue acc.1 "error" "LOG_JSON_INVALID" (cs "Invalid JSON in log entry") path
      (some lineNo), acc.2)
  else
    let ir : List LIssue × List Str :=
      match jGet e (cs "run_started") with
      | .str s =>
        if ISO_UTC_match s then (acc.1, insertDedup acc.2 s)
        else (addLogIssue acc.1 "error" "LOG_RUN_STARTED_INVALID"
          (cs "run_started must be ISO 8601 UTC timestamp") path (some lineNo), acc.2)
      | _ => (addLogIssue acc.1 "error" "LOG_RUN_STARTED_INVALID"
          (cs "run_started must be ISO 8601 UTC timestamp") path (some lineNo), acc.2)
    let machine := jGet e (cs "written_by") == JVal.str (cs "tickets") ||
      jGet e (cs "machine") == JVal.bool true
    let sev : String := if machine then "error" else "warning"
    let issues := (LOG_REQUIRED_FIELDS.filter (fun f => !(jHas e f))).foldl
      (fun issues f => addLogIssue issues sev "LOG_REQUIRED_FIELD_MISSING"
        (cs "Missing required log field: " ++ f) path (some lineNo))
      ir.1
    let issues :=
      if machine then
        let issues :=
          if !([JVal.str (cs "human"), JVal.str (cs "agent")].contains
              (jGet e (cs "actor_type"))) then
            addLogIssue issues "error" "LOG_ACTOR_TYPE_INVALID"
              (cs "actor_type must be human or agent") path (some lineNo)
          else issues
        match jGet e (cs "ts") with
        | .str s =>
          if ISO_UTC_match s then issues
          else addLogIssue issues "error" "LOG_TS_INVALID"
            (cs "ts must be ISO 8601 UTC timestamp") path (some lineNo)
        | _ => addLogIssue issues "error" "LOG_TS_INVALID"
            (cs "ts must be ISO 8601 UTC timestamp") path (some lineNo)
      else issues
    (issues, ir.2)

/-- `validate_logs` on one log file, threading the cross-file issue list. -/
def lib_validate_log_file (issues0 : List LIssue) (lf : LogFileInput) : List LIssue :=
  let entries := parse_log_file_entries lf.lines
  let fnrs := (parse_run_started_filename (basename lf.path)).map Prod.fst
  let (issues, rsvals) :=
    entries.foldl (fun acc en => lib_log_entry lf.path en.data en.line_no acc) (issues0, [])
  let issues :=
    if rsvals.length > 1 then
      addLogIssue issues "error" "LOG_RUN_STARTED_MISMATCH"
        (cs "Log file contains multiple run_started values") lf.path none
    else issues
  match fnrs with
  | some g1 =>
    if rsvals ≠ [] ∧ ¬(rsvals.contains g1) then
      addLogIssue issues "warning" "LOG_RUN_STARTED_FILENAME_MISMATCH"
        (cs "run_started does not match filename prefix") lf.path none
    else issues
  | none => issues

/-- `ticketslib.ticketing.validate_logs` over the discovered log files of
one ticket directory (`find_logs` output with each file's lines). -/
def lib_validate_logs (files : List LogFileInput) : List LIssue :=
  files.foldl lib_validate_log_file []

/-! ## Repair engine of `tickets/repair.py` (`apply_repairs`)

Repair descriptors are dicts; the file system is a path → content map.
Python exceptions (including the deliberate `RuntimeError` raises) are
`.error`; `input()` and the dynamic values `util.new_uuidv7()` /
`util.now_utc()` are injected parameters. -/

abbrev FS := List (Str × Str)

def fsRead (fs : FS) (p : Str) : Option Str := (fs.find? (fun q => q.1 == p)).map (·.2)

def fsWrite (fs : FS) (p : Str) (content : Str) : FS :=
  if fs.any (fun q => q.1 == p) then fs.map (fun q => if q.1 == p then (p, content) else q)
  else fs ++ [(p, content)]

/-- `util.load_ticket(path)` from the file-system map (a missing file or
a load failure raises). -/
def loadFromFs (fs : FS) (p : Str) : Except Unit (FM × Str) :=
  match fsRead fs p with
  | none => .error ()
  | some text =>
    match load_ticket text with
    | .error _ => .error ()
    | .ok r => .ok r

/-- `util.write_ticket(path, fm, body)` (a front matter outside the
modelled dump subset is an error boundary of the model). -/
def writeToFs (fs : FS) (p : Str) (fm : FM) (body : Str) : Except Unit FS :=
  match write_ticket fm body with
  | none => .error ()
  | some text => .ok (fsWrite fs p text)

def _set_front_matter_field (fs : FS) (p : Str) (field : Str) (value : Yaml) :
    Except Unit FS :=
  match loadFromFs fs p with
  | .error u => .error u
  | .ok (fm, body) => writeToFs fs p (fmSet fm field value) body

/-- The body transformation of `repair._add_missing_sections`: append
`"\n{sec}\n(fill in)\n"` for each section not contained as a substring. -/
def addMissingSectionsBody (body : Str) : Str :=
  REQUIRED_SECTIONS.foldl
    (fun nb sec => if hasSubstr sec nb then nb else nb ++ nl :: sec ++ nl :: cs "(fill in)" ++ [nl])
    body

def _add_missing_sections (fs : FS) (p : Str) : Except Unit FS :=
  match loadFromFs fs p with
  | .error u => .error u
  | .ok (fm, body) => writeToFs fs p fm (addMissingSectionsBody body)

def _normalize_created_at (fs : FS) (p : Str) (nowStr : Str) : Except Unit FS :=
  match loadFromFs fs p with
  | .error u => .error u
  | .ok (fm, body) =>
    let val := pyGet fm (cs "created_at")
    if !(match val with | .str s => (parse_iso s).isSome | _ => false) then
      writeToFs fs p (fmSet fm (cs "created_at") (.str nowStr)) body
    else .ok fs

def _normalize_labels (fs : FS) (p : Str) : Except Unit FS :=
  match loadFromFs fs p with
  | .error u => .error u
  | .ok (fm, body) =>
    let normalized : Yaml :=
      match pyGet fm (cs "labels") with
      | .list xs => .list (xs.filter yamlIsStr)
      | _ => .list []
    writeToFs fs p (fmSet fm (cs "labels") normalized) body

def _set_assignment_owner (fs : FS) (p : Str) (value : Yaml) : Except Unit FS :=
  match loadFromFs fs p with
  | .error u => .error u
  | .ok (fm, body) =>
    let assignment :=
      match pyGet fm (cs "assignment") with
      | .map kvs => kvs
      | _ => []
    let assignment :=
      if assignment.any (fun q => q.1 == cs "owner") then
        assignment.map (fun q => if q.1 == cs "owner" then (cs "owner", value) else q)
      else assignment ++ [(cs "owner", value)]
    writeToFs fs p (fmSet fm (cs "assignment") (.map assignment)) body

def _reset_verification_commands (fs : FS) (p : Str) (commands : Yaml) : Except Unit FS :=
  match loadFromFs fs p with
  | .error u => .error u
  | .ok (fm, body) =>
    writeToFs fs p (fmSet fm (cs "verification") (.map [(cs "commands", commands)])) body

def _normalize_verification_commands (fs : FS) (p : Str) : Except Unit FS :=
  match loadFromFs fs p with
  | .error u => .error u
  | .ok (fm, body) =>
    let cmdsRaw :=
      match pyGet fm (cs "verification") with
      | .map kvs => mapGet kvs (cs "commands")
      | _ => .null
    let cmds : Yaml :=
      match cmdsRaw with
      | .list xs => .list (xs.filter yamlIsStr)
      | _ => .list []
    writeToFs fs p (fmSet fm (cs "verification") (.map [(cs "commands", cmds)])) body

/-- A repair descriptor dict. -/
abbrev RepDict := List (String × Yaml)

def dget (d : RepDict) (k : String) : Yaml :=
  ((d.find? (fun p => p.1 == k)).map (·.2)).getD .null

/-- `rep.get("params", {})`: the dict of parameters (a non-dict stored
value would make every later `.get` raise). -/
def repParams (d : RepDict) : Except Unit (List (Str × Yaml)) :=
  match d.find? (fun p => p.1 == "params") with
  | none => .ok []
  | some (_, .map kvs) => .ok kvs
  | some (_, .null) => .error ()
  | some _ => .error ()

/-- `Path(rep.get("ticket_path", ""))`. -/
def repTicketPath (d : RepDict) : Except Unit Str :=
  match d.find? (fun p => p.1 == "ticket_path") with
  | none => .ok []
  | some (_, .str s) => .ok s
  | some _ => .error ()

/-- `params.get("commands", [])`. -/
def paramsCommands (params : List (Str × Yaml)) : Yaml :=
  match params.find? (fun p => p.1 == cs "commands") with
  | none => .list []
  | some (_, v) => v

structure RepairEnv where
  genUuid : Str
  nowStr : Str
  inputFn : Str → Str

/-- The body of one `apply_repairs` iteration for a non-skipped
descriptor: resolve `params` and `ticket_path`, dispatch on `action`.
`.ok (some d, fs)` is an applied change with its description, `.ok (none, fs)`
an interactively skipped unsupported action, `.error` a raise. -/
def apply_one (rep : RepDict) (nonInteractive : Bool) (env : RepairEnv) (fs : FS) :
    Except Unit (Option Str × FS) :=
  let action := dget rep "action"
  match repParams rep with
  | .error u => .error u
  | .ok params =>
    match repTicketPath rep with
    | .error u => .error u
    | .ok tpath =>
      if action = .str (cs "set_front_matter_field") then
        let field := mapGet params (cs "field")
        let value := mapGet params (cs "value")
        let value :=
          if value = .null && pyTruthy (mapGet params (cs "generate_uuidv7")) then
            Yaml.str env.genUuid
          else value
        match (if value = .null then
                 if nonInteractive then .error ()
                 else .ok (Yaml.str (pyStrip (env.inputFn (cs "Value for field: "))))
               else .ok value : Except Unit Yaml) with
        | .error u => .error u
        | .ok value =>
          match field with
          | .str f =>
            match _set_front_matter_field fs tpath f value with
            | .error u => .error u
            | .ok fs' => .ok (some (tpath ++ cs ": set " ++ f), fs')
          | _ => .error ()
      else if action = .str (cs "add_sections") then
        match _add_missing_sections fs tpath with
        | .error u => .error u
        | .ok fs' => .ok (some (tpath ++ cs ": added missing sections"), fs')
      else if action = .str (cs "normalize_created_at") then
        match _normalize_created_at fs tpath env.nowStr with
        | .error u => .error u
        | .ok fs' => .ok (some (tpath ++ cs ": normalized created_at"), fs')
      else if action = .str (cs "normalize_labels") then
        match _normalize_labels fs tpath with
        | .error u => .error u
        | .ok fs' => .ok (some (tpath ++ cs ": normalized labels"), fs')
      else if action = .str (cs "set_assignment_owner") then
        match _set_assignment_owner fs tpath (mapGet params (cs "value")) with
        | .error u => .error u
        | .ok fs' => .ok (some (tpath ++ cs ": set assignment.owner"), fs')
      else if action = .str (cs "reset_verification_commands") then
        match _reset_verification_commands fs tpath (paramsCommands params) with
        | .error u => .error u
        | .ok fs' => .ok (some (tpath ++ cs ": reset verification.commands"), fs')
      else if action = .str (cs "normalize_verification_commands") then
        match _normalize_verification_commands fs tpath with
        | .error u => .error u
        | .ok fs' => .ok (some (tpath ++ cs ": normalized verification.commands"), fs')
      else
        if nonInteractive then .error () else .ok (none, fs)

/-- `tickets/repair.py apply_repairs`: the loop over descriptors.  Skips
optional descriptors without the opt-in and disabled descriptors; each
applied action contributes one change description; a `RuntimeError`
(missing value or unsupported action in non-interactive mode) or any
helper failure aborts the whole invocation (`.error`). -/
def apply_repairs (reps : List RepDict) (nonInteractive includeOptional : Bool)
    (env : RepairEnv) (fs : FS) : Except Unit (List Str × FS) :=
  match reps with
  | [] => .ok ([], fs)
  | rep :: rest =>
    if pyTruthy (dget rep "optional") && !includeOptional then
      apply_repairs rest nonInteractive includeOptional env fs
    else if !(pyTruthy (dget rep "enabled")) then
      apply_repairs rest nonInteractive includeOptional env fs
    else
      match apply_one rep nonInteractive env fs with
      | .error u => .error u
      | .ok (desc, fs') =>
        match apply_repairs rest nonInteractive includeOptional env fs' with
        | .error u => .error u
        | .ok (applied, fs'') => .ok (desc.toList ++ applied, fs'')

/-- `ticketslib.ticketing.normalize_section_body`: collect the stripped
`#`-lines, append `"\n{sec}\n"` for each absent required section to the
right-stripped body, then one trailing newline. -/
def normalize_section_body (body : Str) : Str :=
  let lines := pySplitlines body
  let present := lines.filterMap
    (fun l => if (pyStrip l).head? = some '#' then some (pyStrip l) else none)
  let additions := REQUIRED_SECTIONS.filter (fun sec => !(present.contains sec))
  pyRstrip body ++ (additions.map (fun sec => nl :: sec ++ [nl])).flatten ++ [nl]

/-! ## Well-formedness predicates and projections used by the theorems -/

/-- A header key of the shape this code base writes (plain YAML keys). -/
def wfKey (k : Str) : Bool :=
  !k.isEmpty && k.all (fun c => ('a' ≤ c && c ≤ 'z') || c == '_')

/-- A header value within the modelled serialization subset: a nonempty
string without quotes, newlines, `": "`, surrounding whitespace, or an
embedded `"---"`. -/
def wfVal : Yaml → Bool
  | .str v =>
    !v.isEmpty && !(v.any (fun c => c == '\'' || c == '"' || c == nl)) &&
      pyStrip v == v && !(hasSubstr (cs ": ") v) && !(hasSubstr (cs "---") v)
  | _ => false

/-- A flat string-valued front matter with distinct keys. -/
def wfFM (fm : FM) : Prop :=
  fm ≠ [] ∧ (∀ p ∈ fm, wfKey p.1 = true ∧ wfVal p.2 = true) ∧ (fm.map Prod.fst).Nodup

/-- `params.get(k)` on a repair's parameter dict. -/
def pget (params : List (String × Yaml)) (k : String) : Yaml :=
  ((params.find? (fun p => p.1 == k)).map (·.2)).getD .null

/-- The deterministic sequential id assignment of one validation pass:
the issue ids read `I0001, I0002, ...` in order and the repair ids
`R0001, R0002, ...` in order. -/
def idsOk (st : VState) : Prop :=
  st.issues.map LIssue.issue_id =
    (List.range st.issues.length).map (fun i => mkIssueId (i + 1)) ∧
  st.repairs.map LRepair.rid =
    (List.range st.repairs.length).map (fun j => mkRepairId (j + 1))

/-! ## Concrete inputs used for the codec roundtrip claim -/

/-- A header that validates with zero issues whose title contains the
front-matter delimiter `"---"` as inner text. -/
def C4fm : FM := [(cs "id", Yaml.str (cs "0190b7c2-1234-7abc-afed-cba987654321")),
  (cs "title", Yaml.str (cs "x --- y")),
  (cs "status", Yaml.str (cs "todo")),
  (cs "created_at", Yaml.str (cs "2024-01-01T00:00:00Z"))]

/-- A body holding all four required sections. -/
def C4body : Str := cs "# Ticket\n\n## Description\n\n## Acceptance Criteria\n\n## Verification"

/-- A header valid except that its status is the uppercase enum value
`"TODO"`. -/
def C5fm : FM := [(cs "id", Yaml.str (cs "0190b7c2-1234-7abc-afed-cba987654321")),
  (cs "title", Yaml.str (cs "t")),
  (cs "status", Yaml.str (cs "TODO")),
  (cs "created_at", Yaml.str (cs "2024-01-01T00:00:00Z"))]

/-- A raw ticket file that already contains all four required sections
but is not in `write_ticket` normal form (trailing blank lines). -/
def C8text : Str := cs "---\ntitle: x\n---\n# Ticket\n## Description\n## Acceptance Criteria\n## Verification\n\n\n"

/-! ## Concrete log lines used for the `run_started` divergence claim -/

/-- A human-authored log entry line (all required fields, valid
timestamps, `run_started` at second 0). -/
def C1_L1 : Str := cs "\x7b\"ts\": \"2024-01-01T00:00:00Z\", \"run_started\": \"2024-01-01T00:00:00Z\", \"actor_type\": \"human\", \"actor_id\": \"a\", \"summary\": \"s\"\x7d"

/-- A second human-authored entry line identical except `run_started`
moved to second 5. -/
def C1_L2 : Str := cs "\x7b\"ts\": \"2024-01-01T00:00:05Z\", \"run_started\": \"2024-01-01T00:00:05Z\", \"actor_type\": \"human\", \"actor_id\": \"a\", \"summary\": \"s\"\x7d"

/-- The object `json.loads` yields for `C1_L1`. -/
def C1_E1 : JObj := [(cs "ts", JVal.str (cs "2024-01-01T00:00:00Z")),
  (cs "run_started", JVal.str (cs "2024-01-01T00:00:00Z")),
  (cs "actor_type", JVal.str (cs "human")),
  (cs "actor_id", JVal.str (cs "a")),
  (cs "summary", JVal.str (cs "s"))]

/-- The object `json.loads` yields for `C1_L2`. -/
def C1_E2 : JObj := [(cs "ts", JVal.str (cs "2024-01-01T00:00:05Z")),
  (cs "run_started", JVal.str (cs "2024-01-01T00:00:05Z")),
  (cs "actor_type", JVal.str (cs "human")),
  (cs "actor_id", JVal.str (cs "a")),
  (cs "summary", JVal.str (cs "s"))]

/-! # Theorems

First the structural lemmas about substring search, then one section per
claim. -/

theorem stripPre_some {pat s r : Str} (h : stripPre pat s = some r) : s = pat ++ r := by
  induction pat generalizing s with
  | nil => simp [stripPre] at h; simp [h]
  | cons p ps ih =>
    cases s with
    | nil => simp [stripPre] at h
    | cons c rest =>
      simp only [stripPre] at h
      by_cases hc : p == c
      · simp [hc] at h
        have := ih h
        have hpc : p = c := by simpa using hc
        simp [hpc, this]
      · simp [hc] at h

theorem stripPre_append (pat r : Str) : stripPre pat (pat ++ r) = some r := by
  induction pat with
  | nil => simp [stripPre]
  | cons p ps ih => simp [stripPre, ih]

theorem splitOnceSub_some {pat s l r : Str} (h : splitOnceSub pat s = some (l, r)) :
    s = l ++ pat ++ r := by
  induction s generalizing l with
  | nil => simp [splitOnceSub] at h
  | cons c rest ih =>
    simp only [splitOnceSub] at h
    cases hsp : stripPre pat (c :: rest) with
    | some r0 =>
      rw [hsp] at h
      cases h
      simpa using stripPre_some hsp
    | none =>
      rw [hsp] at h
      cases hrec : splitOnceSub pat rest with
      | some p =>
        rw [hrec] at h
        cases h
        have := ih (l := p.1) (by simpa using hrec)
        simp [this]
      | none => rw [hrec] at h; cases h

theorem splitOnceSub_at_zero (pat r : Str) (hp : pat ≠ []) :
    splitOnceSub pat (pat ++ r) = some ([], r) := by
  cases pat with
  | nil => exact absurd rfl hp
  | cons p ps =>
    simp only [List.cons_append, splitOnceSub, List.append_eq]
    rw [show stripPre (p :: ps) (p :: (ps ++ r)) = some r from stripPre_append (p :: ps) r]

theorem splitOnceSub_isSome_of_occurrence {pat : Str} (hp : pat ≠ []) (l r : Str) :
    (splitOnceSub pat (l ++ pat ++ r)).isSome = true := by
  induction l with
  | nil => simp [splitOnceSub_at_zero pat r hp]
  | cons c l' ih =>
    simp only [List.cons_append]
    simp only [splitOnceSub]
    cases hsp : stripPre pat (c :: (l' ++ pat ++ r)) with
    | some r0 => simp
    | none =>
      simp only
      cases hrec : splitOnceSub pat (l' ++ pat ++ r) with
      | some p => simp
      | none => rw [hrec] at ih; simp at ih

theorem hasSubstr_of_occurrence {pat : Str} (hp : pat ≠ []) (l r : Str) :
    hasSubstr pat (l ++ pat ++ r) = true := by
  simpa [hasSubstr] using splitOnceSub_isSome_of_occurrence hp l r

theorem no_occurrence_of_not_hasSubstr {pat s : Str} (hp : pat ≠ [])
    (h : hasSubstr pat s = false) : ∀ l r, s ≠ l ++ pat ++ r := by
  intro l r hs
  rw [hs] at h
  rw [hasSubstr_of_occurrence hp l r] at h
  cases h

/-- First-occurrence correctness: if no occurrence of `pat` starts inside
`l` (also none overlapping into the separator), the split lands exactly at
the separator. -/
theorem splitOnceSub_exact {pat : Str} (hp : pat ≠ []) (l r : Str)
    (hno : ∀ l1 l2, l = l1 ++ l2 → l2 ≠ [] → stripPre pat (l2 ++ pat ++ r) = none) :
    splitOnceSub pat (l ++ pat ++ r) = some (l, r) := by
  induction l with
  | nil => simpa using splitOnceSub_at_zero pat r hp
  | cons c l' ih =>
    have hcons := hno [] (c :: l') (by simp) (by simp)
    simp only [List.cons_append] at hcons
    simp only [List.cons_append, splitOnceSub, List.append_eq]
    rw [hcons]
    have ihh := ih (fun l1 l2 heq hne => hno (c :: l1) l2 (by simp [heq]) hne)
    rw [ihh]

/-! ## Claim C7: fail-fast on value-less `set_front_matter_field` repairs -/

/-- A valueless `set_front_matter_field` repair that is not skipped:
enabled, not filtered out by the `optional` gate, with a `params` dict
carrying neither a usable `value` nor a truthy `generate_uuidv7`. -/
def valuelessSfmf (rep : RepDict) (includeOptional : Bool) : Prop :=
  pyTruthy (dget rep "enabled") = true ∧
  ¬(pyTruthy (dget rep "optional") = true ∧ includeOptional = false) ∧
  dget rep "action" = Yaml.str (cs "set_front_matter_field") ∧
  (∀ params, repParams rep = .ok params →
    mapGet params (cs "value") = Yaml.null ∧
    pyTruthy (mapGet params (cs "generate_uuidv7")) = false)

/-- A valueless `set_front_matter_field` step raises in non-interactive
mode. -/
theorem apply_one_valueless (rep : RepDict) (env : RepairEnv) (fs : FS)
    (hact : dget rep "action" = Yaml.str (cs "set_front_matter_field"))
    (hparams : ∀ params, repParams rep = .ok params →
      mapGet params (cs "value") = Yaml.null ∧
      pyTruthy (mapGet params (cs "generate_uuidv7")) = false) :
    apply_one rep true env fs = .error () := by
  rw [apply_one]
  cases hp : repParams rep with
  | error u => rfl
  | ok params =>
    obtain ⟨hval, hgen⟩ := hparams params hp
    cases htp : repTicketPath rep with
    | error u => rfl
    | ok tpath => simp [hact, hval, hgen]

/-- C7 (amended): a descriptor list containing an enabled, non-skipped,
valueless `set_front_matter_field` repair makes the whole non-interactive
`apply_repairs` invocation raise. -/
theorem C7_apply_repairs_raises (reps : List RepDict) (io : Bool) (env : RepairEnv)
    (rep : RepDict) (hmem : rep ∈ reps) (hrep : valuelessSfmf rep io) :
    ∀ fs, apply_repairs reps true io env fs = .error () := by
  induction reps with
  | nil => cases hmem
  | cons r rest ih =>
    intro fs
    rcases List.mem_cons.mp hmem with heq | htail
    · subst heq
      obtain ⟨hen, hskip, hact, hparams⟩ := hrep
      rw [apply_repairs]
      have hskip' : (pyTruthy (dget rep "optional") && !io) = false := by
        cases hopt : pyTruthy (dget rep "optional") with
        | false => simp
        | true =>
          cases hio : io with
          | true => simp
          | false => exact absurd ⟨hopt, hio⟩ hskip
      rw [hskip', if_neg (by simp), if_neg (by simp [hen]),
        apply_one_valueless rep env fs hact hparams]
    · rw [apply_repairs]
      by_cases h1 : pyTruthy (dget r "optional") && !io
      · rw [if_pos (by simp [h1])]; exact ih htail fs
      · rw [if_neg (by simp [h1])]
        by_cases h2 : pyTruthy (dget r "enabled")
        · rw [if_neg (by simp [h2])]
          cases hs : apply_one r true env fs with
          | error u => rfl
          | ok p =>
            obtain ⟨d, fs'⟩ := p
            simp [ih htail fs']
        · rw [if_pos (by simp [h2])]
          exact ih htail fs

/-- C7: counterexample to the claim as stated.  This descriptor is an
enabled `set_front_matter_field` repair whose params carry neither a
value nor `generate_uuidv7`, yet the non-interactive invocation returns
normally (empty change list) instead of raising, because the descriptor
is flagged `optional` and the caller did not opt in: `apply_repairs`
silently skips it. -/
theorem C7_counterexample :
    pyTruthy (dget [("enabled", Yaml.bool true), ("optional", Yaml.bool true),
        ("action", Yaml.str (cs "set_front_matter_field")),
        ("ticket_path", Yaml.str (cs "t")), ("params", Yaml.map [])] "enabled") = true ∧
    dget [("enabled", Yaml.bool true), ("optional", Yaml.bool true),
        ("action", Yaml.str (cs "set_front_matter_field")),
        ("ticket_path", Yaml.str (cs "t")), ("params", Yaml.map [])] "action" =
      Yaml.str (cs "set_front_matter_field") ∧
    repParams [("enabled", Yaml.bool true), ("optional", Yaml.bool true),
        ("action", Yaml.str (cs "set_front_matter_field")),
        ("ticket_path", Yaml.str (cs "t")), ("params", Yaml.map [])] = .ok [] ∧
    apply_repairs [[("enabled", Yaml.bool true), ("optional", Yaml.bool true),
        ("action", Yaml.str (cs "set_front_matter_field")),
        ("ticket_path", Yaml.str (cs "t")), ("params", Yaml.map [])]]
      true false ⟨[], [], fun _ => []⟩ [] = .ok ([], []) :=
  ⟨rfl, rfl, rfl, rfl⟩

/-- C7: witness for the amended theorem at a concrete non-optional
valueless repair. -/
theorem C7_witness :
    apply_repairs [[("enabled", Yaml.bool true),
        ("action", Yaml.str (cs "set_front_matter_field")), ("params", Yaml.map [])]]
      true false ⟨[], [], fun _ => []⟩ [] = .error () :=
  C7_apply_repairs_raises
    [[("enabled", Yaml.bool true),
      ("action", Yaml.str (cs "set_front_matter_field")), ("params", Yaml.map [])]]
    false ⟨[], [], fun _ => []⟩
    [("enabled", Yaml.bool true),
     ("action", Yaml.str (cs "set_front_matter_field")), ("params", Yaml.map [])]
    (List.mem_singleton_self _)
    ⟨rfl, by decide, rfl, fun params h => by cases h; exact ⟨rfl, rfl⟩⟩ []

/-! ## Structural lemmas about `pySplitlines` -/

theorem pySplitlines_nil : pySplitlines [] = [] := rfl

theorem getLast?_ne_of_all {l : Str} (hl : ∀ c ∈ l, c ≠ nl) : l.getLast? ≠ some nl := by
  intro h
  have hmem : nl ∈ l.getLast? := h ▸ rfl
  obtain ⟨hne, heq⟩ := List.mem_getLast?_eq_getLast hmem
  exact hl nl (heq ▸ List.getLast_mem hne) rfl

theorem pySplitlines_no_nl (l : Str) (hl : ∀ c ∈ l, c ≠ nl) (hne : l ≠ []) :
    pySplitlines l = [l] := by
  unfold pySplitlines
  rw [if_neg hne, if_neg (getLast?_ne_of_all hl)]
  simp only [List.splitOn]
  exact List.splitOnP_eq_single (· == nl) l (fun x hx => by simpa using hl x hx)

theorem pySplitlines_cons (l rest : Str) (hl : ∀ c ∈ l, c ≠ nl) :
    pySplitlines (l ++ nl :: rest) = l :: pySplitlines rest := by
  have hsplit : (l ++ nl :: rest).splitOn nl = l :: rest.splitOn nl := by
    simp only [List.splitOn]
    exact List.splitOnP_first (· == nl) l (fun x hx => by simpa using hl x hx) nl (by simp) rest
  have hne : l ++ nl :: rest ≠ [] := by simp
  by_cases hrnil : rest = []
  · subst hrnil
    have hlast : (l ++ nl :: ([] : Str)).getLast? = some nl := by
      rw [List.getLast?_append_cons]; rfl
    unfold pySplitlines
    rw [if_neg hne, if_pos hlast, hsplit]
    simp
  · have hlastEq : (l ++ nl :: rest).getLast? = rest.getLast? := by
      rw [List.getLast?_append_cons]
      cases rest with
      | nil => exact absurd rfl hrnil
      | cons r rs => rw [List.getLast?_cons_cons]
    have hsne : rest.splitOn nl ≠ [] := by
      simp only [List.splitOn]
      exact List.splitOnP_ne_nil _ rest
    unfold pySplitlines
    rw [if_neg hne]
    by_cases hend : rest.getLast? = some nl
    · rw [if_pos (by rw [hlastEq]; exact hend), hsplit, if_neg hrnil, if_pos hend,
        List.dropLast_cons_of_ne_nil hsne]
    · rw [if_neg (by rw [hlastEq]; exact hend), hsplit, if_neg hrnil, if_neg hend]

/-! ## Claim C3: timestamp-shaped header values stay strings -/

/-- A timestamp-shaped scalar starts with a digit and contains a dash. -/
theorem isYamlTs_structure {v : Str} (h : isYamlTs v = true) :
    ∃ d vrest, v = d :: vrest ∧ isDigitCh d = true ∧ '-' ∈ v := by
  have hsome : ∃ r2, chompDigits 4 4 v = some ('-' :: r2) := by
    unfold isYamlTs at h
    rw [Bool.or_eq_true] at h
    cases hc : chompDigits 4 4 v with
    | none =>
      exfalso
      rw [hc] at h
      rcases h with h | h <;> simp at h
    | some r =>
      rw [hc] at h
      cases hcc : chompChar '-' r with
      | none =>
        exfalso
        rcases h with h | h <;> simp [hcc] at h
      | some r2 =>
        refine ⟨r2, ?_⟩
        cases r with
        | nil => simp [chompChar] at hcc
        | cons x rs =>
          have hcc2 : (if (x == '-') = true then some rs else none) = some r2 := hcc
          by_cases hx : (x == '-') = true
          · rw [if_pos hx] at hcc2
            injection hcc2 with hcc3
            have hxe : x = '-' := by simpa using hx
            rw [hxe, hcc3]
          · rw [if_neg hx] at hcc2
            cases hcc2
  obtain ⟨r2, hc⟩ := hsome
  have hcond : ((v.takeWhile isDigitCh).length = 4) ∧
      v.dropWhile isDigitCh = '-' :: r2 := by
    simp only [chompDigits] at hc
    split at hc
    · rename_i hcond2
      simp at hcond2
      refine ⟨by omega, ?_⟩
      injection hc
    · cases hc
  rcases hcond with ⟨hlen, hdrop⟩
  have hv : v = v.takeWhile isDigitCh ++ '-' :: r2 := by
    rw [← hdrop, List.takeWhile_append_dropWhile]
  cases htw : v.takeWhile isDigitCh with
  | nil => rw [htw] at hlen; simp at hlen
  | cons d tw' =>
    refine ⟨d, tw' ++ '-' :: r2, ?_, ?_, ?_⟩
    · rw [hv, htw]; rfl
    · exact List.mem_takeWhile_imp (htw ▸ List.mem_cons_self d tw')
    · rw [hv]; exact List.mem_append_right _ (List.mem_cons_self _ _)

theorem ne_lit_of_digit {d : Char} {vrest : Str} (hd : isDigitCh d = true) {c : Char}
    {lit : Str} (hc : isDigitCh c = false) : d :: vrest ≠ c :: lit := by
  intro h
  obtain ⟨h1, -⟩ := List.cons.inj h
  rw [h1] at hd
  rw [hd] at hc
  cases hc

/-- Without the timestamp resolver (`NoTimestampLoader`) a
timestamp-shaped plain scalar resolves to a string. -/
theorem resolvePlain_false_of_ts {v : Str} (h : isYamlTs v = true) :
    resolvePlain false v = .str v := by
  obtain ⟨d, vrest, hv, hd, hdash⟩ := isYamlTs_structure h
  have hbeq : ∀ (c : Char) (lit : Str), isDigitCh c = false → (v == c :: lit) = false := by
    intro c lit hc
    rw [beq_eq_false_iff_ne, hv]
    exact ne_lit_of_digit hd hc
  have hnall : (v.all isDigitCh) = false := by
    rw [Bool.eq_false_iff]
    intro hall
    rw [List.all_eq_true] at hall
    exact absurd (hall '-' hdash) (by decide)
  have hnull : isYamlNull v = false := by
    unfold isYamlNull
    rw [show cs "null" = 'n' :: cs "ull" from rfl, hbeq 'n' _ (by decide)]
    rw [show cs "Null" = 'N' :: cs "ull" from rfl, hbeq 'N' _ (by decide)]
    rw [show cs "NULL" = 'N' :: cs "ULL" from rfl, hbeq 'N' _ (by decide)]
    rw [show cs "~" = '~' :: ([] : Str) from rfl, hbeq '~' _ (by decide)]
    rw [show (v == []) = false from by rw [beq_eq_false_iff_ne, hv]; simp]
    rfl
  have htrue : isYamlTrue v = false := by
    unfold isYamlTrue
    rw [show cs "true" = 't' :: cs "rue" from rfl, hbeq 't' _ (by decide)]
    rw [show cs "True" = 'T' :: cs "rue" from rfl, hbeq 'T' _ (by decide)]
    rw [show cs "TRUE" = 'T' :: cs "RUE" from rfl, hbeq 'T' _ (by decide)]
    rfl
  have hfalse : isYamlFalse v = false := by
    unfold isYamlFalse
    rw [show cs "false" = 'f' :: cs "alse" from rfl, hbeq 'f' _ (by decide)]
    rw [show cs "False" = 'F' :: cs "alse" from rfl, hbeq 'F' _ (by decide)]
    rw [show cs "FALSE" = 'F' :: cs "ALSE" from rfl, hbeq 'F' _ (by decide)]
    rfl
  have hint : isIntLit v = false := by
    rw [hv]
    unfold isIntLit
    split
    · rename_i rest heq
      obtain ⟨h1, -⟩ := List.cons.inj heq
      rw [h1] at hd
      cases hd
    · rename_i rest heq
      obtain ⟨h1, -⟩ := List.cons.inj heq
      rw [h1] at hd
      cases hd
    · rw [← hv, hnall]
      simp
  have hbody : floatBody (d :: vrest) = d :: vrest := by
    unfold floatBody
    split
    · rename_i rest heq
      obtain ⟨h1, -⟩ := List.cons.inj heq
      rw [h1] at hd
      cases hd
    · rename_i rest heq
      obtain ⟨h1, -⟩ := List.cons.inj heq
      rw [h1] at hd
      cases hd
    · rfl
  have hfloat : isFloatLit v = false := by
    rw [hv]
    unfold isFloatLit
    rw [hbody, ← hv]
    cases hsp : splitOnceSub (cs ".") v with
      | none => rfl
      | some p =>
        obtain ⟨a, b⟩ := p
        have hv2 := splitOnceSub_some hsp
        have hdab : '-' ∈ a ++ b := by
          rw [hv2] at hdash
          rcases List.mem_append.mp hdash with hm | hm
          · rcases List.mem_append.mp hm with hm2 | hm2
            · exact List.mem_append_left _ hm2
            · simp [cs] at hm2
          · exact List.mem_append_right _ hm
        have hab : ((a ++ b).all isDigitCh) = false := by
          rw [Bool.eq_false_iff]
          intro hall
          rw [List.all_eq_true] at hall
          exact absurd (hall '-' hdab) (by decide)
        show (decide (a ++ b ≠ []) && List.all (a ++ b) isDigitCh &&
          !hasSubstr (cs ".") b) = false
        rw [hab]
        simp
  unfold resolvePlain
  rw [hnull, htrue, hfalse, hint, hfloat]
  simp

theorem dropWhile_fix_head {p : Char → Bool} {l : Str} (h : l.dropWhile p = l)
    (hne : l ≠ []) : ∃ c rest, l = c :: rest ∧ p c = false := by
  cases l with
  | nil => exact absurd rfl hne
  | cons c rest =>
    refine ⟨c, rest, rfl, ?_⟩
    by_cases hc : p c = true
    · rw [List.dropWhile_cons, if_pos hc] at h
      have hlen := congrArg List.length h
      have hle := (List.dropWhile_suffix (l := rest) p).length_le
      simp at hlen
      omega
    · simpa using hc

theorem pyStrip_parts {v : Str} (h : pyStrip v = v) : pyLstrip v = v ∧ pyRstrip v = v := by
  have hlen1 : (pyLstrip v).length ≤ v.length := (List.dropWhile_suffix _).length_le
  have hlen2 : (pyRstrip (pyLstrip v)).length ≤ (pyLstrip v).length := by
    unfold pyRstrip
    calc ((pyLstrip v).reverse.dropWhile isPyWs).reverse.length
        = ((pyLstrip v).reverse.dropWhile isPyWs).length := by rw [List.length_reverse]
      _ ≤ (pyLstrip v).reverse.length := (List.dropWhile_suffix _).length_le
      _ = (pyLstrip v).length := List.length_reverse _
  have hveq : v.length ≤ (pyLstrip v).length := by
    have := congrArg List.length h
    unfold pyStrip at this
    omega
  have hl : pyLstrip v = v :=
    List.IsSuffix.eq_of_length (List.dropWhile_suffix _) (by omega)
  refine ⟨hl, ?_⟩
  unfold pyStrip at h
  rw [hl] at h
  exact h

theorem pyRstrip_append {u v : Str} (hv : pyRstrip v = v) (hne : v ≠ []) :
    pyRstrip (u ++ v) = u ++ v := by
  have hrev : v.reverse.dropWhile isPyWs = v.reverse := by
    have := congrArg List.reverse hv
    unfold pyRstrip at this
    simpa using this
  have hrne : v.reverse ≠ [] := by simpa using hne
  obtain ⟨c, rest, hcr, hpc⟩ := dropWhile_fix_head hrev hrne
  have hfix : (u ++ v).reverse.dropWhile isPyWs = (u ++ v).reverse := by
    rw [List.reverse_append, hcr, List.cons_append, List.dropWhile_cons, hpc]
    simp
  unfold pyRstrip
  rw [hfix]
  simp

/-- `parseScalar` on a plain (unquoted) scalar resolves it. -/
theorem parseScalar_plain (useTs : Bool) (v : Str) (hstrip : pyStrip v = v)
    (hne : v ≠ []) (hq : ∀ c ∈ v, c ≠ '\'' ∧ c ≠ '"') :
    parseScalar useTs v = some (resolvePlain useTs v) := by
  unfold parseScalar
  rw [hstrip]
  have hany1 : (v.any (· == '\'')) = false := by
    rw [Bool.eq_false_iff]
    intro ha
    rw [List.any_eq_true] at ha
    obtain ⟨c, hc, hcq⟩ := ha
    exact (hq c hc).1 (by simpa using hcq)
  have hany2 : (v.any (· == '"')) = false := by
    rw [Bool.eq_false_iff]
    intro ha
    rw [List.any_eq_true] at ha
    obtain ⟨c, hc, hcq⟩ := ha
    exact (hq c hc).2 (by simpa using hcq)
  have hhead : v.head? ≠ some '\'' := by
    cases v with
    | nil => simp
    | cons c rest =>
      simp only [List.head?_cons, ne_eq, Option.some.injEq]
      intro he
      exact (hq c (List.mem_cons_self _ _)).1 he
  rw [if_neg hhead, hany1, hany2]
  simp

/-- C3 (amended): the `ticketslib` decoder (`split_front_matter` with
`NoTimestampLoader`) returns a timestamp-shaped `created_at` header value
as a string, for every YAML-timestamp-shaped scalar `v` (without
newlines, quotes, or surrounding whitespace, which the timestamp shape
cannot contain). -/
theorem C3_split_front_matter_keeps_string (v : Str)
    (hts : isYamlTs v = true)
    (hnl : ∀ c ∈ v, c ≠ nl)
    (hstrip : pyStrip v = v)
    (hq : ∀ c ∈ v, c ≠ '\'' ∧ c ≠ '"') :
    split_front_matter (cs "---" ++ nl ::
        ((cs "created_at: " ++ v) ++ nl :: (cs "---" ++ nl :: cs "body"))) =
      .ok ([(cs "created_at", Yaml.str v)], cs "body") := by
  have hv_ne : v ≠ [] := by
    intro he
    rw [he] at hts
    exact absurd hts (by decide)
  have hl2nl : ∀ c ∈ cs "created_at: " ++ v, c ≠ nl := by
    intro c hc
    rcases List.mem_append.mp hc with h | h
    · intro he
      subst he
      revert h
      decide
    · exact hnl c h
  have hlines : pySplitlines (cs "---" ++ nl ::
      ((cs "created_at: " ++ v) ++ nl :: (cs "---" ++ nl :: cs "body"))) =
      [cs "---", cs "created_at: " ++ v, cs "---", cs "body"] := by
    rw [pySplitlines_cons (cs "---") _ (by decide),
      pySplitlines_cons (cs "created_at: " ++ v) _ hl2nl,
      pySplitlines_cons (cs "---") _ (by decide),
      pySplitlines_no_nl (cs "body") (by decide) (by decide)]
  have hne_line : ((cs "created_at: " ++ v) == cs "---") = false := by
    rw [beq_eq_false_iff_ne]
    intro h
    have := congrArg List.length h
    simp [cs] at this
  have hsplit_line : splitOnceSub (cs ": ") (cs "created_at: " ++ v) =
      some (cs "created_at", v) := rfl
  have hstrip_l2 : pyStrip (cs "created_at: " ++ v) = cs "created_at: " ++ v := by
    unfold pyStrip pyLstrip
    rw [show cs "created_at: " ++ v = 'c' :: (cs "reated_at: " ++ v) from rfl,
      List.dropWhile_cons]
    rw [show isPyWs 'c' = false from rfl]
    simp only [if_false, Bool.false_eq_true]
    show pyRstrip (cs "created_at: " ++ v) = 'c' :: (cs "reated_at: " ++ v)
    exact pyRstrip_append (pyStrip_parts hstrip).2 hv_ne
  have hline : parseFMLine false (cs "created_at: " ++ v) =
      (parseScalar false v).map (fun w => (cs "created_at", w)) := rfl
  have hlinev : parseFMLine false (cs "created_at: " ++ v) =
      some (cs "created_at", Yaml.str v) := by
    rw [hline, parseScalar_plain false v hstrip hv_ne hq, resolvePlain_false_of_ts hts]
    rfl
  unfold split_front_matter
  rw [hlines]
  simp only [List.head?_cons, List.drop_succ_cons, List.drop_zero]
  rw [if_neg (by decide)]
  rw [List.findIdx?_cons, hne_line]
  simp only [if_false, Bool.false_eq_true]
  rw [List.findIdx?_cons]
  rw [show ((cs "---" : Str) == cs "---") = true from by decide]
  simp only [if_true]
  have hparse : parseYamlMapping false (joinNl (List.take 1
      [cs "created_at: " ++ v, cs "---", cs "body"])) =
      some [(cs "created_at", Yaml.str v)] := by
    have hjoin : joinNl (List.take 1 [cs "created_at: " ++ v, cs "---", cs "body"]) =
        cs "created_at: " ++ v := by
      simp [joinNl, List.intercalate]
    rw [hjoin]
    unfold parseYamlMapping
    rw [pySplitlines_no_nl _ hl2nl (by simp [cs])]
    unfold parseFMLinesAcc
    rw [hstrip_l2]
    rw [if_neg (by simp [cs])]
    rw [hlinev]
    rfl
  rw [hparse]
  rfl

/-- C3: counterexample to the claim as stated.  `tickets/util.load_ticket`
decodes with `yaml.safe_load`, whose implicit timestamp resolver is NOT
disabled: the unquoted header value `2024-01-01T00:00:00Z` comes back as
a native timestamp value, not a string. -/
theorem C3_counterexample :
    load_ticket (cs "---\ncreated_at: 2024-01-01T00:00:00Z\n---\nbody") =
      .ok ([(cs "created_at", Yaml.timestamp (cs "2024-01-01T00:00:00Z"))], cs "body") := by
  rfl

/-- C3: witness for the amended theorem at the concrete timestamp shape
from the claim. -/
theorem C3_witness :
    split_front_matter (cs "---" ++ nl :: ((cs "created_at: " ++
        cs "2024-01-01T00:00:00Z") ++ nl :: (cs "---" ++ nl :: cs "body"))) =
      .ok ([(cs "created_at", Yaml.str (cs "2024-01-01T00:00:00Z"))], cs "body") :=
  C3_split_front_matter_keeps_string (cs "2024-01-01T00:00:00Z")
    (by decide) (by decide) (by decide) (by decide)

/-! ## Claim C1: divergent `run_started` severity -/

theorem mem_insertDedup_self (xs : List Str) (x : Str) : x ∈ insertDedup xs x := by
  unfold insertDedup
  split
  · rename_i h
    simpa using h
  · exact List.mem_append_right _ (List.mem_singleton_self x)

theorem mem_insertDedup_of_mem (xs : List Str) (x y : Str) (h : y ∈ xs) :
    y ∈ insertDedup xs x := by
  unfold insertDedup
  split
  · exact h
  · exact List.mem_append_left _ h

theorem one_lt_length_of_two_mem {xs : List Str} {a b : Str} (ha : a ∈ xs) (hb : b ∈ xs)
    (hne : a ≠ b) : 1 < xs.length := by
  cases xs with
  | nil => cases ha
  | cons x rest =>
    cases rest with
    | nil =>
      simp at ha hb
      exact absurd (ha.trans hb.symm) hne
    | cons y t => simp

/-- The `run_started_values` component of one `validate_logs` entry
iteration. -/
theorem lib_log_entry_snd (path : Str) (e : JObj) (n : Nat)
    (acc : List LIssue × List Str) :
    (lib_log_entry path e n acc).2 =
      if jHas e (cs "_parse_error") then acc.2
      else
        match jGet e (cs "run_started") with
        | .str s => if ISO_UTC_match s then insertDedup acc.2 s else acc.2
        | _ => acc.2 := by
  unfold lib_log_entry
  by_cases hp : jHas e (cs "_parse_error") = true
  · rw [if_pos hp, if_pos hp]
  · rw [if_neg hp, if_neg hp]
    simp only
    cases hg : jGet e (cs "run_started") with
    | str s =>
      show (if ISO_UTC_match s = true then (acc.1, insertDedup acc.2 s)
        else (addLogIssue acc.1 "error" "LOG_RUN_STARTED_INVALID"
          (cs "run_started must be ISO 8601 UTC timestamp") path (some n), acc.2)).2 =
        if ISO_UTC_match s = true then insertDedup acc.2 s else acc.2
      by_cases hok : ISO_UTC_match s = true
      · rw [if_pos hok, if_pos hok]
      · rw [if_neg hok, if_neg hok]
    | null => rfl
    | bool b => rfl
    | num m => rfl

theorem rsvals_mem_foldl (path : Str) (entries : List LogEntry) (s : Str) :
    ∀ acc : List LIssue × List Str,
      (s ∈ acc.2 ∨ ∃ en ∈ entries, jHas en.data (cs "_parse_error") = false ∧
        jGet en.data (cs "run_started") = JVal.str s ∧ ISO_UTC_match s = true) →
      s ∈ (entries.foldl (fun acc en => lib_log_entry path en.data en.line_no acc) acc).2 := by
  induction entries with
  | nil =>
    intro acc h
    rcases h with h | ⟨en, hen, -⟩
    · exact h
    · cases hen
  | cons en rest ih =>
    intro acc h
    simp only [List.foldl_cons]
    apply ih
    rcases h with h | ⟨en', hen', hp, hr, hok⟩
    · left
      rw [lib_log_entry_snd]
      split
      · exact h
      · split
        · split
          · exact mem_insertDedup_of_mem _ _ _ h
          · exact h
        · exact h
    · rcases List.mem_cons.mp hen' with heq | htail
      · left
        subst heq
        rw [lib_log_entry_snd, if_neg (by rw [hp]; simp), hr]
        show s ∈ if ISO_UTC_match s = true then insertDedup acc.2 s else acc.2
        rw [if_pos hok]
        exact mem_insertDedup_self _ _
      · right
        exact ⟨en', htail, hp, hr, hok⟩

/-- C1 (amended): in `ticketslib`'s log validator a `run_started`
divergence between two (well-formed, parseable) entries of one file is
reported as an issue of severity error (`LOG_RUN_STARTED_MISMATCH`)
regardless of any authorship markers; the `tickets` validator instead
downgrades the divergence to a warning for entries that are not
machine-authored (see the counterexample). -/
theorem C1_lib_mismatch_error (lf : LogFileInput) (e1 e2 : LogEntry) (s1 s2 : Str)
    (h1 : e1 ∈ parse_log_file_entries lf.lines)
    (h2 : e2 ∈ parse_log_file_entries lf.lines)
    (hp1 : jHas e1.data (cs "_parse_error") = false)
    (hp2 : jHas e2.data (cs "_parse_error") = false)
    (hr1 : jGet e1.data (cs "run_started") = JVal.str s1)
    (hr2 : jGet e2.data (cs "run_started") = JVal.str s2)
    (hok1 : ISO_UTC_match s1 = true) (hok2 : ISO_UTC_match s2 = true)
    (hne : s1 ≠ s2) :
    ∃ i ∈ lib_validate_logs [lf], i.severity = "error" ∧
      i.code = "LOG_RUN_STARTED_MISMATCH" := by
  have hstep : lib_validate_logs [lf] = lib_validate_log_file [] lf := rfl
  rw [hstep]
  unfold lib_validate_log_file
  have hs1 : s1 ∈ ((parse_log_file_entries lf.lines).foldl
      (fun acc en => lib_log_entry lf.path en.data en.line_no acc) ([], [])).2 :=
    rsvals_mem_foldl lf.path _ s1 ([], []) (Or.inr ⟨e1, h1, hp1, hr1, hok1⟩)
  have hs2 : s2 ∈ ((parse_log_file_entries lf.lines).foldl
      (fun acc en => lib_log_entry lf.path en.data en.line_no acc) ([], [])).2 :=
    rsvals_mem_foldl lf.path _ s2 ([], []) (Or.inr ⟨e2, h2, hp2, hr2, hok2⟩)
  have hlen := one_lt_length_of_two_mem hs1 hs2 hne
  simp only
  rw [if_pos (by exact hlen)]
  have hmem : (⟨mkIssueId (((parse_log_file_entries lf.lines).foldl
        (fun acc en => lib_log_entry lf.path en.data en.line_no acc) ([], [])).1.length + 1),
      "error", "LOG_RUN_STARTED_MISMATCH",
      cs "Log file contains multiple run_started values", lf.path, none⟩ : LIssue) ∈
      addLogIssue ((parse_log_file_entries lf.lines).foldl
        (fun acc en => lib_log_entry lf.path en.data en.line_no acc) ([], [])).1
        "error" "LOG_RUN_STARTED_MISMATCH"
        (cs "Log file contains multiple run_started values") lf.path none := by
    unfold addLogIssue
    exact List.mem_append_right _ (List.mem_singleton_self _)
  split
  · split
    · refine ⟨_, List.mem_append_left _ hmem, rfl, rfl⟩
    · exact ⟨_, hmem, rfl, rfl⟩
  · exact ⟨_, hmem, rfl, rfl⟩

/-! ## Claim C4 machinery: the write/load ticket codec roundtrip

Substring, strip and PyYAML dump/parse lemmas leading to
`load_write_roundtrip`: within the modelled flat-scalar subset,
`load_ticket` after `write_ticket` returns the front matter unchanged and
the body strip-normalized with one trailing newline. -/

theorem stripPre_isSome_iff (pat s : Str) :
    (stripPre pat s).isSome = pat.isPrefixOf s := by
  induction pat generalizing s with
  | nil => simp [stripPre, List.isPrefixOf]
  | cons p ps ih =>
    cases s with
    | nil => simp [stripPre, List.isPrefixOf]
    | cons c rest =>
      simp only [stripPre, List.isPrefixOf]
      by_cases hc : p == c
      · simp [hc, ih]
      · simp [hc]

theorem hasSubstr_cons (pat : Str) (c : Char) (s : Str) :
    hasSubstr pat (c :: s) = (pat.isPrefixOf (c :: s) || hasSubstr pat s) := by
  simp only [hasSubstr, splitOnceSub]
  cases hsp : stripPre pat (c :: s) with
  | some r =>
    have hpre : pat.isPrefixOf (c :: s) = true := by
      rw [← stripPre_isSome_iff, hsp]; rfl
    simp [hpre]
  | none =>
    have hpre : pat.isPrefixOf (c :: s) = false := by
      rw [← stripPre_isSome_iff, hsp]; rfl
    rw [hpre]
    cases hrec : splitOnceSub pat s with
    | some p => obtain ⟨l, r⟩ := p; simp
    | none => simp

theorem stripPre_none_head (p : Char) (ps : Str) (c : Char) (s : Str) (h : ¬c = p) :
    stripPre (p :: ps) (c :: s) = none := by
  simp only [stripPre]
  rw [if_neg (by simp; exact fun hh => h hh.symm)]

theorem not_dash3_append {x y : Str}
    (hx : hasSubstr (cs "---") x = false) (hy : hasSubstr (cs "---") y = false)
    (hh : ∀ c, y.head? = some c → ¬c = '-') :
    hasSubstr (cs "---") (x ++ y) = false := by
  have hpat : cs "---" = '-' :: '-' :: '-' :: [] := rfl
  induction x with
  | nil => simpa using hy
  | cons c x' ih =>
    rw [hasSubstr_cons] at hx
    obtain ⟨hpref, hx'⟩ := Bool.or_eq_false_iff.mp hx
    rw [List.cons_append, hasSubstr_cons, ih hx', Bool.or_false]
    by_cases hc : c = '-'
    · subst hc
      cases x' with
      | nil =>
        cases y with
        | nil => rw [hpat]; rfl
        | cons d y' =>
          have hd : ¬('-' = d) := fun h => hh d rfl h.symm
          rw [hpat]
          simp [List.isPrefixOf, hd]
      | cons d x'' =>
        by_cases hd : d = '-'
        · subst hd
          cases x'' with
          | nil =>
            cases y with
            | nil => rw [hpat]; rfl
            | cons e y' =>
              have he : ¬('-' = e) := fun h => hh e rfl h.symm
              rw [hpat]
              simp [List.isPrefixOf, he]
          | cons e x3 =>
            by_cases he : e = '-'
            · subst he
              rw [hpat] at hpref
              simp [List.isPrefixOf] at hpref
            · rw [hpat]
              have he' : ¬('-' = e) := fun h => he h.symm
              simp [List.isPrefixOf, he']
        · rw [hpat]
          have hd' : ¬('-' = d) := fun h => hd h.symm
          simp [List.isPrefixOf, hd']
    · rw [hpat]
      have hc' : ¬('-' = c) := fun h => hc h.symm
      simp [List.isPrefixOf, hc']

theorem hasSubstr_dash_cons (c : Char) (s : Str) (hc : ¬c = '-') :
    hasSubstr (cs "---") (c :: s) = hasSubstr (cs "---") s := by
  rw [hasSubstr_cons]
  have hc' : ¬('-' = c) := fun h => hc h.symm
  rw [show cs "---" = '-' :: '-' :: '-' :: [] from rfl]
  simp [List.isPrefixOf, hc']

theorem no_dash_skip {x : Str} (hx : ∀ c ∈ x, ¬c = '-') (y : Str) :
    hasSubstr (cs "---") (x ++ y) = hasSubstr (cs "---") y := by
  induction x with
  | nil => rfl
  | cons c x' ih =>
    rw [List.cons_append, hasSubstr_dash_cons c _ (hx c (List.mem_cons_self c x'))]
    exact ih (fun d hd => hx d (List.mem_cons_of_mem c hd))

theorem wfKey_mem {k : Str} (hk : wfKey k = true) {c : Char} (hc : c ∈ k) :
    (('a' ≤ c && c ≤ 'z') || c == '_') = true := by
  unfold wfKey at hk
  simp only [Bool.and_eq_true] at hk
  exact (List.all_eq_true.mp hk.2) c hc

theorem key_char_facts {k : Str} (hk : wfKey k = true) {c : Char} (hc : c ∈ k) :
    ¬c = ':' ∧ ¬c = '-' ∧ ¬c = nl ∧ isPyWs c = false := by
  have hmem := wfKey_mem hk hc
  simp only [Bool.or_eq_true] at hmem
  rcases hmem with h1 | h2
  · simp only [Bool.and_eq_true] at h1
    obtain ⟨ha, hb⟩ := h1
    have ha' : 'a' ≤ c := of_decide_eq_true ha
    refine ⟨?_, ?_, ?_, ?_⟩
    · intro h; subst h; exact absurd ha' (by decide)
    · intro h; subst h; exact absurd ha' (by decide)
    · intro h; subst h; exact absurd ha' (by decide)
    · unfold isPyWs
      have hne : ∀ d : Char, ('a' ≤ d → False) → (c == d) = false := by
        intro d hd
        rw [beq_eq_false_iff_ne]
        intro h; subst h; exact hd ha'
      rw [hne ' ' (by decide), hne '\t' (by decide), hne '\n' (by decide),
        hne '\r' (by decide), hne '\x0b' (by decide), hne '\x0c' (by decide)]
      rfl
  · have h2' : c = '_' := by simpa using h2
    subst h2'
    exact ⟨by decide, by decide, by decide, by decide⟩

theorem wfKey_ne_nil {k : Str} (hk : wfKey k = true) : k ≠ [] := by
  unfold wfKey at hk
  simp only [Bool.and_eq_true] at hk
  simpa using hk.1

theorem colon_split_exact (k sv : Str) (hk : wfKey k = true) :
    splitOnceSub (cs ": ") (k ++ cs ": " ++ sv) = some (k, sv) := by
  apply splitOnceSub_exact (by decide)
  intro l1 l2 heq hne
  cases l2 with
  | nil => exact absurd rfl hne
  | cons c l2' =>
    have hc : c ∈ k := heq ▸ List.mem_append_right l1 (List.mem_cons_self c l2')
    have hcc := (key_char_facts hk hc).1
    rw [List.cons_append, List.cons_append]
    exact stripPre_none_head ':' _ c _ hcc

theorem pyLstrip_fix {s : Str} (h : ∀ c, s.head? = some c → isPyWs c = false) :
    pyLstrip s = s := by
  cases s with
  | nil => rfl
  | cons c t =>
    unfold pyLstrip
    rw [List.dropWhile_cons, if_neg (by simp [h c rfl])]

theorem pyRstrip_fix {s : Str} (h : ∀ c, s.getLast? = some c → isPyWs c = false) :
    pyRstrip s = s := by
  cases hsl : s.getLast? with
  | none =>
    have : s = [] := by
      cases s with
      | nil => rfl
      | cons a t => rw [List.getLast?_eq_getLast] at hsl <;> simp at hsl
    subst this; rfl
  | some c =>
    have hmem : c ∈ s.getLast? := hsl ▸ rfl
    obtain ⟨hne, heq⟩ := List.mem_getLast?_eq_getLast hmem
    have hs : s.dropLast ++ [c] = s := by
      rw [heq]; exact List.dropLast_append_getLast hne
    unfold pyRstrip
    rw [← hs, List.reverse_append]
    simp only [List.reverse_cons, List.reverse_nil, List.nil_append, List.singleton_append,
      List.dropWhile_cons]
    rw [if_neg (by simp [h c hsl])]
    simp

theorem pyStrip_fix {s : Str} (hh : ∀ c, s.head? = some c → isPyWs c = false)
    (hl : ∀ c, s.getLast? = some c → isPyWs c = false) : pyStrip s = s := by
  unfold pyStrip
  rw [pyLstrip_fix hh, pyRstrip_fix hl]

theorem pyRstrip_snoc_nl (u : Str) : pyRstrip (u ++ [nl]) = pyRstrip u := by
  unfold pyRstrip
  rw [List.reverse_append]
  simp only [List.reverse_cons, List.reverse_nil, List.nil_append, List.singleton_append,
    List.dropWhile_cons]
  rw [if_pos (by decide)]

theorem dropWhile_append_of_ne_nil {p : Char → Bool} {a : Str} (b : Str)
    (h : a.dropWhile p ≠ []) : (a ++ b).dropWhile p = a.dropWhile p ++ b := by
  induction a with
  | nil => exact absurd rfl h
  | cons c a' ih =>
    by_cases hc : p c = true
    · rw [List.cons_append, List.dropWhile_cons, if_pos hc]
      rw [List.dropWhile_cons, if_pos hc] at h ⊢
      exact ih h
    · rw [List.cons_append, List.dropWhile_cons, if_neg hc, List.dropWhile_cons, if_neg hc,
        List.cons_append]

theorem pyRstrip_append_left {w : Str} (u : Str) (h : pyRstrip w ≠ []) :
    pyRstrip (u ++ w) = u ++ pyRstrip w := by
  have hrev : w.reverse.dropWhile isPyWs ≠ [] := by
    intro hx
    apply h
    unfold pyRstrip
    rw [hx]
    rfl
  unfold pyRstrip
  rw [List.reverse_append, dropWhile_append_of_ne_nil _ hrev, List.reverse_append]
  simp

theorem head_dropWhile_not {p : Char → Bool} (s : Str) :
    ∀ c, ((s.dropWhile p).head? = some c) → p c = false := by
  induction s with
  | nil => intro c h; cases h
  | cons a t ih =>
    intro c h
    by_cases ha : p a = true
    · rw [List.dropWhile_cons, if_pos ha] at h
      exact ih c h
    · rw [List.dropWhile_cons, if_neg ha] at h
      simp at h
      subst h
      simpa using ha

theorem pyRstrip_last_not_ws (s : Str) :
    ∀ c, ((pyRstrip s).getLast? = some c) → isPyWs c = false := by
  intro c h
  unfold pyRstrip at h
  rw [List.getLast?_reverse] at h
  exact head_dropWhile_not _ c h

theorem pyRstrip_head (u : Str) (h : pyRstrip u ≠ []) : (pyRstrip u).head? = u.head? := by
  obtain ⟨t, ht⟩ := List.dropWhile_suffix (p := isPyWs) (l := u.reverse)
  have hu : u = pyRstrip u ++ t.reverse := by
    have h2 := congrArg List.reverse ht
    simp only [List.reverse_append, List.reverse_reverse] at h2
    exact h2.symm
  conv_rhs => rw [hu]
  cases hpr : pyRstrip u with
  | nil => exact absurd hpr h
  | cons a x => simp

theorem pyStrip_head_not_ws (s : Str) :
    ∀ c, ((pyStrip s).head? = some c) → isPyWs c = false := by
  intro c h
  have hne : pyStrip s ≠ [] := by
    intro hx; rw [hx] at h; cases h
  unfold pyStrip at h hne
  rw [pyRstrip_head _ hne] at h
  exact head_dropWhile_not _ c h

theorem pyStrip_last_not_ws (s : Str) :
    ∀ c, ((pyStrip s).getLast? = some c) → isPyWs c = false := by
  intro c h
  unfold pyStrip at h
  exact pyRstrip_last_not_ws _ c h

theorem resolvePlain_str {b : Bool} {w u : Str} (h : resolvePlain b w = .str u) : u = w := by
  unfold resolvePlain at h
  repeat' split at h
  all_goals first
    | (injection h with h2; exact h2.symm)
    | cases h

theorem wfVal_str {v : Yaml} (h : wfVal v = true) :
    ∃ w, v = .str w ∧ w ≠ [] ∧ (∀ c ∈ w, ¬c = '\'' ∧ ¬c = '"' ∧ ¬c = nl) ∧
      pyStrip w = w ∧ hasSubstr (cs ": ") w = false ∧ hasSubstr (cs "---") w = false := by
  cases v with
  | str w =>
    unfold wfVal at h
    simp only [Bool.and_eq_true] at h
    obtain ⟨⟨⟨⟨h1, h2⟩, h3⟩, h4⟩, h5⟩ := h
    refine ⟨w, rfl, by simpa using h1, ?_, by simpa using h3, by simpa using h4,
      by simpa using h5⟩
    intro c hc
    have h2x : (w.any (fun c => c == '\'' || c == '"' || c == nl)) = false := by simpa using h2
    rw [List.any_eq_false] at h2x
    have hcx := h2x c hc
    simp only [Bool.or_eq_true, beq_iff_eq] at hcx
    push_neg at hcx
    exact ⟨hcx.1.1, hcx.1.2, hcx.2⟩
  | null => simp [wfVal] at h
  | bool b => simp [wfVal] at h
  | int n => simp [wfVal] at h
  | float f => simp [wfVal] at h
  | timestamp t => simp [wfVal] at h
  | list l => simp [wfVal] at h
  | map m => simp [wfVal] at h

theorem any_quote_false {w : Str} (hchar : ∀ c ∈ w, ¬c = '\'' ∧ ¬c = '"' ∧ ¬c = nl) :
    (w.any (· == '\'')) = false := by
  rw [List.any_eq_false]
  intro c hc
  simpa using (hchar c hc).1

theorem dumpScalar_wf {v : Yaml} (h : wfVal v = true) :
    ∃ sv, dumpScalar v = some sv ∧ sv ≠ [] ∧ (∀ c ∈ sv, ¬c = nl) ∧
      hasSubstr (cs "---") sv = false ∧ pyStrip sv = sv ∧
      (∀ c, sv.getLast? = some c → isPyWs c = false) ∧
      parseScalar true sv = some v := by
  obtain ⟨w, rfl, hne, hchar, hstrip, hcol, hdash⟩ := wfVal_str h
  have hds : dumpScalar (Yaml.str w) = if w = [] then some (cs "''")
      else if (match resolvePlain true w with | Yaml.str _ => false | _ => true) = true then
        some ('\'' :: (w ++ ['\'']))
      else some w := rfl
  rw [hds, if_neg hne]
  by_cases hres : (match resolvePlain true w with | .str _ => false | _ => true) = true
  · rw [if_pos hres]
    have hlastq : ('\'' :: (w ++ ['\''])).getLast? = some '\'' := by
      rw [show ('\'' :: (w ++ ['\'']) : Str) = ('\'' :: w) ++ ['\''] from rfl]
      exact List.getLast?_concat _
    have hfix : pyStrip ('\'' :: (w ++ ['\''])) = '\'' :: (w ++ ['\'']) := by
      apply pyStrip_fix
      · intro c hcq
        simp only [List.cons_append, List.head?_cons, Option.some.injEq] at hcq
        subst hcq; decide
      · intro c hcq
        rw [hlastq] at hcq
        simp only [Option.some.injEq] at hcq
        subst hcq; decide
    refine ⟨_, rfl, by simp, ?_, ?_, hfix, ?_, ?_⟩
    · intro c hc
      rcases List.mem_cons.mp hc with rfl | hc2
      · decide
      · rcases List.mem_append.mp hc2 with hw | hq
        · exact (hchar c hw).2.2
        · have hcq : c = '\'' := by simpa using hq
          subst hcq; decide
    · rw [hasSubstr_dash_cons '\'' (w ++ ['\'']) (by decide)]
      apply not_dash3_append hdash (by decide)
      intro c hcq
      simp only [List.head?_cons, Option.some.injEq] at hcq
      subst hcq; decide
    · intro c hcq
      rw [hlastq] at hcq
      simp only [Option.some.injEq] at hcq
      subst hcq; decide
    · simp only [parseScalar, hfix]
      rw [show ('\'' :: (w ++ ['\''])).tail = w ++ ['\''] from rfl,
        show (w ++ ['\'']).getLast? = some '\'' from List.getLast?_concat _,
        List.dropLast_concat]
      show (if ('\'' == '\'' && !(w.any fun x => x == '\'')) = true then
        some (Yaml.str w) else none) = some (Yaml.str w)
      rw [if_pos (by simp [any_quote_false hchar])]
  · rw [if_neg hres]
    have hlast : ∀ c, w.getLast? = some c → isPyWs c = false := by
      intro c hcq
      rw [← hstrip] at hcq
      exact pyStrip_last_not_ws _ c hcq
    have hq : ∀ c ∈ w, c ≠ '\'' ∧ c ≠ '"' := fun c hc => ⟨(hchar c hc).1, (hchar c hc).2.1⟩
    have hparse := parseScalar_plain true w hstrip hne hq
    have hrw : resolvePlain true w = .str w := by
      cases hr : resolvePlain true w with
      | str u => rw [resolvePlain_str hr]
      | null => rw [hr] at hres; simp at hres
      | bool b => rw [hr] at hres; simp at hres
      | int n => rw [hr] at hres; simp at hres
      | float f => rw [hr] at hres; simp at hres
      | timestamp t => rw [hr] at hres; simp at hres
      | list l => rw [hr] at hres; simp at hres
      | map m => rw [hr] at hres; simp at hres
    exact ⟨w, rfl, hne, fun c hc => (hchar c hc).2.2, hdash, hstrip, hlast,
      by rw [hparse, hrw]⟩

theorem key_mem_of_head {k : Str} {c : Char} (hc : k.head? = some c) : c ∈ k := by
  cases k with
  | nil => cases hc
  | cons a t =>
    simp only [List.head?_cons, Option.some.injEq] at hc
    subst hc
    exact List.mem_cons_self a t

theorem mem_of_getLast? {l : Str} {c : Char} (hc : l.getLast? = some c) : c ∈ l := by
  have hmem : c ∈ l.getLast? := hc ▸ rfl
  obtain ⟨hne2, heq⟩ := List.mem_getLast?_eq_getLast hmem
  exact heq ▸ List.getLast_mem hne2

theorem pyStrip_key {k : Str} (hk : wfKey k = true) : pyStrip k = k := by
  apply pyStrip_fix
  · intro c hc
    exact (key_char_facts hk (key_mem_of_head hc)).2.2.2
  · intro c hc
    exact (key_char_facts hk (mem_of_getLast? hc)).2.2.2

theorem key_any_colon {k : Str} (hk : wfKey k = true) : (k.any (· == ':')) = false := by
  rw [List.any_eq_false]
  intro c hc
  simpa using (key_char_facts hk hc).1

theorem parseFMLine_dump (k sv : Str) (v : Yaml) (hk : wfKey k = true)
    (hparse : parseScalar true sv = some v) :
    parseFMLine true (k ++ cs ": " ++ sv) = some (k, v) := by
  unfold parseFMLine
  rw [colon_split_exact k sv hk]
  simp only
  rw [pyStrip_key hk]
  rw [if_neg (by simp [wfKey_ne_nil hk, key_any_colon hk])]
  rw [hparse]
  rfl

theorem fmHas_append (acc : FM) (k : Str) (v : Yaml) (q : Str) :
    fmHas (acc ++ [(k, v)]) q = (fmHas acc q || (k == q)) := by
  simp [fmHas, List.any_append]

theorem fmSet_fresh (acc : FM) (k : Str) (v : Yaml) (h : fmHas acc k = false) :
    fmSet acc k v = acc ++ [(k, v)] := by
  unfold fmSet
  rw [if_neg (by simp [h])]

theorem dumpFM_parse (fm : FM) (hwf : ∀ p ∈ fm, wfKey p.1 = true ∧ wfVal p.2 = true)
    (hnodup : (fm.map Prod.fst).Nodup) :
    ∃ D, dumpFM fm = some D ∧
      hasSubstr (cs "---") D = false ∧
      (∀ c, D.head? = some c → isPyWs c = false ∧ ¬c = '-') ∧
      (fm = [] → D = []) ∧
      (fm ≠ [] → D.getLast? = some nl ∧ pyRstrip D = D.dropLast ∧ D.dropLast ≠ []) ∧
      (∀ acc, (∀ p ∈ fm, fmHas acc p.1 = false) →
        parseFMLinesAcc true (pySplitlines D) acc = some (acc ++ fm)) := by
  induction fm with
  | nil =>
    refine ⟨[], rfl, rfl, ?_, fun _ => rfl, fun h => absurd rfl h, fun acc _ => by
      rw [pySplitlines_nil]; simp [parseFMLinesAcc]⟩
    intro c h; cases h
  | cons p rest ih =>
    obtain ⟨k, v⟩ := p
    have hkv := hwf (k, v) (List.mem_cons_self _ _)
    have hk : wfKey k = true := hkv.1
    have hv : wfVal v = true := hkv.2
    have hwfrest : ∀ q ∈ rest, wfKey q.1 = true ∧ wfVal q.2 = true :=
      fun q hq => hwf q (List.mem_cons_of_mem _ hq)
    have hnodup3 : (k :: rest.map Prod.fst).Nodup := by
      rw [List.map_cons] at hnodup
      exact hnodup
    have hnodup2 := List.nodup_cons.mp hnodup3
    obtain ⟨D', hD', hdash', hhead', hnil', hne', hparse'⟩ := ih hwfrest hnodup2.2
    obtain ⟨sv, hsv, hsvne, hsvnl, hsvdash, hsvstrip, hsvlast, hsvparse⟩ := dumpScalar_wf hv
    have hknl : ∀ c ∈ k, ¬c = nl := fun c hc => (key_char_facts hk hc).2.2.1
    have hLnl : ∀ c ∈ k ++ cs ": " ++ sv, ¬c = nl := by
      intro c hc
      rcases List.mem_append.mp hc with hc1 | hc2
      · rcases List.mem_append.mp hc1 with hk1 | hk2
        · exact hknl c hk1
        · have hor : c = ':' ∨ c = ' ' := by
            rw [show cs ": " = [':', ' '] from rfl] at hk2
            simpa using hk2
          rcases hor with rfl | rfl
          · decide
          · decide
      · exact hsvnl c hc2
    have hLlast : (k ++ cs ": " ++ sv).getLast? = sv.getLast? :=
      List.getLast?_append_of_ne_nil _ hsvne
    have hLlastws : ∀ c, (k ++ cs ": " ++ sv).getLast? = some c → isPyWs c = false := by
      intro c hc
      rw [hLlast] at hc
      exact hsvlast c hc
    obtain ⟨kc, kt, hkck⟩ : ∃ kc kt, k = kc :: kt := by
      cases k with
      | nil => exact absurd rfl (wfKey_ne_nil hk)
      | cons a t => exact ⟨a, t, rfl⟩
    have hkcmem : kc ∈ k := hkck ▸ List.mem_cons_self kc kt
    have hkcfacts := key_char_facts hk hkcmem
    have hLhead : ∀ y : Str, ((k ++ cs ": " ++ sv) ++ y).head? = some kc := by
      intro y
      rw [hkck]
      rfl
    have hLdash : hasSubstr (cs "---") (k ++ cs ": " ++ sv) = false := by
      rw [List.append_assoc, no_dash_skip (fun c hc => (key_char_facts hk hc).2.1)]
      rw [show cs ": " ++ sv = ':' :: ' ' :: sv from rfl]
      rw [hasSubstr_dash_cons ':' _ (by decide), hasSubstr_dash_cons ' ' _ (by decide)]
      exact hsvdash
    have hLstrip : pyStrip (k ++ cs ": " ++ sv) = k ++ cs ": " ++ sv := by
      apply pyStrip_fix
      · intro c hc
        rw [show k ++ cs ": " ++ sv = (k ++ cs ": " ++ sv) ++ [] from by simp] at hc
        rw [hLhead []] at hc
        simp only [Option.some.injEq] at hc
        subst hc
        exact hkcfacts.2.2.2
      · exact hLlastws
    have hLne : k ++ cs ": " ++ sv ≠ [] := by
      rw [hkck]; simp
    refine ⟨(k ++ cs ": " ++ sv) ++ nl :: D', ?_, ?_, ?_, ?_, ?_, ?_⟩
    · unfold dumpFM
      rw [hsv, hD']
    · apply not_dash3_append hLdash
      · rw [hasSubstr_dash_cons nl _ (by decide)]
        exact hdash'
      · intro c hc
        simp only [List.head?_cons, Option.some.injEq] at hc
        subst hc
        decide
    · intro c hc
      rw [hLhead (nl :: D')] at hc
      simp only [Option.some.injEq] at hc
      subst hc
      exact ⟨hkcfacts.2.2.2, hkcfacts.2.1⟩
    · intro h; cases h
    · intro _
      by_cases hrest : rest = []
      · subst hrest
        rw [hnil' rfl]
        refine ⟨?_, ?_, ?_⟩
        · rw [show (k ++ cs ": " ++ sv) ++ nl :: ([] : Str) = (k ++ cs ": " ++ sv) ++ [nl]
            from rfl]
          exact List.getLast?_concat _
        · rw [show (k ++ cs ": " ++ sv) ++ nl :: ([] : Str) = (k ++ cs ": " ++ sv) ++ [nl]
            from rfl, pyRstrip_snoc_nl, List.dropLast_concat]
          exact pyRstrip_fix hLlastws
        · rw [show (k ++ cs ": " ++ sv) ++ nl :: ([] : Str) = (k ++ cs ": " ++ sv) ++ [nl]
            from rfl, List.dropLast_concat]
          exact hLne
      · obtain ⟨hD'last, hD'rstrip, hD'dropne⟩ := hne' hrest
        have hD'ne : D' ≠ [] := by
          intro h; rw [h] at hD'last; cases hD'last
        have hcons_ne : (nl :: D' : Str) ≠ [] := by simp
        refine ⟨?_, ?_, ?_⟩
        · rw [List.getLast?_append_of_ne_nil _ (by simp),
            show (nl :: D' : Str) = [nl] ++ D' from rfl,
            List.getLast?_append_of_ne_nil _ hD'ne]
          exact hD'last
        · have h1 : pyRstrip (nl :: D') = nl :: D'.dropLast := by
            rw [show (nl :: D' : Str) = [nl] ++ D' from rfl,
              pyRstrip_append_left [nl] (by rw [hD'rstrip]; exact hD'dropne), hD'rstrip]
            rfl
          rw [pyRstrip_append_left _ (by rw [h1]; simp), h1,
            List.dropLast_append_of_ne_nil _ hcons_ne, List.dropLast_cons_of_ne_nil hD'ne]
        · rw [List.dropLast_append_of_ne_nil _ hcons_ne]
          simp only [ne_eq, List.append_eq_nil]
          intro hkk
          exact absurd hkk.1.1.1 (wfKey_ne_nil hk)
    · intro acc hacc
      rw [pySplitlines_cons _ _ hLnl]
      unfold parseFMLinesAcc
      rw [if_neg (by rw [hLstrip]; exact hLne)]
      rw [parseFMLine_dump k sv v hk hsvparse]
      show parseFMLinesAcc true (pySplitlines D') (fmSet acc k v) = some (acc ++ (k, v) :: rest)
      rw [fmSet_fresh acc k v (hacc (k, v) (List.mem_cons_self _ _))]
      rw [hparse' (acc ++ [(k, v)]) ?fresh]
      · rw [List.append_assoc]
        rfl
      case fresh =>
        intro q hq
        rw [fmHas_append]
        rw [hacc q (List.mem_cons_of_mem _ hq)]
        simp only [Bool.false_or, beq_eq_false_iff_ne]
        intro h
        exact hnodup2.1 (h ▸ List.mem_map_of_mem Prod.fst hq)

theorem stripPre_dash_step (x : Str) :
    stripPre (cs "---") ('-' :: x) = stripPre ('-' :: '-' :: []) x := by
  simp [stripPre]

theorem stripPre_dash_step2 (x : Str) :
    stripPre ('-' :: '-' :: []) ('-' :: x) = stripPre ('-' :: []) x := by
  simp [stripPre]

theorem dash_hno (l r : Str) (hnd : hasSubstr (cs "---") l = false)
    (hlast : ∀ c, l.getLast? = some c → ¬c = '-') :
    ∀ l1 l2, l = l1 ++ l2 → l2 ≠ [] → stripPre (cs "---") (l2 ++ cs "---" ++ r) = none := by
  intro l1 l2 heq hne
  cases l2 with
  | nil => exact absurd rfl hne
  | cons a l2' =>
    cases l2' with
    | nil =>
      have ha : ¬a = '-' := by
        apply hlast
        rw [heq]
        exact List.getLast?_concat l1
      simp only [List.cons_append, List.nil_append]
      exact stripPre_none_head '-' _ a _ ha
    | cons b l2'' =>
      by_cases ha : a = '-'
      · subst ha
        cases l2'' with
        | nil =>
          have hbb : ¬b = '-' := by
            apply hlast
            rw [heq, show l1 ++ ['-', b] = (l1 ++ ['-']) ++ [b] from by simp]
            exact List.getLast?_concat _
          simp only [List.cons_append, List.nil_append]
          rw [stripPre_dash_step]
          exact stripPre_none_head '-' _ b _ hbb
        | cons c l3 =>
          by_cases hbb : b = '-'
          · subst hbb
            by_cases hcc : c = '-'
            · exfalso
              subst hcc
              have hocc : hasSubstr (cs "---") l = true := by
                rw [heq, show l1 ++ '-' :: '-' :: '-' :: l3 = l1 ++ cs "---" ++ l3 from by
                  rw [show (cs "---" : Str) = '-' :: '-' :: '-' :: [] from rfl]
                  simp]
                exact hasSubstr_of_occurrence (by decide) l1 l3
              rw [hocc] at hnd
              cases hnd
            · simp only [List.cons_append]
              rw [stripPre_dash_step, stripPre_dash_step2]
              exact stripPre_none_head '-' _ c _ hcc
          · simp only [List.cons_append]
            rw [stripPre_dash_step]
            exact stripPre_none_head '-' _ b _ hbb
      · simp only [List.cons_append]
        exact stripPre_none_head '-' _ a _ ha

theorem splitOnceSub_dash_exact (l r : Str) (hnd : hasSubstr (cs "---") l = false)
    (hlast : ∀ c, l.getLast? = some c → ¬c = '-') :
    splitOnceSub (cs "---") (l ++ cs "---" ++ r) = some (l, r) :=
  splitOnceSub_exact (by decide) l r (dash_hno l r hnd hlast)

theorem load_write_roundtrip (fm : FM) (body : Str) (hwf : wfFM fm) (hb : pyStrip body ≠ []) :
    ∃ t, write_ticket fm body = some t ∧
      load_ticket t = .ok (fm, pyStrip body ++ [nl]) := by
  obtain ⟨hfmne, hwfall, hnodup⟩ := hwf
  obtain ⟨D, hD, hdash, hhead, hnil, hne, hparse⟩ := dumpFM_parse fm hwfall hnodup
  obtain ⟨hDlast, hDrstrip, hDdropne⟩ := hne hfmne
  have hDne : D ≠ [] := fun h => by rw [h] at hDlast; cases hDlast
  have hDsplit : D.dropLast ++ [nl] = D := by
    have hmem : nl ∈ D.getLast? := hDlast ▸ rfl
    obtain ⟨hne2, heq⟩ := List.mem_getLast?_eq_getLast hmem
    rw [heq]
    exact List.dropLast_append_getLast hne2
  have hwrite : write_ticket fm body =
      some (joinNl [cs "---", pyRstrip D, cs "---", pyStrip body ++ [nl]]) := by
    unfold write_ticket
    rw [hD]
    rfl
  have hjoin : joinNl [cs "---", pyRstrip D, cs "---", pyStrip body ++ [nl]] =
      cs "---" ++ nl :: (D.dropLast ++ nl :: (cs "---" ++ nl :: (pyStrip body ++ [nl]))) := by
    rw [hDrstrip]
    simp [joinNl, List.intercalate]
  refine ⟨_, hwrite, ?_⟩
  rw [hjoin]
  have hX : (nl :: (D.dropLast ++ nl :: (cs "---" ++ nl :: (pyStrip body ++ [nl]))) : Str) =
      (nl :: D) ++ cs "---" ++ (nl :: (pyStrip body ++ [nl])) := by
    rw [← hDsplit]
    simp
  have hsub1 : splitOnceSub (cs "---")
      (cs "---" ++ nl :: (D.dropLast ++ nl :: (cs "---" ++ nl :: (pyStrip body ++ [nl])))) =
      some ([], nl :: (D.dropLast ++ nl :: (cs "---" ++ nl :: (pyStrip body ++ [nl])))) :=
    splitOnceSub_at_zero _ _ (by decide)
  have hnlD_dash : hasSubstr (cs "---") (nl :: D) = false := by
    rw [hasSubstr_dash_cons nl _ (by decide)]
    exact hdash
  have hnlD_last : ∀ c, (nl :: D).getLast? = some c → ¬c = '-' := by
    intro c hc
    rw [show (nl :: D : Str) = [nl] ++ D from rfl, List.getLast?_append_of_ne_nil _ hDne,
      hDlast] at hc
    simp only [Option.some.injEq] at hc
    subst hc
    decide
  have hsub2 : splitOnceSub (cs "---")
      (nl :: (D.dropLast ++ nl :: (cs "---" ++ nl :: (pyStrip body ++ [nl])))) =
      some (nl :: D, nl :: (pyStrip body ++ [nl])) := by
    rw [hX]
    exact splitOnceSub_dash_exact _ _ hnlD_dash hnlD_last
  have hsplit2 : pySplit2 (cs "---")
      (cs "---" ++ nl :: (D.dropLast ++ nl :: (cs "---" ++ nl :: (pyStrip body ++ [nl])))) =
      [[], nl :: D, nl :: (pyStrip body ++ [nl])] := by
    unfold pySplit2
    rw [hsub1]
    show (match splitOnceSub (cs "---")
        (nl :: (D.dropLast ++ nl :: (cs "---" ++ nl :: (pyStrip body ++ [nl])))) with
      | none => [([] : Str), nl :: (D.dropLast ++ nl :: (cs "---" ++ nl :: (pyStrip body ++ [nl])))]
      | some (l2, r2) => [[], l2, r2]) = [[], nl :: D, nl :: (pyStrip body ++ [nl])]
    rw [hsub2]
  have hyaml : parseYamlMapping true (nl :: D) = some fm := by
    unfold parseYamlMapping
    rw [show (nl :: D : Str) = [] ++ nl :: D from rfl,
      pySplitlines_cons [] D (by intro c hc; cases hc)]
    show parseFMLinesAcc true ([] :: pySplitlines D) [] = some fm
    unfold parseFMLinesAcc
    rw [if_pos (show pyStrip ([] : Str) = [] from rfl)]
    rw [hparse [] (fun p _ => rfl)]
    rfl
  have hbody : lstripNl (nl :: (pyStrip body ++ [nl])) = pyStrip body ++ [nl] := by
    obtain ⟨c, rest, hcr⟩ : ∃ c rest, pyStrip body = c :: rest := by
      cases hsb : pyStrip body with
      | nil => exact absurd hsb hb
      | cons c rest => exact ⟨c, rest, rfl⟩
    have hc_ws : isPyWs c = false := pyStrip_head_not_ws body c (by rw [hcr]; rfl)
    have hcnl : (c == nl) = false := by
      rw [beq_eq_false_iff_ne]
      intro h
      subst h
      exact absurd hc_ws (by decide)
    unfold lstripNl
    rw [List.dropWhile_cons, if_pos (by decide)]
    rw [hcr, List.cons_append, List.dropWhile_cons, if_neg (by simp [hcnl])]
  have hpre : (cs "---").isPrefixOf (cs "---" ++
      nl :: (D.dropLast ++ nl :: (cs "---" ++ nl :: (pyStrip body ++ [nl])))) = true := by
    rw [← stripPre_isSome_iff, stripPre_append]
    rfl
  unfold load_ticket
  rw [if_neg (by rw [hpre]; simp)]
  rw [hsplit2]
  show (match parseYamlMapping true (nl :: D) with
    | none => (Except.error (cs "yaml error") : Except Str (FM × Str))
    | some fm2 => Except.ok (fm2, lstripNl (nl :: (pyStrip body ++ [nl])))) =
    Except.ok (fm, pyStrip body ++ [nl])
  rw [hyaml]
  show Except.ok (fm, lstripNl (nl :: (pyStrip body ++ [nl]))) =
    Except.ok (fm, pyStrip body ++ [nl])
  rw [hbody]

/-- C4 (amended): for headers within the serializable flat subset whose
string values contain no `"---"` (and no `": "`, quotes or newlines, with
distinct plain keys), and for bodies with nonempty strip,
`util.load_ticket` after `util.write_ticket` reproduces the header with
the same keys and values; the body is reproduced only up to
strip-normalization (`body.strip() + "\n"`), not as the original text.
Without the no-`"---"` restriction the claim fails: `load_ticket` splits
the raw text on the first two `"---"` occurrences, so a validating header
whose title contains `" --- "` is corrupted by the roundtrip (see the
counterexample). -/
theorem C4_roundtrip (fm : FM) (body : Str) (hwf : wfFM fm) (hb : pyStrip body ≠ []) :
    ∃ t, write_ticket fm body = some t ∧
      load_ticket t = .ok (fm, pyStrip body ++ [nl]) :=
  load_write_roundtrip fm body hwf hb

set_option maxRecDepth 10000 in
/-- C4 counterexample: a header that validates with zero issues but whose
title holds `"x --- y"` roundtrips to a different header (title `"x"`)
with the remaining header lines leaked into the body. -/
theorem C4_counterexample :
    tickets_validate_fm (cs "p") C4fm C4body false = [] ∧
    (write_ticket C4fm C4body).map load_ticket =
      some (.ok ([(cs "id", Yaml.str (cs "0190b7c2-1234-7abc-afed-cba987654321")),
          (cs "title", Yaml.str (cs "x"))],
        cs " y\nstatus: todo\ncreated_at: '2024-01-01T00:00:00Z'\n---\n# Ticket\n\n## Description\n\n## Acceptance Criteria\n\n## Verification\n")) ∧
    ([(cs "id", Yaml.str (cs "0190b7c2-1234-7abc-afed-cba987654321")),
      (cs "title", Yaml.str (cs "x"))] : FM) ≠ C4fm :=
  ⟨by rfl, by rfl, by decide⟩

/-- C4 witness: the amended roundtrip at a concrete one-key header. -/
theorem C4_witness :
    ∃ t, write_ticket [(cs "title", Yaml.str (cs "x"))] (cs "b") = some t ∧
      load_ticket t = .ok ([(cs "title", Yaml.str (cs "x"))], pyStrip (cs "b") ++ [nl]) :=
  C4_roundtrip [(cs "title", Yaml.str (cs "x"))] (cs "b")
    ⟨by decide, by decide, by decide⟩ (by decide)

/-! ## Claim C8 machinery: `_add_missing_sections` after normalization

Occurrence/strip survival lemmas and the fold behaviour of the
section-appending repair, leading to `C8_core`: applied to a record that
a previous application wrote, the repair is a no-op. -/

theorem hasSubstr_append_right {pat x : Str} (hp : pat ≠ []) (y : Str)
    (h : hasSubstr pat x = true) : hasSubstr pat (x ++ y) = true := by
  obtain ⟨⟨l, r⟩, hsp⟩ := Option.isSome_iff_exists.mp h
  have hx := splitOnceSub_some hsp
  rw [hx, show (l ++ pat ++ r) ++ y = l ++ pat ++ (r ++ y) from by simp]
  exact hasSubstr_of_occurrence hp l (r ++ y)

theorem dropWhile_append_nil {p : Char → Bool} {a : Str} (b : Str)
    (h : a.dropWhile p = []) : (a ++ b).dropWhile p = b.dropWhile p := by
  induction a with
  | nil => rfl
  | cons c t ih =>
    rw [List.dropWhile_cons] at h
    by_cases hc : p c = true
    · rw [if_pos hc] at h
      rw [List.cons_append, List.dropWhile_cons, if_pos hc]
      exact ih h
    · rw [if_neg hc] at h
      cases h

theorem pyRstrip_nil_append {r : Str} (A : Str) (h : pyRstrip r = []) :
    pyRstrip (A ++ r) = pyRstrip A := by
  have hrev : r.reverse.dropWhile isPyWs = [] := by
    have h2 := congrArg List.reverse h
    unfold pyRstrip at h2
    simpa using h2
  unfold pyRstrip
  rw [List.reverse_append, dropWhile_append_nil _ hrev]

/-- An occurrence of a token with non-whitespace first and last characters
survives `str.strip()`. -/
theorem hasSubstr_pyStrip {sec b : Str} (hne : sec ≠ [])
    (hh : ∀ c, sec.head? = some c → isPyWs c = false)
    (hl : ∀ c, sec.getLast? = some c → isPyWs c = false)
    (h : hasSubstr sec b = true) : hasSubstr sec (pyStrip b) = true := by
  obtain ⟨⟨l, r⟩, hsp⟩ := Option.isSome_iff_exists.mp h
  have hb := splitOnceSub_some hsp
  obtain ⟨c0, sec', hc0⟩ : ∃ c0 sec', sec = c0 :: sec' := by
    cases sec with
    | nil => exact absurd rfl hne
    | cons a t => exact ⟨a, t, rfl⟩
  have hc0ws : isPyWs c0 = false := hh c0 (by rw [hc0]; rfl)
  have hlstrip : ∃ l2, pyLstrip b = l2 ++ sec ++ r := by
    rw [hb, show l ++ sec ++ r = l ++ (sec ++ r) from by simp]
    unfold pyLstrip
    by_cases hld : l.dropWhile isPyWs = []
    · rw [dropWhile_append_nil _ hld, hc0, List.cons_append, List.dropWhile_cons,
        if_neg (by simp [hc0ws])]
      exact ⟨[], by simp [hc0]⟩
    · rw [dropWhile_append_of_ne_nil _ hld]
      exact ⟨l.dropWhile isPyWs, by simp⟩
  obtain ⟨l2, hl2⟩ := hlstrip
  have hsecr : pyRstrip sec = sec := pyRstrip_fix hl
  unfold pyStrip
  rw [hl2]
  by_cases hrr : pyRstrip r = []
  · rw [show l2 ++ sec ++ r = (l2 ++ sec) ++ r from by simp, pyRstrip_nil_append _ hrr,
      pyRstrip_append hsecr hne]
    simpa using hasSubstr_of_occurrence hne l2 ([] : Str)
  · rw [show l2 ++ sec ++ r = (l2 ++ sec) ++ r from by simp, pyRstrip_append_left _ hrr,
      show (l2 ++ sec) ++ pyRstrip r = l2 ++ sec ++ pyRstrip r from by simp]
    exact hasSubstr_of_occurrence hne l2 (pyRstrip r)

theorem pyStrip_ne_nil_of_mem {b : Str} {c : Char} (hc : c ∈ b) (hws : isPyWs c = false) :
    pyStrip b ≠ [] := by
  intro h
  have h1 : pyLstrip b ≠ [] := by
    intro hx
    unfold pyLstrip at hx
    rw [List.dropWhile_eq_nil_iff] at hx
    exact absurd (hx c hc) (by simp [hws])
  obtain ⟨d, t, hdt⟩ : ∃ d t, pyLstrip b = d :: t := by
    cases hx : pyLstrip b with
    | nil => exact absurd hx h1
    | cons d t => exact ⟨d, t, rfl⟩
  have hd : isPyWs d = false := head_dropWhile_not b d
    (by rw [show b.dropWhile isPyWs = pyLstrip b from rfl, hdt]; rfl)
  have h2 : pyRstrip (pyLstrip b) = [] := h
  have h3 : (pyLstrip b).reverse.dropWhile isPyWs = [] := by
    have h4 := congrArg List.reverse h2
    unfold pyRstrip at h4
    simpa using h4
  rw [List.dropWhile_eq_nil_iff] at h3
  exact absurd (h3 d (by rw [hdt]; simp)) (by simp [hd])

theorem addMissing_step_complete (nb sec : Str) (hsec : sec ≠ []) :
    hasSubstr sec (if hasSubstr sec nb then nb
      else nb ++ nl :: sec ++ nl :: cs "(fill in)" ++ [nl]) = true := by
  by_cases h : hasSubstr sec nb = true
  · rw [if_pos h]; exact h
  · rw [if_neg h]
    rw [show nb ++ nl :: sec ++ nl :: cs "(fill in)" ++ [nl] =
      (nb ++ [nl]) ++ sec ++ (nl :: cs "(fill in)" ++ [nl]) from by simp]
    exact hasSubstr_of_occurrence hsec _ _

theorem addMissing_step_pres (nb sec pat : Str) (hp : pat ≠ [])
    (h : hasSubstr pat nb = true) :
    hasSubstr pat (if hasSubstr sec nb then nb
      else nb ++ nl :: sec ++ nl :: cs "(fill in)" ++ [nl]) = true := by
  by_cases hs : hasSubstr sec nb = true
  · rw [if_pos hs]; exact h
  · rw [if_neg hs]
    rw [show nb ++ nl :: sec ++ nl :: cs "(fill in)" ++ [nl] =
      nb ++ (nl :: sec ++ nl :: cs "(fill in)" ++ [nl]) from by simp]
    exact hasSubstr_append_right hp _ h

theorem addMissing_foldl_complete (secs : List Str) (hne : ∀ s ∈ secs, s ≠ []) :
    ∀ nb : Str,
      (∀ sec ∈ secs, hasSubstr sec (secs.foldl (fun nb sec => if hasSubstr sec nb then nb
        else nb ++ nl :: sec ++ nl :: cs "(fill in)" ++ [nl]) nb) = true) ∧
      (∀ pat : Str, pat ≠ [] → hasSubstr pat nb = true →
        hasSubstr pat (secs.foldl (fun nb sec => if hasSubstr sec nb then nb
          else nb ++ nl :: sec ++ nl :: cs "(fill in)" ++ [nl]) nb) = true) := by
  induction secs with
  | nil => exact fun nb => ⟨fun sec h => absurd h (List.not_mem_nil sec), fun pat _ h => h⟩
  | cons s t ih =>
    intro nb
    have hs : s ≠ [] := hne s (List.mem_cons_self s t)
    have hne2 : ∀ x ∈ t, x ≠ [] := fun x hx => hne x (List.mem_cons_of_mem s hx)
    constructor
    · intro sec hsec
      rcases List.mem_cons.mp hsec with rfl | htail
      · simp only [List.foldl_cons]
        exact (ih hne2 _).2 sec hs (addMissing_step_complete nb sec hs)
      · simp only [List.foldl_cons]
        exact (ih hne2 _).1 sec htail
    · intro pat hp h
      simp only [List.foldl_cons]
      exact (ih hne2 _).2 pat hp (addMissing_step_pres nb s pat hp h)

theorem addMissing_id (b : Str)
    (h : ∀ sec ∈ REQUIRED_SECTIONS, hasSubstr sec b = true) :
    addMissingSectionsBody b = b := by
  unfold addMissingSectionsBody
  have key : ∀ (secs : List Str) (nb : Str), (∀ sec ∈ secs, hasSubstr sec nb = true) →
      secs.foldl (fun nb sec => if hasSubstr sec nb then nb
        else nb ++ nl :: sec ++ nl :: cs "(fill in)" ++ [nl]) nb = nb := by
    intro secs
    induction secs with
    | nil => intro nb _; rfl
    | cons s t ih =>
      intro nb hall
      simp only [List.foldl_cons]
      rw [if_pos (hall s (List.mem_cons_self s t))]
      exact ih nb (fun sec hsec => hall sec (List.mem_cons_of_mem s hsec))
  exact key REQUIRED_SECTIONS b h

theorem addMissing_complete (b : Str) :
    ∀ sec ∈ REQUIRED_SECTIONS, hasSubstr sec (addMissingSectionsBody b) = true := by
  intro sec hsec
  exact (addMissing_foldl_complete REQUIRED_SECTIONS (by decide) b).1 sec hsec

theorem pyRstrip_idem (u : Str) : pyRstrip (pyRstrip u) = pyRstrip u := by
  cases hu : pyRstrip u with
  | nil => rfl
  | cons d t =>
    rw [← hu]
    apply pyRstrip_fix
    intro c hc
    exact pyRstrip_last_not_ws u c hc

theorem pyStrip_snoc_nl (x : Str) : pyStrip (pyStrip x ++ [nl]) = pyStrip x := by
  by_cases hnil : pyStrip x = []
  · rw [hnil]
    rfl
  · have hh : ∀ c, (pyStrip x ++ [nl] : Str).head? = some c → isPyWs c = false := by
      intro c hc
      obtain ⟨d, t, hx⟩ : ∃ d t, pyStrip x = d :: t := by
        cases hy : pyStrip x with
        | nil => exact absurd hy hnil
        | cons d t => exact ⟨d, t, rfl⟩
      rw [hx] at hc
      simp only [List.cons_append, List.head?_cons, Option.some.injEq] at hc
      subst hc
      exact pyStrip_head_not_ws x d (by rw [hx]; rfl)
    show pyRstrip (pyLstrip (pyStrip x ++ [nl])) = pyStrip x
    rw [pyLstrip_fix hh, pyRstrip_snoc_nl]
    show pyRstrip (pyRstrip (pyLstrip x)) = pyStrip x
    rw [pyRstrip_idem]
    rfl

theorem C8_core (p : Str) (fm : FM) (body : Str) (hwf : wfFM fm) :
    ∃ t1, write_ticket fm (addMissingSectionsBody body) = some t1 ∧
      _add_missing_sections [(p, t1)] p = .ok [(p, t1)] := by
  have hsecs : ∀ sec ∈ REQUIRED_SECTIONS,
      hasSubstr sec (addMissingSectionsBody body) = true := addMissing_complete body
  have hsec_facts : ∀ sec ∈ REQUIRED_SECTIONS, sec ≠ [] ∧
      (∀ c, sec.head? = some c → isPyWs c = false) ∧
      (∀ c, sec.getLast? = some c → isPyWs c = false) := by decide
  have hb1 : pyStrip (addMissingSectionsBody body) ≠ [] := by
    have h1 := hsecs (cs "# Ticket") (by decide)
    obtain ⟨⟨l, r⟩, hsp⟩ := Option.isSome_iff_exists.mp h1
    have hocc := splitOnceSub_some hsp
    have hmem : '#' ∈ addMissingSectionsBody body := by
      rw [hocc, show cs "# Ticket" = '#' :: cs " Ticket" from rfl]
      simp
    exact pyStrip_ne_nil_of_mem hmem (by decide)
  obtain ⟨t1, hw1, hl1⟩ := load_write_roundtrip fm (addMissingSectionsBody body) hwf hb1
  refine ⟨t1, hw1, ?_⟩
  unfold _add_missing_sections
  have hread : loadFromFs [(p, t1)] p =
      .ok (fm, pyStrip (addMissingSectionsBody body) ++ [nl]) := by
    unfold loadFromFs fsRead
    rw [show List.find? (fun q => q.1 == p) [(p, t1)] = some (p, t1) from by simp]
    simp only [Option.map]
    rw [hl1]
  rw [hread]
  show writeToFs [(p, t1)] p fm
    (addMissingSectionsBody (pyStrip (addMissingSectionsBody body) ++ [nl])) =
    Except.ok [(p, t1)]
  have hsecs2 : ∀ sec ∈ REQUIRED_SECTIONS,
      hasSubstr sec (pyStrip (addMissingSectionsBody body) ++ [nl]) = true := by
    intro sec hs
    obtain ⟨hne2, hh2, hl2⟩ := hsec_facts sec hs
    exact hasSubstr_append_right hne2 [nl] (hasSubstr_pyStrip hne2 hh2 hl2 (hsecs sec hs))
  rw [addMissing_id _ hsecs2]
  unfold writeToFs
  have hw2 : write_ticket fm (pyStrip (addMissingSectionsBody body) ++ [nl]) = some t1 := by
    unfold write_ticket at hw1 ⊢
    rw [pyStrip_snoc_nl]
    exact hw1
  rw [hw2]
  simp [fsWrite]

/-- C8 (amended): the section repair is idempotent only after its own
write-back normalization: `addMissingSectionsBody` leaves any body that
already contains the four required headings unchanged, and re-running
`_add_missing_sections` on the record written by a previous application
(for a header in the serializable subset) returns the file system
unchanged. The raw record is NOT left unchanged in general: the repair
unconditionally rewrites the file through `write_ticket`, which
strip-normalizes the body, so the first application may change a record
that is missing no sections (see the counterexample). -/
theorem C8_add_sections (p : Str) (fm : FM) (body : Str) (hwf : wfFM fm) :
    (∀ b, (∀ sec ∈ REQUIRED_SECTIONS, hasSubstr sec b = true) →
      addMissingSectionsBody b = b) ∧
    ∃ t1, write_ticket fm (addMissingSectionsBody body) = some t1 ∧
      _add_missing_sections [(p, t1)] p = .ok [(p, t1)] :=
  ⟨fun b hb => addMissing_id b hb, C8_core p fm body hwf⟩

set_option maxRecDepth 10000 in
/-- C8 counterexample: a record with all four sections present (the
repair helper reports nothing missing) is still rewritten to different
bytes by the first `_add_missing_sections` application. -/
theorem C8_counterexample :
    _add_missing_sections [(cs "p", C8text)] (cs "p") =
      .ok [(cs "p", cs "---\ntitle: x\n---\n# Ticket\n## Description\n## Acceptance Criteria\n## Verification\n")] ∧
    cs "---\ntitle: x\n---\n# Ticket\n## Description\n## Acceptance Criteria\n## Verification\n" ≠ C8text ∧
    has_required_sections (cs "# Ticket\n## Description\n## Acceptance Criteria\n## Verification\n\n\n") = [] :=
  ⟨by rfl, by decide, by rfl⟩

/-- C8 witness: the amended claim at a concrete one-key header. -/
theorem C8_witness :
    (∀ b, (∀ sec ∈ REQUIRED_SECTIONS, hasSubstr sec b = true) →
      addMissingSectionsBody b = b) ∧
    ∃ t1, write_ticket [(cs "title", Yaml.str (cs "x"))]
        (addMissingSectionsBody (cs "b")) = some t1 ∧
      _add_missing_sections [(cs "p", t1)] (cs "p") = .ok [(cs "p", t1)] :=
  C8_add_sections (cs "p") [(cs "title", Yaml.str (cs "x"))] (cs "b")
    ⟨by decide, by decide, by decide⟩

/-! ## Claim C5: the status enum rule and its normalize repair -/

/-- C5 (amended): in `ticketslib`'s validator the status rule behaves as
claimed: a status string that is not one of the five enum values even
case-insensitively yields exactly one error `TICKET_STATUS_INVALID` and
no repair, while a case-insensitively valid but non-lowercase status
yields a warning `TICKET_STATUS_NORMALIZE` plus a safe `normalize_enum`
repair and no error. The `tickets` validator instead tests exact
case-sensitive membership and proposes no repairs at all, so a valid but
non-lowercase status such as `"TODO"` is an error `STATUS_INVALID` there
(see the counterexample). -/
theorem C5_status_rules :
    (∀ (t : Ticket) (st : VState) (s : Str),
      pyGet t.front_matter (cs "status") = .str s →
      STATUS_VALUES.contains (pyLower s) = false →
      stepStatus t st = addIssue st "error" "TICKET_STATUS_INVALID"
        (cs "Ticket status must be one of todo/doing/blocked/done/canceled") t.path) ∧
    (∀ (t : Ticket) (st : VState) (s : Str),
      pyGet t.front_matter (cs "status") = .str s →
      STATUS_VALUES.contains (pyLower s) = true → s ≠ pyLower s →
      stepStatus t st = addRepair (addIssue st "warning" "TICKET_STATUS_NORMALIZE"
          (cs "Ticket status should be lowercase") t.path) true "normalize_enum" t.path
        [("field", .str (cs "status")), ("value", .str (pyLower s))]) ∧
    (∀ (path : Str) (fm : FM) (s : Str),
      pyGet fm (cs "status") = .str s → fmHas fm (cs "status") = true →
      pyLower s ≠ s →
      tickets_status_issues path fm = [mkTI "error" "STATUS_INVALID" "status invalid" path]) := by
  refine ⟨?_, ?_, ?_⟩
  · intro t st s hs hc
    unfold stepStatus
    rw [hs]
    rw [if_neg (by simp)]
    show (if !(STATUS_VALUES.contains (pyLower s)) then addIssue st "error" "TICKET_STATUS_INVALID"
        (cs "Ticket status must be one of todo/doing/blocked/done/canceled") t.path
      else if s ≠ pyLower s then
        addRepair (addIssue st "warning" "TICKET_STATUS_NORMALIZE"
          (cs "Ticket status should be lowercase") t.path) true "normalize_enum" t.path
          [("field", .str (cs "status")), ("value", .str (pyLower s))]
      else st) = addIssue st "error" "TICKET_STATUS_INVALID"
        (cs "Ticket status must be one of todo/doing/blocked/done/canceled") t.path
    rw [if_pos (by simpa using hc)]
  · intro t st s hs hc hne
    unfold stepStatus
    rw [hs]
    rw [if_neg (by simp)]
    show (if !(STATUS_VALUES.contains (pyLower s)) then addIssue st "error" "TICKET_STATUS_INVALID"
        (cs "Ticket status must be one of todo/doing/blocked/done/canceled") t.path
      else if s ≠ pyLower s then
        addRepair (addIssue st "warning" "TICKET_STATUS_NORMALIZE"
          (cs "Ticket status should be lowercase") t.path) true "normalize_enum" t.path
          [("field", .str (cs "status")), ("value", .str (pyLower s))]
      else st) = addRepair (addIssue st "warning" "TICKET_STATUS_NORMALIZE"
          (cs "Ticket status should be lowercase") t.path) true "normalize_enum" t.path
        [("field", .str (cs "status")), ("value", .str (pyLower s))]
    rw [if_neg (by simpa using hc), if_pos hne]
  · intro path fm s hs hhas hlow
    unfold tickets_status_issues
    have hcont : STATUS_LIST.contains (pyGet fm (cs "status")) = false := by
      rw [hs, Bool.eq_false_iff]
      intro h
      have hmem : Yaml.str s ∈ STATUS_LIST := by simpa using h
      simp only [STATUS_LIST, List.mem_cons, List.not_mem_nil, or_false, Yaml.str.injEq] at hmem
      rcases hmem with rfl | rfl | rfl | rfl | rfl <;> exact hlow (by decide)
    rw [if_pos (by
      simp only [Bool.and_eq_true, Bool.not_eq_true', hhas, true_and]
      exact hcont)]

set_option maxRecDepth 10000 in
/-- C5 counterexample: on an otherwise valid header with status `"TODO"`
the tickets validator reports one error `STATUS_INVALID` (no repair
concept exists there), while ticketslib reports one warning plus the safe
`normalize_enum` repair. -/
theorem C5_counterexample :
    tickets_validate_fm (cs "p") C5fm C4body false =
      [mkTI "error" "STATUS_INVALID" "status invalid" (cs "p")] ∧
    (lib_validate_ticket ⟨cs "p", C5fm, C4body⟩).issues =
      [⟨"I0001", "warning", "TICKET_STATUS_NORMALIZE",
        cs "Ticket status should be lowercase", cs "p", none⟩] ∧
    (lib_validate_ticket ⟨cs "p", C5fm, C4body⟩).repairs =
      [⟨"R0001", false, true, ["I0001"], "normalize_enum", cs "p",
        [("field", Yaml.str (cs "status")), ("value", Yaml.str (cs "todo"))]⟩] :=
  ⟨by rfl, by rfl, by rfl⟩

/-- C5 witness: the three rule characterizations at concrete statuses
(`"zzz"` invalid, `"TODO"` valid-but-uppercase). -/
theorem C5_witness :
    stepStatus ⟨cs "p", [(cs "status", Yaml.str (cs "zzz"))], []⟩ VState.empty =
      addIssue VState.empty "error" "TICKET_STATUS_INVALID"
        (cs "Ticket status must be one of todo/doing/blocked/done/canceled") (cs "p") ∧
    stepStatus ⟨cs "p", [(cs "status", Yaml.str (cs "TODO"))], []⟩ VState.empty =
      addRepair (addIssue VState.empty "warning" "TICKET_STATUS_NORMALIZE"
          (cs "Ticket status should be lowercase") (cs "p")) true "normalize_enum" (cs "p")
        [("field", .str (cs "status")), ("value", .str (pyLower (cs "TODO")))] ∧
    tickets_status_issues (cs "p") [(cs "status", Yaml.str (cs "TODO"))] =
      [mkTI "error" "STATUS_INVALID" "status invalid" (cs "p")] :=
  ⟨C5_status_rules.1 _ _ _ (by rfl) (by decide),
   C5_status_rules.2.1 _ _ _ (by rfl) (by decide) (by decide),
   C5_status_rules.2.2 _ _ _ (by rfl) (by rfl) (by decide)⟩

/-! ## Claim C2: malformed JSON log lines -/

theorem mem_addLogIssue (issues : List LIssue) (sev code : String) (msg : Str)
    (path : Str) (line : Option Nat) (i : LIssue) (h : i ∈ issues) :
    i ∈ addLogIssue issues sev code msg path line :=
  List.mem_append_left _ h

theorem mem_log_fold (path : Str) (sev : String) (n : Nat) (fs : List Str) :
    ∀ (issues : List LIssue) (i : LIssue), i ∈ issues →
      i ∈ fs.foldl (fun issues f => addLogIssue issues sev "LOG_REQUIRED_FIELD_MISSING"
        (cs "Missing required log field: " ++ f) path (some n)) issues := by
  induction fs with
  | nil => intro issues i h; exact h
  | cons f rest ih =>
    intro issues i h
    exact ih _ i (mem_addLogIssue _ _ _ _ _ _ _ h)

/-- One `validate_logs` entry iteration only appends to the issue list. -/
theorem lib_log_entry_fst_mono (path : Str) (e : JObj) (n : Nat)
    (acc : List LIssue × List Str) (i : LIssue) (h : i ∈ acc.1) :
    i ∈ (lib_log_entry path e n acc).1 := by
  unfold lib_log_entry
  by_cases hp : jHas e (cs "_parse_error") = true
  · rw [if_pos hp]
    exact List.mem_append_left _ h
  · rw [if_neg hp]
    simp only
    repeat' split
    all_goals
      repeat first
        | exact h
        | exact mem_log_fold _ _ _ _ _ _ h
        | exact mem_log_fold _ _ _ _ _ _ (mem_addLogIssue _ _ _ _ _ _ _ h)
        | apply mem_addLogIssue

/-- A `_parse_error` marker entry contributes an error `LOG_JSON_INVALID`
issue at its own line number. -/
theorem lib_log_entry_fst_parse_error (path : Str) (e : JObj) (n : Nat)
    (acc : List LIssue × List Str) (hp : jHas e (cs "_parse_error") = true) :
    ∃ i ∈ (lib_log_entry path e n acc).1,
      i.severity = "error" ∧ i.code = "LOG_JSON_INVALID" ∧ i.line = some n := by
  unfold lib_log_entry
  rw [if_pos hp]
  exact ⟨_, List.mem_append_right _ (List.mem_singleton_self _), rfl, rfl, rfl⟩

theorem json_issue_mem_foldl (path : Str) (entries : List LogEntry) (m : Nat) :
    ∀ acc : List LIssue × List Str,
      ((∃ i ∈ acc.1, i.severity = "error" ∧ i.code = "LOG_JSON_INVALID" ∧ i.line = some m) ∨
        ∃ en ∈ entries, jHas en.data (cs "_parse_error") = true ∧ en.line_no = m) →
      ∃ i ∈ (entries.foldl (fun acc en => lib_log_entry path en.data en.line_no acc) acc).1,
        i.severity = "error" ∧ i.code = "LOG_JSON_INVALID" ∧ i.line = some m := by
  induction entries with
  | nil =>
    intro acc h
    rcases h with h | ⟨en, hen, -⟩
    · exact h
    · cases hen
  | cons en rest ih =>
    intro acc h
    simp only [List.foldl_cons]
    apply ih
    rcases h with ⟨i, hi, hprop⟩ | ⟨en', hen', hp, hm⟩
    · exact Or.inl ⟨i, lib_log_entry_fst_mono _ _ _ _ _ hi, hprop⟩
    · rcases List.mem_cons.mp hen' with heq | htail
      · subst heq
        subst hm
        exact Or.inl (lib_log_entry_fst_parse_error _ _ _ _ hp)
      · exact Or.inr ⟨en', htail, hp, hm⟩

/-- `parse_log_file` turns an unparseable non-blank line into the
`_parse_error` marker entry carrying that line's number, instead of
raising. -/
theorem parse_error_entry_mem (bad : Str) (hb1 : ¬pyStrip bad = [])
    (hb2 : jsonLoads (pyStrip bad) = none) :
    ∀ (pre : List Str) (n : Nat) (post : List Str),
      (⟨[(cs "_parse_error", JVal.str (cs "invalid_json"))], n + pre.length⟩ : LogEntry) ∈
        parse_log_file_go n (pre ++ bad :: post) := by
  intro pre
  induction pre with
  | nil =>
    intro n post
    simp only [List.nil_append, List.length_nil, Nat.add_zero, parse_log_file_go]
    rw [if_neg hb1, hb2]
    exact List.mem_cons_self _ _
  | cons l pre' ih =>
    intro n post
    simp only [List.cons_append, parse_log_file_go, List.length_cons]
    rw [show n + (pre'.length + 1) = (n + 1) + pre'.length from by omega]
    by_cases hl : pyStrip l = []
    · rw [if_pos hl]
      exact ih (n + 1) post
    · rw [if_neg hl]
      cases hjl : jsonLoads (pyStrip l) with
      | none => exact List.mem_cons_of_mem _ (ih (n + 1) post)
      | some e => exact List.mem_cons_of_mem _ (ih (n + 1) post)

/-- `parse_log_file` yields one entry per non-blank line: a parse failure
never drops the rest of the file. -/
theorem parse_log_file_go_length (lines : List Str) :
    ∀ n, (parse_log_file_go n lines).length =
      (lines.filter (fun l => !(pyStrip l == []))).length := by
  induction lines with
  | nil => intro n; rfl
  | cons l rest ih =>
    intro n
    simp only [parse_log_file_go, List.filter_cons]
    by_cases hl : pyStrip l = []
    · rw [if_pos hl]
      have hb : (pyStrip l == []) = true := beq_iff_eq.mpr hl
      simp [hb, ih]
    · rw [if_neg hl]
      have hb : (!(pyStrip l == [])) = true := by simp [hl]
      cases hjl : jsonLoads (pyStrip l) <;> simp [hb, ih, hl]

/-- C2 (amended): in `ticketslib`'s log pipeline a line that is not
parseable as a JSON object never aborts validation: `validate_logs`
reports an error `LOG_JSON_INVALID` anchored to that line's 1-based
number, and `parse_log_file` still yields one entry per non-blank line of
the whole file. The `tickets` pipeline instead raises from
`util.read_jsonl`, aborting `validate_run_log` (see the
counterexample). -/
theorem C2_lib_malformed_line (path : Str) (pre post : List Str) (bad : Str)
    (hb1 : ¬pyStrip bad = []) (hb2 : jsonLoads (pyStrip bad) = none) :
    (∃ i ∈ lib_validate_logs [⟨path, pre ++ bad :: post⟩],
      i.severity = "error" ∧ i.code = "LOG_JSON_INVALID" ∧ i.line = some (pre.length + 1)) ∧
    (parse_log_file_entries (pre ++ bad :: post)).length =
      ((pre ++ bad :: post).filter (fun l => !(pyStrip l == []))).length := by
  constructor
  · have hstep : lib_validate_logs [(⟨path, pre ++ bad :: post⟩ : LogFileInput)] =
      lib_validate_log_file [] ⟨path, pre ++ bad :: post⟩ := rfl
    rw [hstep]
    unfold lib_validate_log_file
    have hentry : (⟨[(cs "_parse_error", JVal.str (cs "invalid_json"))], pre.length + 1⟩ : LogEntry) ∈
        parse_log_file_entries (pre ++ bad :: post) := by
      have hx := parse_error_entry_mem bad hb1 hb2 pre 1 post
      rwa [Nat.add_comm 1 pre.length] at hx
    obtain ⟨i, hi, hprop⟩ := json_issue_mem_foldl path
      (parse_log_file_entries (pre ++ bad :: post)) (pre.length + 1) ([], [])
      (Or.inr ⟨_, hentry, rfl, rfl⟩)
    simp only
    repeat' split
    all_goals exact ⟨i, (by repeat first | exact hi | apply mem_addLogIssue), hprop⟩
  · exact parse_log_file_go_length _ 1

/-- C2 counterexample: `tickets/util.read_jsonl` raises on a malformed
JSON line, so `validate_run_log` aborts instead of reporting an issue and
continuing. -/
theorem C2_counterexample :
    validate_run_log (cs "p") (cs "x.jsonl") [cs "not json"] false = .error () := rfl

/-- C2 witness: the amended claim at a one-line file holding only the
malformed line. -/
theorem C2_witness :
    (∃ i ∈ lib_validate_logs [⟨cs "p", [cs "not json"]⟩],
      i.severity = "error" ∧ i.code = "LOG_JSON_INVALID" ∧ i.line = some 1) ∧
    (parse_log_file_entries [cs "not json"]).length =
      (([cs "not json"] : List Str).filter (fun l => !(pyStrip l == []))).length :=
  C2_lib_malformed_line (cs "p") [] [] (cs "not json") (by decide) rfl

set_option maxRecDepth 10000 in
/-- C1 counterexample: on two human-authored entries (no `written_by` or
`machine` markers, strict mode off) whose `run_started` values differ,
`tickets/validation.py validate_run_log` reports the divergence with
severity `warning`, not `error`. -/
theorem C1_counterexample :
    validate_run_log (cs "p") (cs "x.jsonl") [C1_L1, C1_L2] false =
      .ok [⟨"warning", "RUN_STARTED_INCONSISTENT",
        cs "run_started differs within file", cs "p", some 2, false⟩] := rfl

set_option maxRecDepth 10000 in
/-- C1 witness: the amended claim at the same pair of human-authored
entries, where `ticketslib` reports severity `error`. -/
theorem C1_witness :
    ∃ i ∈ lib_validate_logs [⟨cs "l/x.jsonl", [C1_L1, C1_L2]⟩],
      i.severity = "error" ∧ i.code = "LOG_RUN_STARTED_MISMATCH" :=
  C1_lib_mismatch_error ⟨cs "l/x.jsonl", [C1_L1, C1_L2]⟩ ⟨C1_E1, 1⟩ ⟨C1_E2, 2⟩
    (cs "2024-01-01T00:00:00Z") (cs "2024-01-01T00:00:05Z")
    (by rw [show parse_log_file_entries [C1_L1, C1_L2] = [⟨C1_E1, 1⟩, ⟨C1_E2, 2⟩] from rfl]
        exact List.mem_cons_self _ _)
    (by rw [show parse_log_file_entries [C1_L1, C1_L2] = [⟨C1_E1, 1⟩, ⟨C1_E2, 2⟩] from rfl]
        exact List.mem_cons_of_mem _ (List.mem_cons_self _ _))
    rfl rfl rfl rfl rfl rfl (by decide)

/-! ## C6: generated identifiers are accepted by both recognizers -/

theorem testBit_add_of_dvd (i a b : Nat) (ha : 2 ^ (i + 1) ∣ a) :
    (a + b).testBit i = b.testBit i := by
  obtain ⟨c, hc⟩ := ha
  subst hc
  rw [Nat.testBit_to_div_mod, Nat.testBit_to_div_mod]
  have h1 : 2 ^ (i + 1) * c + b = 2 ^ i * (2 * c) + b := by ring
  rw [h1, Nat.mul_add_div (Nat.pow_pos (by norm_num)), Nat.mul_add_mod]

theorem testBit_false_of_dvd (i a : Nat) (ha : 2 ^ (i + 1) ∣ a) : a.testBit i = false := by
  have h := testBit_add_of_dvd i a 0 ha
  simpa using h

theorem testBit_add_small (i k a b : Nat) (hik : k ≤ i) (hb : b < 2 ^ k) (ha : 2 ^ k ∣ a) :
    (a + b).testBit i = a.testBit i := by
  obtain ⟨m, hm⟩ := ha
  subst hm
  rw [Nat.testBit_to_div_mod, Nat.testBit_to_div_mod]
  have h2 : (2 : Nat) ^ i = 2 ^ k * 2 ^ (i - k) := by
    rw [← pow_add]
    congr 1
    omega
  rw [h2, ← Nat.div_div_eq_div_mul, ← Nat.div_div_eq_div_mul,
    Nat.mul_add_div (Nat.pow_pos (by norm_num)), Nat.div_eq_of_lt hb, Nat.add_zero,
    Nat.mul_div_cancel_left m (Nat.pow_pos (by norm_num))]

/-- Disjoint-support bitwise or is addition. -/
theorem lor_eq_add_of (k a b : Nat) (hb : b < 2 ^ k) (ha : 2 ^ k ∣ a) :
    a ||| b = a + b := by
  apply Nat.eq_of_testBit_eq
  intro i
  rw [Nat.testBit_lor]
  rcases Nat.lt_or_ge i k with hik | hik
  · have hd : 2 ^ (i + 1) ∣ a := dvd_trans (pow_dvd_pow 2 (by omega)) ha
    rw [testBit_add_of_dvd i a b hd, testBit_false_of_dvd i a hd, Bool.false_or]
  · have hfb : b.testBit i = false :=
      Nat.testBit_lt_two_pow (lt_of_lt_of_le hb (Nat.pow_le_pow_right (by norm_num) hik))
    rw [testBit_add_small i k a b hik hb ha, hfb, Bool.or_false]

/-- The packed uuid integer as a plain sum, valid under the entropy bounds
`rand_a = getrandbits(12)` and `rand_b = getrandbits(62)`. -/
theorem generate_val_eq (tsMs randA randB : Nat)
    (hra : randA < 2 ^ 12) (hrb : randB < 2 ^ 62) :
    (tsMs <<< 80) ||| (7 <<< 76) ||| (randA <<< 64) ||| (2 <<< 62) ||| randB =
      tsMs * 2 ^ 80 + 7 * 2 ^ 76 + randA * 2 ^ 64 + 2 ^ 63 + randB := by
  rw [Nat.shiftLeft_eq, Nat.shiftLeft_eq, Nat.shiftLeft_eq, Nat.shiftLeft_eq]
  rw [lor_eq_add_of 79 (tsMs * 2 ^ 80) (7 * 2 ^ 76) (by omega) ⟨2 * tsMs, by ring⟩]
  rw [lor_eq_add_of 76 (tsMs * 2 ^ 80 + 7 * 2 ^ 76) (randA * 2 ^ 64) (by omega)
    ⟨2 ^ 4 * tsMs + 7, by ring⟩]
  rw [lor_eq_add_of 64 (tsMs * 2 ^ 80 + 7 * 2 ^ 76 + randA * 2 ^ 64) (2 * 2 ^ 62) (by omega)
    ⟨2 ^ 16 * tsMs + 7 * 2 ^ 12 + randA, by ring⟩]
  rw [lor_eq_add_of 62 (tsMs * 2 ^ 80 + 7 * 2 ^ 76 + randA * 2 ^ 64 + 2 * 2 ^ 62) randB hrb
    ⟨2 ^ 18 * tsMs + 7 * 2 ^ 14 + 2 ^ 2 * randA + 2, by ring⟩]
  ring

theorem toHexBE_length : ∀ (k n : Nat), (toHexBE k n).length = k
  | 0, _ => rfl
  | k + 1, n => by
    show (toHexBE k (n / 16) ++ [hexDigitChar (n % 16)]).length = k + 1
    rw [List.length_append, toHexBE_length k (n / 16)]
    rfl

theorem isLowerHexDigit_hexDigitChar (m : Nat) (hm : m < 16) :
    isLowerHexDigit (hexDigitChar m) = true := by
  interval_cases m <;> decide

theorem hexVal_hexDigitChar (m : Nat) (hm : m < 16) : hexVal (hexDigitChar m) = m := by
  interval_cases m <;> decide

theorem toHexBE_all_hex : ∀ (k n : Nat), ∀ c ∈ toHexBE k n, isLowerHexDigit c = true
  | 0, _ => by
    intro c hc
    cases hc
  | k + 1, n => by
    intro c hc
    rw [show toHexBE (k + 1) n = toHexBE k (n / 16) ++ [hexDigitChar (n % 16)] from rfl] at hc
    rcases List.mem_append.mp hc with h | h
    · exact toHexBE_all_hex k (n / 16) c h
    · have hc2 := List.mem_singleton.mp h
      subst hc2
      exact isLowerHexDigit_hexDigitChar _ (Nat.mod_lt _ (by norm_num))

theorem natOfHex_snoc (xs : Str) (c : Char) :
    natOfHex (xs ++ [c]) = 16 * natOfHex xs + hexVal c := by
  unfold natOfHex
  rw [List.foldl_append]
  rfl

theorem natOfHex_toHexBE : ∀ (k n : Nat), natOfHex (toHexBE k n) = n % 16 ^ k
  | 0, n => by simp [toHexBE, natOfHex, Nat.mod_one]
  | k + 1, n => by
    show natOfHex (toHexBE k (n / 16) ++ [hexDigitChar (n % 16)]) = n % 16 ^ (k + 1)
    rw [natOfHex_snoc, natOfHex_toHexBE k (n / 16),
      hexVal_hexDigitChar _ (Nat.mod_lt _ (by norm_num)),
      show (16 : Nat) ^ (k + 1) = 16 * 16 ^ k from by rw [pow_succ]; ring,
      Nat.mod_mul]
    ring

theorem toHexBE_split : ∀ (m j n : Nat),
    toHexBE (j + m) n = toHexBE j (n / 16 ^ m) ++ toHexBE m (n % 16 ^ m)
  | 0, j, n => by simp [toHexBE]
  | m + 1, j, n => by
    show toHexBE (j + m) (n / 16) ++ [hexDigitChar (n % 16)] = _
    rw [toHexBE_split m j (n / 16)]
    have e1 : n / 16 / 16 ^ m = n / 16 ^ (m + 1) := by
      rw [Nat.div_div_eq_div_mul, ← pow_succ']
    have e2 : n % 16 ^ (m + 1) / 16 = n / 16 % 16 ^ m := by
      rw [show (16 : Nat) ^ (m + 1) = 16 * 16 ^ m from by rw [pow_succ]; ring, Nat.mod_mul,
        Nat.add_mul_div_left _ _ (by norm_num : (0 : Nat) < 16),
        Nat.div_eq_of_lt (Nat.mod_lt _ (by norm_num)), Nat.zero_add]
    have e3 : n % 16 ^ (m + 1) % 16 = n % 16 :=
      Nat.mod_mod_of_dvd n ⟨16 ^ m, by rw [pow_succ]; ring⟩
    rw [e1, ← e2, ← e3]
    show _ = toHexBE j (n / 16 ^ (m + 1)) ++
      (toHexBE m (n % 16 ^ (m + 1) / 16) ++ [hexDigitChar (n % 16 ^ (m + 1) % 16)])
    rw [List.append_assoc]

theorem hex_ne_dash (c : Char) (h : isLowerHexDigit c = true) : (c != '-') = true := by
  rcases eq_or_ne c '-' with rfl | hne
  · exact absurd h (by decide)
  · simp [bne_iff_ne]
    exact hne

theorem groups_join (h : Str) :
    h.take 8 ++ (h.drop 8).take 4 ++ (h.drop 12).take 4 ++ (h.drop 16).take 4 ++ h.drop 20
      = h := by
  have d12 : (h.drop 8).drop 4 = h.drop 12 := by rw [List.drop_drop]
  have d16 : (h.drop 12).drop 4 = h.drop 16 := by rw [List.drop_drop]
  have d20 : (h.drop 16).drop 4 = h.drop 20 := by rw [List.drop_drop]
  rw [List.append_assoc, List.append_assoc, List.append_assoc,
    ← d20, List.take_append_drop, ← d16, List.take_append_drop, ← d12,
    List.take_append_drop, List.take_append_drop]

theorem filter_dash_uuidStr (n : Nat) :
    (uuidStrOfNat n).filter (· != '-') = toHexBE 32 n := by
  have hg : ∀ (g : Str), g ⊆ toHexBE 32 n → g.filter (· != '-') = g := by
    intro g hsub
    apply List.filter_eq_self.mpr
    intro c hc
    exact hex_ne_dash c (toHexBE_all_hex 32 n c (hsub hc))
  have hdash : ∀ (l : Str), List.filter (· != '-') ('-' :: l) = List.filter (· != '-') l := by
    intro l
    rw [List.filter_cons_of_neg]
    decide
  show (List.take 8 (toHexBE 32 n) ++ '-' :: List.take 4 (List.drop 8 (toHexBE 32 n)) ++
    '-' :: List.take 4 (List.drop 12 (toHexBE 32 n)) ++
    '-' :: List.take 4 (List.drop 16 (toHexBE 32 n)) ++
    '-' :: List.drop 20 (toHexBE 32 n)).filter (· != '-') = toHexBE 32 n
  rw [List.filter_append, List.filter_append, List.filter_append, List.filter_append,
    hdash, hdash, hdash, hdash,
    hg _ (List.take_subset _ _),
    hg _ ((List.take_subset _ _).trans (List.drop_subset _ _)),
    hg _ ((List.take_subset _ _).trans (List.drop_subset _ _)),
    hg _ ((List.take_subset _ _).trans (List.drop_subset _ _)),
    hg _ (List.drop_subset _ _)]
  exact groups_join (toHexBE 32 n)

theorem uuidIntOf_uuidStrOfNat (n : Nat) (hn : n < 16 ^ 32) :
    uuidIntOf (uuidStrOfNat n) = n := by
  unfold uuidIntOf
  rw [filter_dash_uuidStr, natOfHex_toHexBE, Nat.mod_eq_of_lt hn]

theorem splitOn_uuidStrOfNat (n : Nat) :
    (uuidStrOfNat n).splitOn '-' =
      [(toHexBE 32 n).take 8, ((toHexBE 32 n).drop 8).take 4, ((toHexBE 32 n).drop 12).take 4,
       ((toHexBE 32 n).drop 16).take 4, (toHexBE 32 n).drop 20] := by
  have hnotin : '-' ∉ toHexBE 32 n := by
    intro hmem
    have := toHexBE_all_hex 32 n '-' hmem
    exact absurd this (by decide)
  have hinter : uuidStrOfNat n = ['-'].intercalate
      [(toHexBE 32 n).take 8, ((toHexBE 32 n).drop 8).take 4, ((toHexBE 32 n).drop 12).take 4,
       ((toHexBE 32 n).drop 16).take 4, (toHexBE 32 n).drop 20] := by
    show List.take 8 (toHexBE 32 n) ++ '-' :: List.take 4 (List.drop 8 (toHexBE 32 n)) ++
      '-' :: List.take 4 (List.drop 12 (toHexBE 32 n)) ++
      '-' :: List.take 4 (List.drop 16 (toHexBE 32 n)) ++
      '-' :: List.drop 20 (toHexBE 32 n) = _
    simp [List.intercalate]
  have p1 : '-' ∉ (toHexBE 32 n).take 8 := fun hmem => hnotin (List.take_subset _ _ hmem)
  have p2 : '-' ∉ ((toHexBE 32 n).drop 8).take 4 :=
    fun hmem => hnotin (List.drop_subset _ _ (List.take_subset _ _ hmem))
  have p3 : '-' ∉ ((toHexBE 32 n).drop 12).take 4 :=
    fun hmem => hnotin (List.drop_subset _ _ (List.take_subset _ _ hmem))
  have p4 : '-' ∉ ((toHexBE 32 n).drop 16).take 4 :=
    fun hmem => hnotin (List.drop_subset _ _ (List.take_subset _ _ hmem))
  have p5 : '-' ∉ (toHexBE 32 n).drop 20 := fun hmem => hnotin (List.drop_subset _ _ hmem)
  have hnd : ∀ l ∈ [(toHexBE 32 n).take 8, ((toHexBE 32 n).drop 8).take 4,
      ((toHexBE 32 n).drop 12).take 4, ((toHexBE 32 n).drop 16).take 4,
      (toHexBE 32 n).drop 20], '-' ∉ l :=
    List.forall_mem_cons.mpr ⟨p1, List.forall_mem_cons.mpr ⟨p2, List.forall_mem_cons.mpr ⟨p3,
      List.forall_mem_cons.mpr ⟨p4, List.forall_mem_cons.mpr ⟨p5, List.forall_mem_nil _⟩⟩⟩⟩⟩
  rw [hinter, List.splitOn_intercalate _ '-' hnd (by simp)]

theorem UUID_RE_match_of (a b c d e : Str) (ha : a.length = 8) (hb : b.length = 4)
    (hc : c.length = 4) (hd : d.length = 4) (he : e.length = 12)
    (hall : ∀ x ∈ a ++ b ++ c ++ d ++ e, isLowerHexDigit x = true) :
    ∀ s : Str, s.splitOn '-' = [a, b, c, d, e] → UUID_RE_match s = true := by
  intro s hs
  unfold UUID_RE_match
  rw [hs]
  show (a.length == 8 && b.length == 4 && c.length == 4 && d.length == 4 && e.length == 12 &&
    (a ++ b ++ c ++ d ++ e).all isLowerHexDigit) = true
  have hA : (a ++ b ++ c ++ d ++ e).all isLowerHexDigit = true := List.all_eq_true.mpr hall
  rw [ha, hb, hc, hd, he, hA]
  decide

theorem UUID_V7_RE_match_of (a b c d e : Str) (ha : a.length = 8) (hb : b.length = 4)
    (hc : c.length = 4) (hd : d.length = 4) (he : e.length = 12) (hch : c.head? = some '7')
    (hall : ∀ x ∈ a ++ b ++ c ++ d ++ e, isLowerHexDigit x = true) :
    ∀ s : Str, s.splitOn '-' = [a, b, c, d, e] → UUID_V7_RE_match s = true := by
  intro s hs
  unfold UUID_V7_RE_match
  rw [hs]
  show (a.length == 8 && b.length == 4 && c.length == 4 && d.length == 4 && e.length == 12 &&
    c.head? == some '7' && (a ++ b ++ c ++ d ++ e).all isLowerHexDigit) = true
  have hA : (a ++ b ++ c ++ d ++ e).all isLowerHexDigit = true := List.all_eq_true.mpr hall
  rw [ha, hb, hc, hd, he, hch, hA]
  decide

/-- A 128-bit integer with version bits `7` and RFC variant renders to a
string accepted by both recognizers. -/
theorem uuid_accept_core (n : Nat) (hn : n < 16 ^ 32)
    (hver : n / 2 ^ 76 % 16 = 7) (hvar : n / 2 ^ 62 % 4 = 2) :
    tickets_is_uuidv7 (uuidStrOfNat n) = true ∧ lib_is_uuidv7 (uuidStrOfNat n) = true := by
  have hlen := toHexBE_length 32 n
  have hl1 : ((toHexBE 32 n).take 8).length = 8 := by
    rw [List.length_take, hlen]
    omega
  have hl2 : (((toHexBE 32 n).drop 8).take 4).length = 4 := by
    rw [List.length_take, List.length_drop, hlen]
    omega
  have hl3 : (((toHexBE 32 n).drop 12).take 4).length = 4 := by
    rw [List.length_take, List.length_drop, hlen]
    omega
  have hl4 : (((toHexBE 32 n).drop 16).take 4).length = 4 := by
    rw [List.length_take, List.length_drop, hlen]
    omega
  have hl5 : ((toHexBE 32 n).drop 20).length = 12 := by
    rw [List.length_drop, hlen]
  have hall : ∀ x ∈ (toHexBE 32 n).take 8 ++ ((toHexBE 32 n).drop 8).take 4 ++
      ((toHexBE 32 n).drop 12).take 4 ++ ((toHexBE 32 n).drop 16).take 4 ++
      (toHexBE 32 n).drop 20, isLowerHexDigit x = true := by
    intro x hx
    simp only [List.mem_append] at hx
    rcases hx with ((((hx | hx) | hx) | hx) | hx)
    · exact toHexBE_all_hex 32 n x (List.take_subset _ _ hx)
    · exact toHexBE_all_hex 32 n x ((List.drop_subset _ _) ((List.take_subset _ _) hx))
    · exact toHexBE_all_hex 32 n x ((List.drop_subset _ _) ((List.take_subset _ _) hx))
    · exact toHexBE_all_hex 32 n x ((List.drop_subset _ _) ((List.take_subset _ _) hx))
    · exact toHexBE_all_hex 32 n x (List.drop_subset _ _ hx)
  have hsplit := splitOn_uuidStrOfNat n
  have hint : uuidIntOf (uuidStrOfNat n) = n := uuidIntOf_uuidStrOfNat n hn
  have hsplit12 : toHexBE 32 n = toHexBE 12 (n / 16 ^ 20) ++ toHexBE 20 (n % 16 ^ 20) := by
    have h32 : (32 : Nat) = 12 + 20 := by norm_num
    rw [h32]
    exact toHexBE_split 20 12 n
  have hdrop12 : (toHexBE 32 n).drop 12 = toHexBE 20 (n % 16 ^ 20) := by
    rw [hsplit12]
    exact List.drop_left' (toHexBE_length _ _)
  have h20 : toHexBE 20 (n % 16 ^ 20) =
      hexDigitChar (n % 16 ^ 20 / 16 ^ 19 % 16) :: toHexBE 19 (n % 16 ^ 20 % 16 ^ 19) := by
    have h20e : toHexBE 20 (n % 16 ^ 20) = toHexBE (1 + 19) (n % 16 ^ 20) := by norm_num
    rw [h20e, toHexBE_split 19 1 (n % 16 ^ 20)]
    have h1 : toHexBE 1 (n % 16 ^ 20 / 16 ^ 19) =
        [hexDigitChar (n % 16 ^ 20 / 16 ^ 19 % 16)] := rfl
    rw [h1, List.singleton_append]
  have hdig : n % 16 ^ 20 / 16 ^ 19 % 16 = 7 := by omega
  have hchead : (((toHexBE 32 n).drop 12).take 4).head? = some '7' := by
    rw [hdrop12, h20, hdig]
    rfl
  have hvarb : uuidVariantRfc n = true := by
    unfold uuidVariantRfc
    rw [beq_iff_eq]
    exact hvar
  have hverb : (uuidVersionBits n == 7) = true := by
    unfold uuidVersionBits
    rw [beq_iff_eq]
    exact hver
  constructor
  · unfold tickets_is_uuidv7
    rw [UUID_RE_match_of _ _ _ _ _ hl1 hl2 hl3 hl4 hl5 hall _ hsplit, hint, hvarb, hverb]
    rfl
  · unfold lib_is_uuidv7
    rw [UUID_V7_RE_match_of _ _ _ _ _ hl1 hl2 hl3 hl4 hl5 hchead hall _ hsplit, hint, hvarb,
      hverb]
    rfl

/-- Both recognizers accept every string the generator can emit: the
timestamp fits 48 bits (otherwise `uuid.UUID(int=...)` raises and no string
is produced) and the entropy words come from `getrandbits(12)` and
`getrandbits(62)`. -/
theorem yamlIsUuidStr_str (f : Str → Bool) (s : Str) : yamlIsUuidStr f (.str s) = f s := rfl

theorem gen_accept (tsMs randA randB : Nat)
    (hts : tsMs < 2 ^ 48) (hra : randA < 2 ^ 12) (hrb : randB < 2 ^ 62) :
    tickets_is_uuidv7 (generate_uuidv7 tsMs randA randB) = true ∧
    lib_is_uuidv7 (generate_uuidv7 tsMs randA randB) = true := by
  unfold generate_uuidv7
  rw [generate_val_eq tsMs randA randB hra hrb]
  apply uuid_accept_core
  · omega
  · omega
  · omega

/-- C6: every identifier the generator can produce (timestamp below `2^48`;
`getrandbits(12)` and `getrandbits(62)` entropy words) is accepted as a
UUIDv7 by both recognizers, and consequently the id rules of both
validators are silent on a ticket carrying such an id: the `tickets`
validator emits no `ID_NOT_UUIDV7` issue and the `ticketslib` validator's
id step leaves its state unchanged (no `TICKET_ID_INVALID`). -/
theorem C6_generated_ids_accepted (tsMs randA randB : Nat)
    (hts : tsMs < 2 ^ 48) (hra : randA < 2 ^ 12) (hrb : randB < 2 ^ 62) :
    tickets_is_uuidv7 (generate_uuidv7 tsMs randA randB) = true ∧
    lib_is_uuidv7 (generate_uuidv7 tsMs randA randB) = true ∧
    (∀ path fm, pyGet fm (cs "id") = .str (generate_uuidv7 tsMs randA randB) →
      tickets_id_issues path fm = []) ∧
    (∀ t st, pyGet t.front_matter (cs "id") = .str (generate_uuidv7 tsMs randA randB) →
      stepId t st = st) := by
  obtain ⟨h1, h2⟩ := gen_accept tsMs randA randB hts hra hrb
  refine ⟨h1, h2, ?_, ?_⟩
  · intro path fm hid
    unfold tickets_id_issues
    rw [hid, yamlIsUuidStr_str, h1]
    simp
  · intro t st hid
    simp only [stepId]
    rw [hid, yamlIsUuidStr_str, h2]
    simp

set_option maxRecDepth 10000 in
/-- C6 witness: the generator at timestamp `0x0190b7c21234` with entropy
words `0xabc` and `0x2fedcba987654321` emits an id both recognizers accept
and the `tickets` id rule reports nothing for. -/
theorem C6_witness :
    tickets_is_uuidv7 (generate_uuidv7 0x0190b7c21234 0xabc 0x2fedcba987654321) = true ∧
    lib_is_uuidv7 (generate_uuidv7 0x0190b7c21234 0xabc 0x2fedcba987654321) = true ∧
    tickets_id_issues (cs "t/ticket.md")
      [(cs "id", Yaml.str (generate_uuidv7 0x0190b7c21234 0xabc 0x2fedcba987654321))] = [] := by
  have h := C6_generated_ids_accepted 0x0190b7c21234 0xabc 0x2fedcba987654321
    (by decide) (by decide) (by decide)
  exact ⟨h.1, h.2.1, h.2.2.1 (cs "t/ticket.md") _ rfl⟩

/-! ## C9: validation is deterministic with positional issue/repair ids -/

theorem map_snoc_range {α β : Type} (f : Nat → β) (g : α → β) (xs : List α) (x : α)
    (h : xs.map g = (List.range xs.length).map f) (hx : g x = f xs.length) :
    (xs ++ [x]).map g = (List.range (xs ++ [x]).length).map f := by
  have hl : (xs ++ [x]).length = xs.length + 1 := by simp
  rw [hl, List.map_append, h, List.range_succ, List.map_append]
  simp [hx]

theorem idsOk_empty : idsOk VState.empty := ⟨rfl, rfl⟩

theorem idsOk_addIssue (st : VState) (sev code : String) (msg p : Str)
    (h : idsOk st) : idsOk (addIssue st sev code msg p) :=
  ⟨map_snoc_range _ _ _ _ h.1 rfl, h.2⟩

theorem idsOk_addRepair (st : VState) (safe : Bool) (action : String) (p : Str)
    (params : List (String × Yaml)) (h : idsOk st) :
    idsOk (addRepair st safe action p params) :=
  ⟨h.1, map_snoc_range _ _ _ _ h.2 rfl⟩

theorem idsOk_stepRequired (t : Ticket) (st : VState) (h : idsOk st) :
    idsOk (stepRequired t st) := by
  simp only [stepRequired, List.foldl]
  repeat' split
  all_goals repeat first
    | exact h
    | apply idsOk_addIssue

theorem idsOk_stepId (t : Ticket) (st : VState) (h : idsOk st) : idsOk (stepId t st) := by
  simp only [stepId]
  repeat' split
  all_goals repeat first
    | exact h
    | apply idsOk_addIssue
    | apply idsOk_addRepair

theorem idsOk_stepStatus (t : Ticket) (st : VState) (h : idsOk st) :
    idsOk (stepStatus t st) := by
  simp only [stepStatus]
  repeat' split
  all_goals repeat first
    | exact h
    | apply idsOk_addIssue
    | apply idsOk_addRepair

theorem idsOk_stepCreatedAt (t : Ticket) (st : VState) (h : idsOk st) :
    idsOk (stepCreatedAt t st) := by
  simp only [stepCreatedAt]
  repeat' split
  all_goals repeat first
    | exact h
    | apply idsOk_addIssue
    | apply idsOk_addRepair

theorem idsOk_stepPriority (t : Ticket) (st : VState) (h : idsOk st) :
    idsOk (stepPriority t st) := by
  simp only [stepPriority]
  repeat' split
  all_goals repeat first
    | exact h
    | apply idsOk_addIssue
    | apply idsOk_addRepair

theorem idsOk_stepAssignment (t : Ticket) (st : VState) (h : idsOk st) :
    idsOk (stepAssignment t st) := by
  simp only [stepAssignment]
  repeat' split
  all_goals repeat first
    | exact h
    | apply idsOk_addIssue

theorem idsOk_stepOneRelationship (t : Ticket) (st : VState) (rel : Str) (h : idsOk st) :
    idsOk (stepOneRelationship t st rel) := by
  simp only [stepOneRelationship]
  repeat' split
  all_goals repeat first
    | exact h
    | apply idsOk_addIssue
    | apply idsOk_addRepair

theorem idsOk_stepRelationships (t : Ticket) (st : VState) (h : idsOk st) :
    idsOk (stepRelationships t st) := by
  simp only [stepRelationships,
    show RELATIONSHIP_FIELDS = [cs "dependencies", cs "blocks", cs "related"] from rfl,
    List.foldl]
  repeat first
    | exact h
    | apply idsOk_stepOneRelationship

theorem idsOk_forbidden_fold (t : Ticket) : ∀ (ks : List Str) (st : VState), idsOk st →
    idsOk (ks.foldl (fun st k =>
      if RELATIONSHIP_LIKE_FIELDS.contains k then
        addIssue st "error" "TICKET_RELATIONSHIP_FIELD_INVALID"
          (cs "Relationship-like field '" ++ k ++
            cs "' should not be persisted in ticket front matter") t.path
      else st) st)
  | [], _, h => h
  | k :: ks, st, h => by
    rw [List.foldl_cons]
    apply idsOk_forbidden_fold t ks
    show idsOk (if RELATIONSHIP_LIKE_FIELDS.contains k then
      addIssue st "error" "TICKET_RELATIONSHIP_FIELD_INVALID"
        (cs "Relationship-like field '" ++ k ++
          cs "' should not be persisted in ticket front matter") t.path
      else st)
    split
    · exact idsOk_addIssue _ _ _ _ _ h
    · exact h

theorem idsOk_stepForbidden (t : Ticket) (st : VState) (h : idsOk st) :
    idsOk (stepForbidden t st) := by
  unfold stepForbidden
  exact idsOk_forbidden_fold t _ st h

theorem idsOk_stepSections (t : Ticket) (st : VState) (h : idsOk st) :
    idsOk (stepSections t st) := by
  simp only [stepSections]
  repeat' split
  all_goals repeat first
    | exact h
    | apply idsOk_addIssue
    | apply idsOk_addRepair

/-- Every `ticketslib` validation run carries the positional id series. -/
theorem idsOk_lib_validate_ticket (t : Ticket) : idsOk (lib_validate_ticket t) := by
  unfold lib_validate_ticket
  apply idsOk_stepSections
  apply idsOk_stepForbidden
  apply idsOk_stepRelationships
  apply idsOk_stepAssignment
  apply idsOk_stepPriority
  apply idsOk_stepCreatedAt
  apply idsOk_stepStatus
  apply idsOk_stepId
  apply idsOk_stepRequired
  exact idsOk_empty

/-- C9: validation is deterministic and side-effect-free in both
implementations: each validator is a pure function of the parsed ticket
(equal inputs give identical issue lists and repair-descriptor lists),
and the issue and repair ids of a `ticketslib` run are exactly the
positional sequences `I0001, I0002, ...` and `R0001, R0002, ...`, so a
second run reproduces them identically. -/
theorem C9_validation_deterministic :
    (∀ t₁ t₂ : Ticket, t₁ = t₂ → lib_validate_ticket t₁ = lib_validate_ticket t₂) ∧
    (∀ t : Ticket, idsOk (lib_validate_ticket t)) ∧
    (∀ (path₁ path₂ : Str) (fm₁ fm₂ : FM) (body₁ body₂ : Str) (af₁ af₂ : Bool),
      path₁ = path₂ → fm₁ = fm₂ → body₁ = body₂ → af₁ = af₂ →
      tickets_validate_fm path₁ fm₁ body₁ af₁ = tickets_validate_fm path₂ fm₂ body₂ af₂) :=
  ⟨fun _ _ he => by rw [he], idsOk_lib_validate_ticket,
   fun _ _ _ _ _ _ _ _ h1 h2 h3 h4 => by rw [h1, h2, h3, h4]⟩

/-- C9 witness: determinism and the positional id series at a concrete
parsed ticket. -/
theorem C9_witness :
    lib_validate_ticket ⟨cs "p", [(cs "status", Yaml.str (cs "TODO"))], []⟩ =
      lib_validate_ticket ⟨cs "p", [(cs "status", Yaml.str (cs "TODO"))], []⟩ ∧
    idsOk (lib_validate_ticket ⟨cs "p", [(cs "status", Yaml.str (cs "TODO"))], []⟩) :=
  ⟨C9_validation_deterministic.1 _ _ rfl, C9_validation_deterministic.2.1 _⟩

/-! ## C10: the id regexes reject uppercase hex digits -/

theorem UUID_RE_match_chars (s : Str) (hm : UUID_RE_match s = true) :
    ∀ x ∈ s, isLowerHexDigit x = true ∨ x = '-' := by
  unfold UUID_RE_match at hm
  split at hm
  next a b c d e heq =>
    simp only [Bool.and_eq_true] at hm
    have hall := hm.2
    rw [List.all_eq_true] at hall
    intro x hx
    have hs : s = ['-'].intercalate [a, b, c, d, e] := by
      rw [← heq, List.intercalate_splitOn]
    have hi : ['-'].intercalate [a, b, c, d, e] =
        a ++ '-' :: (b ++ '-' :: (c ++ '-' :: (d ++ '-' :: e))) := by
      simp [List.intercalate]
    rw [hs, hi] at hx
    simp only [List.mem_append, List.mem_cons] at hx
    rcases hx with hx | hx | hx | hx | hx | hx | hx | hx | hx
    · exact Or.inl (hall x (by simp [hx]))
    · exact Or.inr hx
    · exact Or.inl (hall x (by simp [hx]))
    · exact Or.inr hx
    · exact Or.inl (hall x (by simp [hx]))
    · exact Or.inr hx
    · exact Or.inl (hall x (by simp [hx]))
    · exact Or.inr hx
    · exact Or.inl (hall x (by simp [hx]))
  next =>
    exact absurd hm (by decide)

theorem UUID_V7_RE_match_chars (s : Str) (hm : UUID_V7_RE_match s = true) :
    ∀ x ∈ s, isLowerHexDigit x = true ∨ x = '-' := by
  unfold UUID_V7_RE_match at hm
  split at hm
  next a b c d e heq =>
    simp only [Bool.and_eq_true] at hm
    have hall := hm.2
    rw [List.all_eq_true] at hall
    intro x hx
    have hs : s = ['-'].intercalate [a, b, c, d, e] := by
      rw [← heq, List.intercalate_splitOn]
    have hi : ['-'].intercalate [a, b, c, d, e] =
        a ++ '-' :: (b ++ '-' :: (c ++ '-' :: (d ++ '-' :: e))) := by
      simp [List.intercalate]
    rw [hs, hi] at hx
    simp only [List.mem_append, List.mem_cons] at hx
    rcases hx with hx | hx | hx | hx | hx | hx | hx | hx | hx
    · exact Or.inl (hall x (by simp [hx]))
    · exact Or.inr hx
    · exact Or.inl (hall x (by simp [hx]))
    · exact Or.inr hx
    · exact Or.inl (hall x (by simp [hx]))
    · exact Or.inr hx
    · exact Or.inl (hall x (by simp [hx]))
    · exact Or.inr hx
    · exact Or.inl (hall x (by simp [hx]))
  next =>
    exact absurd hm (by decide)

theorem not_uuid_of_upper (s : Str) (u : Char) (hc : u ∈ s) (hcu : u ∈ cs "ABCDEF") :
    tickets_is_uuidv7 s = false ∧ lib_is_uuidv7 s = false := by
  rw [show cs "ABCDEF" = ['A', 'B', 'C', 'D', 'E', 'F'] from rfl] at hcu
  simp only [List.mem_cons, List.not_mem_nil, or_false] at hcu
  have hlhd : isLowerHexDigit u = false := by
    rcases hcu with rfl | rfl | rfl | rfl | rfl | rfl <;> decide
  have hnd : u ≠ '-' := by
    rcases hcu with rfl | rfl | rfl | rfl | rfl | rfl <;> decide
  have hre : UUID_RE_match s = false := by
    rcases Bool.eq_false_or_eq_true (UUID_RE_match s) with h | h
    · rcases UUID_RE_match_chars s h u hc with h' | h'
      · rw [hlhd] at h'
        exact absurd h' (by decide)
      · exact absurd h' hnd
    · exact h
  have hre7 : UUID_V7_RE_match s = false := by
    rcases Bool.eq_false_or_eq_true (UUID_V7_RE_match s) with h | h
    · rcases UUID_V7_RE_match_chars s h u hc with h' | h'
      · rw [hlhd] at h'
        exact absurd h' (by decide)
      · exact absurd h' hnd
    · exact h
  constructor
  · unfold tickets_is_uuidv7
    rw [hre]
    rfl
  · unfold lib_is_uuidv7
    rw [hre7]
    rfl

/-- C10: both id checks are case-sensitive to lowercase hexadecimal: a
string containing an uppercase hex digit (`A`-`F`) never matches either
regex, so `is_uuidv7` returns false in both implementations even when the
lowercased string is a valid UUIDv7; a ticket carrying such an id is
reported with `ID_NOT_UUIDV7` by the `tickets` validator and with
`TICKET_ID_INVALID` plus the regeneration repair by the `ticketslib`
validator. -/
theorem C10_id_check_case_sensitive (s : Str) (u : Char) (hc : u ∈ s)
    (hcu : u ∈ cs "ABCDEF")
    (hlow : tickets_is_uuidv7 (pyLower s) = true ∧ lib_is_uuidv7 (pyLower s) = true) :
    tickets_is_uuidv7 s = false ∧ lib_is_uuidv7 s = false ∧
    (∀ path fm, fmHas fm (cs "id") = true → pyGet fm (cs "id") = .str s →
      tickets_id_issues path fm = [mkTI "error" "ID_NOT_UUIDV7" "id must be UUIDv7" path]) ∧
    (∀ t st, pyGet t.front_matter (cs "id") = .str s →
      stepId t st = addRepair (addIssue st "error" "TICKET_ID_INVALID"
        (cs "Ticket id must be a UUIDv7 string") t.path) false "set_front_matter_field" t.path
        [("field", Yaml.str (cs "id")), ("value", Yaml.null),
         ("generate_uuidv7", Yaml.bool true), ("update_references", Yaml.null)]) := by
  obtain ⟨h1, h2⟩ := not_uuid_of_upper s u hc hcu
  refine ⟨h1, h2, ?_, ?_⟩
  · intro path fm hhas hid
    unfold tickets_id_issues
    rw [hid, yamlIsUuidStr_str, h1, hhas]
    rfl
  · intro t st hid
    simp only [stepId]
    rw [hid, yamlIsUuidStr_str, h2]
    rfl

set_option maxRecDepth 10000 in
/-- C10 witness: `"0190B7C2-1234-7abc-afed-cba987654321"` is a valid
UUIDv7 up to case, yet both recognizers reject it and the `tickets` id
rule reports `ID_NOT_UUIDV7`. -/
theorem C10_witness :
    tickets_is_uuidv7 (cs "0190B7C2-1234-7abc-afed-cba987654321") = false ∧
    lib_is_uuidv7 (cs "0190B7C2-1234-7abc-afed-cba987654321") = false ∧
    tickets_id_issues (cs "p")
      [(cs "id", Yaml.str (cs "0190B7C2-1234-7abc-afed-cba987654321"))] =
      [mkTI "error" "ID_NOT_UUIDV7" "id must be UUIDv7" (cs "p")] := by
  have h := C10_id_check_case_sensitive (cs "0190B7C2-1234-7abc-afed-cba987654321") 'B'
    (by decide) (by decide) ⟨by rfl, by rfl⟩
  exact ⟨h.1, h.2.1, h.2.2.1 (cs "p") _ (by rfl) rfl⟩

end TicketsProof
